import Mathlib

/-!
Analysis pipeline of `triagectl`.

A shallow embedding of the analysis core of `triagectl`
(`internal/models/artifact.go`, `internal/analysis/*.go`) and of its timeline
(`internal/output/timeline.go`, `buildTimeline` of `internal/report/generator.go`),
together with the properties of scoring, tagging, indicator matching and event
time resolution proved about it.

Modelling conventions.

* Go `string` is `String`, taken to hold valid UTF-8; substring, prefix and
  slicing operations act on the character list `String.data`. The separators
  sliced at (`/`, `:`) are single bytes, so slicing after a separator gives the
  same text by bytes and by characters.
* Go `int` is `Int`. Scores are sums of a handful of constants below 111 and
  every collector emits `RiskScore = 0`, so the analyzers are first modelled with
  addition on the integers; the definitions under `int64.` repeat the pipeline
  with the addition wrapped into the 64-bit range, and the properties that depend
  on the limits are stated about them. `strconv.Atoi` is modelled with its
  saturation.
* `strings.ToLower` maps every rune through `unicode.ToLower`: ASCII letters by
  arithmetic, any other rune through the case tables, which are a parameter.
* `map[string]interface{}` is an association list read by first key; a
  `map[string]bool` used as a set is the list of its keys. Go leaves the order
  of `range` over a map unspecified; the model iterates in list order.
* A `for i, art := range artifacts` loop that only writes `artifacts[i]` is
  `List.map` of its body.
* `time.Time` is an instant in nanoseconds since the Unix epoch; `time.Now`,
  `time.Parse`, `Time.Format` and `net.ParseIP` belong to the Go runtime and are
  parameters. `sort.Slice` is an insertion sort; file and CSV output is not
  modelled.
-/

namespace Triagectl

/-! ## Go standard library -/

/-- Model of `strings.HasPrefix(s, pre)`. -/
def HasPrefix (s pre : String) : Bool :=
  pre.data.isPrefixOf s.data

/-- Substring test on character lists: `sub` starts at some position of the list. -/
def containsChars : List Char → List Char → Bool
  | [], sub => sub.isEmpty
  | c :: cs, sub => sub.isPrefixOf (c :: cs) || containsChars cs sub

/-- Model of `strings.Contains(s, sub)`. -/
def Contains (s sub : String) : Bool :=
  containsChars s.data sub.data

/-- Index of the last occurrence of `c` in a character list, `-1` when absent. -/
def lastIndexChars (c : Char) : List Char → Int
  | [] => -1
  | x :: xs =>
    let r := lastIndexChars c xs
    if r ≥ 0 then r + 1 else if x = c then 0 else -1

/-- Model of `strings.LastIndex(s, sep)` for a one-character separator. -/
def LastIndex (s : String) (sep : Char) : Int :=
  lastIndexChars sep s.data

/-- Go slice expression `s[i:]` for `0 ≤ i ≤ len(s)`. -/
def sliceFrom (s : String) (i : Int) : String :=
  ⟨s.data.drop i.toNat⟩

/-- Model of `unicode.IsSpace`. -/
def isSpace (c : Char) : Bool :=
  let n := c.toNat
  (9 ≤ n && n ≤ 13) || n == 32 || n == 0x85 || n == 0xA0 || n == 0x1680 ||
    (0x2000 ≤ n && n ≤ 0x200a) || n == 0x2028 || n == 0x2029 || n == 0x202f ||
    n == 0x205f || n == 0x3000

/-- Model of `strings.TrimSpace(s)`. -/
def TrimSpace (s : String) : String :=
  ⟨((s.data.dropWhile isSpace).reverse.dropWhile isSpace).reverse⟩

/-- Decimal rendering of an `int` (the verbs `%d` and `%v`). -/
def formatInt (n : Int) : String :=
  if n < 0 then "-" ++ Nat.repr n.natAbs else Nat.repr n.toNat

/-- Largest value of a 64-bit `int`. -/
def maxInt64 : Int := 9223372036854775807

/-- Smallest value of a 64-bit `int`. -/
def minInt64 : Int := -9223372036854775808

/-- Value of a decimal digit character. -/
def digitVal (c : Char) : Int :=
  (c.toNat : Int) - 48

/-- Model of `n, _ := strconv.Atoi(s)`: an optional sign followed by one or more decimal
digits; `0` on a syntax error, the nearest 64-bit bound on a range error. -/
def Atoi (s : String) : Int :=
  let cs := s.data
  let neg := cs.head? = some '-'
  let ds := if cs.head? = some '-' ∨ cs.head? = some '+' then cs.tail else cs
  if ds.isEmpty || !ds.all Char.isDigit then 0
  else
    let n := ds.foldl (fun acc d => acc * 10 + digitVal d) 0
    if neg then (if -n < minInt64 then minInt64 else -n)
    else (if n > maxInt64 then maxInt64 else n)

/-- The Go runtime functions the analysis consults but the repository does not define. -/
structure GoLib where
  /-- Model of `time.Parse(layout, value)`: the parsed instant, `none` on error. -/
  Parse : String → String → Option Int
  /-- Model of `net.ParseIP(s) != nil`. -/
  ParseIP : String → Bool
  /-- Model of `t.Format(layout)`: the text of an instant under a layout. -/
  Format : String → Int → String
  /-- Model of `unicode.To(unicode.LowerCase, r)` for a rune outside ASCII: the lower-case
  mapping of the Unicode case tables. -/
  LowerCase : Char → Char

/-- Model of `unicode.ToLower(r)`: an ASCII rune is lower-cased by arithmetic (`A`..`Z` are
moved to `a`..`z`, the others kept), any other rune through the case tables. -/
def unicodeToLower (lib : GoLib) (r : Char) : Char :=
  if r.toNat ≤ 127 then r.toLower else lib.LowerCase r

/-- Model of `strings.ToLower(s)`: `unicode.ToLower` applied to every rune of `s`. -/
def ToLower (lib : GoLib) (s : String) : String :=
  ⟨s.data.map (unicodeToLower lib)⟩

/-- Layout constant `time.RFC3339`. -/
def RFC3339 : String := "2006-01-02T15:04:05Z07:00"

/-- One hour as a `time.Duration` (nanoseconds). -/
def Hour : Int := 3600000000000

/-- Model of `t.Sub(u)`: the difference, saturated to the range of `time.Duration`. -/
def timeSub (t u : Int) : Int :=
  let d := t - u
  if d > maxInt64 then maxInt64 else if d < minInt64 then minInt64 else d

/-! ## Data model (`internal/models/artifact.go`) -/

/-- A dynamically typed payload value (`interface{}`): a string, an `int`, a `bool`, or any
other value (float, nil, slice, nested map), which the analysis only ever sees through its
`%v` rendering. -/
inductive Value where
  | str (s : String)
  | int (n : Int)
  | bool (b : Bool)
  | other (rendered : String)
deriving DecidableEq

/-- Model of `fmt.Sprintf("%v", v)`. -/
def formatValue : Value → String
  | .str s => s
  | .int n => formatInt n
  | .bool b => if b then "true" else "false"
  | .other r => r

/-- The payload mapping `map[string]interface{}`. -/
abbrev DataMap := List (String × Value)

/-- Collection metadata carried by an artifact. -/
structure ArtifactMetadata where
  Success : Bool
  ErrorMessage : String
  RequiresRoot : Bool
  SourcePath : String
  FileHash : String
  CollectedAt : String
deriving DecidableEq

/-- A collected forensic artifact. -/
structure Artifact where
  Timestamp : Int
  CollectorID : String
  ArtifactType : String
  Hostname : String
  Data : DataMap
  Metadata : ArtifactMetadata
  Severity : String
  RiskScore : Int
  Tags : List String
  EventTime : Option Int
deriving DecidableEq

/-- Severity level of a risk score. -/
def SeverityFromScore (score : Int) : String :=
  if score ≥ 80 then "critical"
  else if score ≥ 60 then "high"
  else if score ≥ 40 then "medium"
  else if score ≥ 20 then "low"
  else "info"

/-! ## Shared helpers (`internal/analysis/suspicious_process.go`) -/

/-- Field accessor: the `%v` rendering of `d[key]`, the empty string when the key is missing. -/
def getString (d : DataMap) (key : String) : String :=
  match d.lookup key with
  | some v => formatValue v
  | none => ""

/-- Appends to `existing` every item not yet seen; `seen` starts as the set of existing
values and grows with every appended item. -/
def appendUnique (existing : List String) (items : List String) : List String :=
  let seen : String → Bool :=
    existing.foldl (fun seen s => Function.update seen s true) (fun _ => false)
  (items.foldl
    (fun (st : List String × (String → Bool)) item =>
      if !st.2 item then (st.1 ++ [item], Function.update st.2 item true) else st)
    (existing, seen)).1

/-- The common tail of the three rule analyzers: when the rules scored anything, add the
score and merge the tags into `artifacts[i]`. -/
def applyRules (art : Artifact) (r : Int × List String) : Artifact :=
  if r.1 > 0 then
    { art with RiskScore := art.RiskScore + r.1, Tags := appendUnique art.Tags r.2 }
  else art

/-! ## Suspicious Process analyzer (`internal/analysis/suspicious_process.go`) -/

/-- The keys of the `suspiciousNames` table. -/
def suspiciousNames : List String :=
  ["nc", "ncat", "socat", "base64", "osascript", "nmap", "tcpdump",
   "python", "perl", "ruby", "tor", "obfs4proxy", "snowflake-client"]

/-- The last path segment of `name`: `name[idx+1:]` when `name` holds a `/`, else `name`. -/
def baseNameOf (name : String) : String :=
  let idx := LastIndex name '/'
  if idx ≥ 0 then sliceFrom name (idx + 1) else name

/-- The rule block of `SuspiciousProcessAnalyzer.Analyze` for one `running_process`
artifact: the score and the tags collected by the five rules. -/
def SuspiciousProcessAnalyzer.rules (lib : GoLib) (art : Artifact) : Int × List String :=
  let exe := getString art.Data "exe"
  let name := getString art.Data "name"
  let username := getString art.Data "username"
  let cwd := getString art.Data "cwd"
  let st : Int × List String := (0, [])
  let st :=
    if HasPrefix exe "/tmp/" || HasPrefix exe "/var/tmp/" ||
        HasPrefix exe "/private/tmp/" || HasPrefix exe "/private/var/tmp/" then
      (st.1 + 30, st.2 ++ ["exe_in_tmp"])
    else st
  let baseName := baseNameOf name
  let st :=
    if suspiciousNames.contains (ToLower lib baseName) then
      (st.1 + 20, st.2 ++ ["suspicious_name:" ++ baseName])
    else st
  let st :=
    if exe == "" && name != "" then (st.1 + 15, st.2 ++ ["no_exe_path"]) else st
  let st :=
    if username == "root" && (HasPrefix cwd "/Users/" || HasPrefix exe "/Users/") then
      (st.1 + 25, st.2 ++ ["root_in_user_dir"])
    else st
  let st :=
    if HasPrefix baseName "." then (st.1 + 20, st.2 ++ ["hidden_process"]) else st
  st

/-- Loop body of `SuspiciousProcessAnalyzer.Analyze`. -/
def SuspiciousProcessAnalyzer.step (lib : GoLib) (art : Artifact) : Artifact :=
  if art.ArtifactType != "running_process" then art
  else applyRules art (SuspiciousProcessAnalyzer.rules lib art)

/-- Model of `(*SuspiciousProcessAnalyzer).Analyze`. -/
def SuspiciousProcessAnalyzer.Analyze (lib : GoLib) (artifacts : List Artifact) :
    List Artifact :=
  artifacts.map (SuspiciousProcessAnalyzer.step lib)

/-! ## Network Anomaly analyzer (`internal/analysis/network_anomaly.go`) -/

/-- The keys of the `c2Ports` table. -/
def c2Ports : List Int := [4444, 5555, 1337, 31337, 8443, 9999, 1234]

/-- The keys of the `ircPorts` table. -/
def ircPorts : List Int := [6667, 6668, 6669, 6697]

/-- The keys of the `torPorts` table. -/
def torPorts : List Int := [9050, 9150]

/-- Port accessor: the field parsed as an integer, `0` when missing or not a number. -/
def getPort (d : DataMap) (key : String) : Int :=
  let v := getString d key
  if v == "" then 0 else Atoi v

/-- The artifact types the network analyzer acts on. -/
def isNetworkType (t : String) : Bool :=
  t == "network_connection" || t == "open_network_file"

/-- The pre-pass of `NetworkAnomalyAnalyzer.Analyze`: connections per pid over the batch. -/
def pidConnCount (artifacts : List Artifact) : String → Int :=
  artifacts.foldl
    (fun (m : String → Int) art =>
      if isNetworkType art.ArtifactType then
        let pid := getString art.Data "pid"
        if pid != "" then Function.update m pid (m pid + 1) else m
      else m)
    (fun _ => 0)

/-- The remote port the network rules use: the `remote_port` field, and when that gives
`0`, the integer after the last `:` of a non-empty `remote_addr`. -/
def resolveRemotePort (d : DataMap) : Int :=
  let remotePort := getPort d "remote_port"
  if remotePort == 0 then
    let addr := getString d "remote_addr"
    if addr != "" then
      let idx := LastIndex addr ':'
      if idx ≥ 0 then Atoi (sliceFrom addr (idx + 1)) else remotePort
    else remotePort
  else remotePort

/-- The rule block of `NetworkAnomalyAnalyzer.Analyze` for one network artifact, given the
per-pid counts of the batch. -/
def NetworkAnomalyAnalyzer.rules (counts : String → Int) (art : Artifact) : Int × List String :=
  let remotePort := resolveRemotePort art.Data
  let remoteAddr := getString art.Data "remote_addr"
  let isExternal := remoteAddr != "" && !HasPrefix remoteAddr "127." &&
    !HasPrefix remoteAddr "::1" && remoteAddr != "0.0.0.0" && remoteAddr != "*"
  let st : Int × List String := (0, [])
  let st :=
    if decide (remotePort > 0) && c2Ports.contains remotePort && isExternal then
      (st.1 + 30, st.2 ++ ["c2_port:" ++ formatInt remotePort])
    else st
  let st :=
    if decide (remotePort > 0) && ircPorts.contains remotePort && isExternal then
      (st.1 + 20, st.2 ++ ["irc_connection"])
    else st
  let localPort := getPort art.Data "local_port"
  let st :=
    if (decide (remotePort > 0) && torPorts.contains remotePort) ||
        (decide (localPort > 0) && torPorts.contains localPort) then
      (st.1 + 20, st.2 ++ ["tor_connection"])
    else st
  let pid := getString art.Data "pid"
  let st :=
    if pid != "" && decide (counts pid > 50) then (st.1 + 10, st.2 ++ ["high_conn_count"])
    else st
  st

/-- Loop body of the second loop of `NetworkAnomalyAnalyzer.Analyze`. -/
def NetworkAnomalyAnalyzer.step (counts : String → Int) (art : Artifact) : Artifact :=
  if art.ArtifactType != "network_connection" && art.ArtifactType != "open_network_file" then art
  else applyRules art (NetworkAnomalyAnalyzer.rules counts art)

/-- Model of `(*NetworkAnomalyAnalyzer).Analyze`. -/
def NetworkAnomalyAnalyzer.Analyze (artifacts : List Artifact) : List Artifact :=
  artifacts.map (NetworkAnomalyAnalyzer.step (pidConnCount artifacts))

/-! ## Persistence Anomaly analyzer (`internal/analysis/persistence_anomaly.go`) -/

/-- Rules for launch agents and daemons. -/
def PersistenceAnomalyAnalyzer.analyzeLaunchAgent (lib : GoLib) (art : Artifact) (now : Int) :
    Int × List String :=
  let st : Int × List String := (0, [])
  let path := getString art.Data "path"
  let modTimeStr := getString art.Data "mod_time"
  let st :=
    if modTimeStr != "" then
      match lib.Parse RFC3339 modTimeStr with
      | some modTime =>
        if timeSub now modTime < 24 * Hour then (st.1 + 20, st.2 ++ ["recently_modified"])
        else st
      | none => st
    else st
  let st :=
    if Contains path "/tmp/" || Contains path "/var/tmp/" || Contains path "/private/tmp/" then
      (st.1 + 35, st.2 ++ ["plist_in_tmp"])
    else st
  let name := getString art.Data "name"
  let st :=
    if (art.ArtifactType == "system_launch_agent" || art.ArtifactType == "system_launch_daemon") &&
        !HasPrefix name "com.apple." then
      (st.1 + 10, st.2 ++ ["non_apple_system_plist"])
    else st
  st

/-- Rules for cron entries. -/
def PersistenceAnomalyAnalyzer.analyzeCron (lib : GoLib) (art : Artifact) :
    Int × List String :=
  let st : Int × List String := (0, [])
  let entry := getString art.Data "entry"
  let entryLower := ToLower lib entry
  let st :=
    if (Contains entryLower "curl" || Contains entryLower "wget") &&
        (Contains entryLower "| sh" || Contains entryLower "|sh" ||
          Contains entryLower "| bash" || Contains entryLower "|bash") then
      (st.1 + 30, st.2 ++ ["cron_curl_pipe_sh"])
    else st
  let st :=
    if Contains entry "/tmp/" || Contains entry "/var/tmp/" then
      (st.1 + 20, st.2 ++ ["cron_tmp_path"])
    else st
  st

/-- Rules for login items. -/
def PersistenceAnomalyAnalyzer.analyzeLoginItem (art : Artifact) : Int × List String :=
  let st : Int × List String := (0, [])
  let path := getString art.Data "path"
  let content := getString art.Data "content"
  let st :=
    if Contains path "/tmp/" || Contains content "/tmp/" then
      (st.1 + 25, st.2 ++ ["login_item_tmp_path"])
    else st
  st

/-- Rules for library extensions. -/
def PersistenceAnomalyAnalyzer.analyzeExtension (lib : GoLib) (art : Artifact) (now : Int) :
    Int × List String :=
  let st : Int × List String := (0, [])
  let modTimeStr := getString art.Data "mod_time"
  let st :=
    if modTimeStr != "" then
      match lib.Parse RFC3339 modTimeStr with
      | some modTime =>
        if timeSub now modTime < 24 * Hour then
          (st.1 + 15, st.2 ++ ["recently_installed_extension"])
        else st
      | none => st
    else st
  st

/-- The `switch art.ArtifactType` of `PersistenceAnomalyAnalyzer.Analyze`. -/
def PersistenceAnomalyAnalyzer.rules (lib : GoLib) (now : Int) (art : Artifact) :
    Int × List String :=
  let t := art.ArtifactType
  if t == "user_launch_agent" || t == "system_launch_agent" || t == "system_launch_daemon" then
    PersistenceAnomalyAnalyzer.analyzeLaunchAgent lib art now
  else if t == "user_crontab" || t == "system_cron" then
    PersistenceAnomalyAnalyzer.analyzeCron lib art
  else if t == "login_item_btm" || t == "login_item_backgrounditems" then
    PersistenceAnomalyAnalyzer.analyzeLoginItem art
  else if t == "library_extension" then
    PersistenceAnomalyAnalyzer.analyzeExtension lib art now
  else (0, [])

/-- Loop body of `PersistenceAnomalyAnalyzer.Analyze`. -/
def PersistenceAnomalyAnalyzer.step (lib : GoLib) (now : Int) (art : Artifact) : Artifact :=
  applyRules art (PersistenceAnomalyAnalyzer.rules lib now art)

/-- Model of `(*PersistenceAnomalyAnalyzer).Analyze`; `now` is the reading of `time.Now()`. -/
def PersistenceAnomalyAnalyzer.Analyze (lib : GoLib) (now : Int) (artifacts : List Artifact) :
    List Artifact :=
  artifacts.map (PersistenceAnomalyAnalyzer.step lib now)

/-! ## IOC matcher (`internal/analysis/ioc_matcher.go`) -/

/-- The four indicator sets. -/
structure IOCMatcher where
  ips : List String
  domains : List String
  hashes : List String
  paths : List String
deriving DecidableEq

/-- Map assignment `set[key] = true`. -/
def setInsert (set : List String) (key : String) : List String :=
  if key ∈ set then set else set ++ [key]

/-- A hexadecimal digit `[0-9a-fA-F]`. -/
def isHexDigit (c : Char) : Bool :=
  c.isDigit || ('a' ≤ c && c ≤ 'f') || ('A' ≤ c && c ≤ 'F')

/-- Model of `hashRegex.MatchString`: 32 to 128 hexadecimal digits and nothing else. -/
def hashRegexMatch (line : String) : Bool :=
  decide (32 ≤ line.data.length) && decide (line.data.length ≤ 128) && line.data.all isHexDigit

/-- Splits a character list at every occurrence of `sep`. -/
def splitChars (sep : Char) : List Char → List (List Char)
  | [] => [[]]
  | c :: cs =>
    match splitChars sep cs with
    | [] => [[]]
    | l :: ls => if c = sep then [] :: l :: ls else (c :: l) :: ls

/-- One label of the domain pattern: an alphanumeric, optionally followed by alphanumerics
and hyphens ending in an alphanumeric. -/
def isDomainLabel (l : List Char) : Bool :=
  match l.head?, l.getLast? with
  | some a, some z => a.isAlphanum && z.isAlphanum && l.all (fun c => c.isAlphanum || c == '-')
  | _, _ => false

/-- Model of `domainRegex.MatchString`: two or more labels joined by dots. -/
def domainRegexMatch (line : String) : Bool :=
  let labels := splitChars '.' line.data
  decide (2 ≤ labels.length) && labels.all isDomainLabel

/-- The empty matcher `NewIOCMatcher` starts from. -/
def IOCMatcher.empty : IOCMatcher :=
  { ips := [], domains := [], hashes := [], paths := [] }

/-- Loop body of `NewIOCMatcher` for one scanned line. -/
def NewIOCMatcher.addLine (lib : GoLib) (m : IOCMatcher) (text : String) : IOCMatcher :=
  let line := TrimSpace text
  if line == "" || HasPrefix line "#" then m
  else if lib.ParseIP line then { m with ips := setInsert m.ips line }
  else if hashRegexMatch line then { m with hashes := setInsert m.hashes (ToLower lib line) }
  else if HasPrefix line "/" then { m with paths := setInsert m.paths line }
  else if domainRegexMatch line then { m with domains := setInsert m.domains (ToLower lib line) }
  else { m with domains := setInsert m.domains (ToLower lib line) }

/-- Model of `NewIOCMatcher` on a file that opened and was read without error; `lines`
are the lines the scanner yields. -/
def NewIOCMatcher (lib : GoLib) (lines : List String) : IOCMatcher :=
  lines.foldl (NewIOCMatcher.addLine lib) IOCMatcher.empty

/-- The four indicator loops of `IOCMatcher.Analyze` for one string value `s`; the state
is `(matched, tags)`. -/
def IOCMatcher.scanField (lib : GoLib) (m : IOCMatcher) (st : Bool × List String)
    (s : String) : Bool × List String :=
  let st := m.ips.foldl
    (fun st ip => if Contains s ip then (true, st.2 ++ ["ioc_match:ip:" ++ ip]) else st) st
  let sLower := ToLower lib s
  let st := m.domains.foldl
    (fun st domain =>
      if Contains sLower domain then (true, st.2 ++ ["ioc_match:domain:" ++ domain]) else st) st
  let st := m.hashes.foldl
    (fun st hash =>
      if Contains sLower hash then (true, st.2 ++ ["ioc_match:hash:" ++ hash]) else st) st
  let st := m.paths.foldl
    (fun st path => if Contains s path then (true, st.2 ++ ["ioc_match:path:" ++ path]) else st) st
  st

/-- The loop over `art.Data` of `IOCMatcher.Analyze`: values that are not strings are
skipped. -/
def IOCMatcher.scan (lib : GoLib) (m : IOCMatcher) (art : Artifact) : Bool × List String :=
  art.Data.foldl
    (fun st kv =>
      match kv.2 with
      | .str s => m.scanField lib st s
      | _ => st)
    (false, [])

/-- Loop body of `IOCMatcher.Analyze`. -/
def IOCMatcher.step (lib : GoLib) (m : IOCMatcher) (art : Artifact) : Artifact :=
  let r := m.scan lib art
  if r.1 then
    { art with RiskScore := 90,
               Tags := appendUnique (appendUnique art.Tags ["ioc_match"]) r.2 }
  else art

/-- Model of `(*IOCMatcher).Analyze`. -/
def IOCMatcher.Analyze (lib : GoLib) (m : IOCMatcher) (artifacts : List Artifact) :
    List Artifact :=
  artifacts.map (m.step lib)

/-! ## Pipeline runner (`internal/analysis/analyzer.go`) -/

/-- The implementations of the `Analyzer` interface. -/
inductive Analyzer where
  | suspiciousProcess
  | networkAnomaly
  | persistenceAnomaly
  | iocMatcher (m : IOCMatcher)
deriving DecidableEq

/-- Method `Name` of the interface. -/
def Analyzer.Name : Analyzer → String
  | .suspiciousProcess => "suspicious_process"
  | .networkAnomaly => "network_anomaly"
  | .persistenceAnomaly => "persistence_anomaly"
  | .iocMatcher _ => "ioc_matcher"

/-- Method `Analyze` of the interface. -/
def Analyzer.Analyze (lib : GoLib) (now : Int) : Analyzer → List Artifact → List Artifact
  | .suspiciousProcess, artifacts => SuspiciousProcessAnalyzer.Analyze lib artifacts
  | .networkAnomaly, artifacts => NetworkAnomalyAnalyzer.Analyze artifacts
  | .persistenceAnomaly, artifacts => PersistenceAnomalyAnalyzer.Analyze lib now artifacts
  | .iocMatcher m, artifacts => m.Analyze lib artifacts

/-- The registry as `init` leaves it. -/
def builtinAnalyzers : List Analyzer :=
  [.suspiciousProcess, .networkAnomaly, .persistenceAnomaly]

/-- Model of `RegisterAnalyzer`: the registry with `a` appended. -/
def RegisterAnalyzer (analyzers : List Analyzer) (a : Analyzer) : List Analyzer :=
  analyzers ++ [a]

/-- The first loop of `RunAll`: every analyzer of the registry in turn. -/
def runAnalyzers (lib : GoLib) (now : Int) (analyzers : List Analyzer)
    (artifacts : List Artifact) : List Artifact :=
  analyzers.foldl (fun arts a => a.Analyze lib now arts) artifacts

/-- The second loop of `RunAll`, for one artifact. -/
def finalizeSeverity (art : Artifact) : Artifact :=
  if decide (art.RiskScore > 0) && art.Severity == "" then
    { art with Severity := SeverityFromScore art.RiskScore }
  else art

/-- Model of `RunAll` over the registry `analyzers`. -/
def RunAll (lib : GoLib) (now : Int) (analyzers : List Analyzer) (artifacts : List Artifact) :
    List Artifact :=
  (runAnalyzers lib now analyzers artifacts).map finalizeSeverity

/-! ## The pipeline on 64-bit integers

The score of an artifact is a Go `int`, and `artifacts[i].RiskScore += score` wraps around at
the 64-bit limits. The definitions above add on the integers, which is what the code computes
as long as no sum leaves the 64-bit range; the definitions of this section carry out the
addition as the machine does. The rule blocks are shared: their local `score` is a sum of at
most five constants and never comes near the limits. -/

/-- The value a Go `int` holds after an addition whose exact result is `n`: `n` wrapped into
the 64-bit two's-complement range. -/
def wrapInt64 (n : Int) : Int :=
  (n - minInt64) % 18446744073709551616 + minInt64

/-- The common tail of the three rule analyzers as Go executes it on `int`:
`artifacts[i].RiskScore += score` wraps around at the 64-bit limits. -/
def int64.applyRules (art : Artifact) (r : Int × List String) : Artifact :=
  if r.1 > 0 then
    { art with RiskScore := wrapInt64 (art.RiskScore + r.1), Tags := appendUnique art.Tags r.2 }
  else art

/-- Loop body of `SuspiciousProcessAnalyzer.Analyze` on 64-bit integers. -/
def int64.SuspiciousProcessAnalyzer.step (lib : GoLib) (art : Artifact) : Artifact :=
  if art.ArtifactType != "running_process" then art
  else int64.applyRules art (Triagectl.SuspiciousProcessAnalyzer.rules lib art)

/-- Loop body of the second loop of `NetworkAnomalyAnalyzer.Analyze` on 64-bit integers. -/
def int64.NetworkAnomalyAnalyzer.step (counts : String → Int) (art : Artifact) : Artifact :=
  if art.ArtifactType != "network_connection" && art.ArtifactType != "open_network_file" then art
  else int64.applyRules art (Triagectl.NetworkAnomalyAnalyzer.rules counts art)

/-- Loop body of `PersistenceAnomalyAnalyzer.Analyze` on 64-bit integers. -/
def int64.PersistenceAnomalyAnalyzer.step (lib : GoLib) (now : Int) (art : Artifact) :
    Artifact :=
  int64.applyRules art (Triagectl.PersistenceAnomalyAnalyzer.rules lib now art)

/-- Method `Analyze` of the interface on 64-bit integers; the IOC matcher assigns the score
and adds nothing. -/
def int64.Analyze (lib : GoLib) (now : Int) : Analyzer → List Artifact → List Artifact
  | .suspiciousProcess, artifacts => artifacts.map (int64.SuspiciousProcessAnalyzer.step lib)
  | .networkAnomaly, artifacts =>
    artifacts.map (int64.NetworkAnomalyAnalyzer.step (pidConnCount artifacts))
  | .persistenceAnomaly, artifacts =>
    artifacts.map (int64.PersistenceAnomalyAnalyzer.step lib now)
  | .iocMatcher m, artifacts => m.Analyze lib artifacts

/-- The first loop of `RunAll` on 64-bit integers. -/
def int64.runAnalyzers (lib : GoLib) (now : Int) (analyzers : List Analyzer)
    (artifacts : List Artifact) : List Artifact :=
  analyzers.foldl (fun arts a => int64.Analyze lib now a arts) artifacts

/-- Model of `RunAll` on 64-bit integers. -/
def int64.RunAll (lib : GoLib) (now : Int) (analyzers : List Analyzer)
    (artifacts : List Artifact) : List Artifact :=
  (int64.runAnalyzers lib now analyzers artifacts).map finalizeSeverity

/-! ## Timeline (`internal/output/timeline.go`, `internal/report/generator.go`) -/

/-- Model of `strings.HasSuffix(s, suf)`. -/
def HasSuffix (s suf : String) : Bool :=
  suf.data.isSuffixOf s.data

/-- Layout constant `time.RFC3339Nano`. -/
def RFC3339Nano : String := "2006-01-02T15:04:05.999999999Z07:00"

/-- Model of `t.UnixMicro()`: whole microseconds since the epoch, rounded down. -/
def UnixMicro (t : Int) : Int :=
  t / 1000

/-- Places `x` in a list ordered by `less`, in front of the first element that is not less
than `x`. -/
def insertSorted {α : Type} (less : α → α → Bool) (x : α) : List α → List α
  | [] => [x]
  | y :: ys => if less y x then y :: insertSorted less x ys else x :: y :: ys

/-- Stand-in for `sort.Slice(entries, less)`: an insertion sort. Go promises a permutation
ordered by `less` and leaves the order of elements that compare equal unspecified; the
stand-in keeps them in input order. -/
def sortSlice {α : Type} (less : α → α → Bool) : List α → List α
  | [] => []
  | x :: xs => insertSorted less x (sortSlice less xs)

/-- The inner loop of `resolveEventTime`: the first layout under which `s` parses. -/
def parseFirst (lib : GoLib) (layouts : List String) (s : String) : Option Int :=
  layouts.findSome? (fun layout => lib.Parse layout s)

/-- The body of the loop over the candidate fields: the parsed time of a field that is
present, holds a string and parses under one of the layouts. -/
def fieldTime (lib : GoLib) (layouts : List String) (d : DataMap) (field : String) : Option Int :=
  match d.lookup field with
  | some (.str s) => parseFirst lib layouts s
  | _ => none

/-- The candidate fields of the export resolver, in order. -/
def output.timeFields : List String :=
  ["visit_time", "last_visit_time", "mod_time", "timestamp", "event_time", "last_modified",
   "modified", "created"]

/-- The layouts of the export resolver, in order. -/
def output.timeLayouts : List String :=
  [RFC3339, "2006-01-02T15:04:05.000Z", "2006-01-02 15:04:05", RFC3339Nano]

/-- Model of `resolveEventTime` of package `output`. -/
def output.resolveEventTime (lib : GoLib) (a : Artifact) : Int :=
  match a.EventTime with
  | some t => t
  | none =>
    match output.timeFields.findSome? (fieldTime lib output.timeLayouts a.Data) with
    | some t => t
    | none => a.Timestamp

/-- The candidate fields of the report resolver, in order. -/
def report.timeFields : List String :=
  ["visit_time", "last_visit_time", "mod_time", "timestamp", "event_time", "last_modified"]

/-- The layouts of the report resolver, in order. -/
def report.timeLayouts : List String :=
  [RFC3339, "2006-01-02T15:04:05.000Z", "2006-01-02 15:04:05"]

/-- Model of `resolveEventTime` of package `report`. -/
def report.resolveEventTime (lib : GoLib) (a : Artifact) : Int :=
  match a.EventTime with
  | some t => t
  | none =>
    match report.timeFields.findSome? (fieldTime lib report.timeLayouts a.Data) with
    | some t => t
    | none => a.Timestamp

/-- Timestamp description of an artifact type. -/
def timestampDesc (lib : GoLib) (artifactType : String) : String :=
  let atype := ToLower lib artifactType
  if atype == "safari_history" || atype == "chrome_history" then "Browser Visit"
  else if HasSuffix atype "launch_agent" || HasSuffix atype "launch_daemon" then
    "Persistence Modified"
  else if atype == "running_process" then "Process Running"
  else if atype == "network_connection" || atype == "open_network_file" then "Network Connection"
  else if atype == "recent_file" then "File Accessed"
  else if atype == "bash_history" || atype == "zsh_history" then "Command Executed"
  else if atype == "quarantine_event" then "File Downloaded"
  else if HasPrefix atype "unified_log_" then "Log Entry"
  else if atype == "user_crash_report" || atype == "system_crash_report" then "Crash Report"
  else if atype == "install_log" then "Software Installed"
  else if HasSuffix atype "_status" then "Security Status Collected"
  else "Event Logged"

/-- One event of the exported timeline. -/
structure TimelineEntry where
  Message : String
  Datetime : String
  Timestamp : Int
  TimestampDesc : String
  CollectorID : String
  ArtifactType : String
  Hostname : String
  RiskScore : Int
  Data : DataMap
deriving DecidableEq

/-- The entry the first loop of `GenerateTimeline` appends for one artifact; `summarize` is
`none` for a nil callback. `Datetime` is the text of the resolved instant in UTC. -/
def GenerateTimeline.entryOf (lib : GoLib) (summarize : Option (Artifact → String))
    (a : Artifact) : TimelineEntry :=
  let et := output.resolveEventTime lib a
  let msg :=
    match summarize with
    | some f => f a
    | none => ""
  { Message := msg
    Datetime := lib.Format RFC3339 et
    Timestamp := UnixMicro et
    TimestampDesc := timestampDesc lib a.ArtifactType
    CollectorID := a.CollectorID
    ArtifactType := a.ArtifactType
    Hostname := a.Hostname
    RiskScore := a.RiskScore
    Data := a.Data }

/-- The entries of `GenerateTimeline` after the sort, in the order they are written. -/
def GenerateTimeline.entries (lib : GoLib) (summarize : Option (Artifact → String))
    (artifacts : List Artifact) : List TimelineEntry :=
  sortSlice (fun a b => decide (a.Timestamp < b.Timestamp))
    (artifacts.map (GenerateTimeline.entryOf lib summarize))

/-- Model of `(*csv.Writer).fieldNeedsQuotes` for the default comma. -/
def csvFieldNeedsQuotes (field : String) : Bool :=
  if field == "" then false
  else if field == "\\." then true
  else if field.data.any (fun c => c == '\n' || c == '\r' || c == '"' || c == ',') then true
  else
    match field.data.head? with
    | some r1 => isSpace r1
    | none => false

/-- The body of a quoted field as `Write` emits it: every double quote is doubled, every
other character is written as it is. -/
def csvQuoteChars : List Char → List Char
  | [] => []
  | c :: cs => if c = '"' then '"' :: '"' :: csvQuoteChars cs else c :: csvQuoteChars cs

/-- One field as `Write` emits it. -/
def csvWriteField (field : String) : List Char :=
  if csvFieldNeedsQuotes field then '"' :: (csvQuoteChars field.data ++ ['"']) else field.data

/-- Model of `(*csv.Writer).Write(record)` with the default settings: the fields separated
by commas and ended by a line feed. -/
def csvWrite : List String → List Char
  | [] => ['\n']
  | [f] => csvWriteField f ++ ['\n']
  | f :: g :: rest => csvWriteField f ++ ',' :: csvWrite (g :: rest)

/-- The header row `GenerateTimeline` writes first. -/
def GenerateTimeline.header : List String :=
  ["message", "datetime", "timestamp", "timestamp_desc", "collector_id", "artifact_type",
   "hostname", "risk_score", "data"]

/-- The row `GenerateTimeline` builds for one entry; `marshal` stands for `json.Marshal` on
the payload. -/
def GenerateTimeline.rowOf (marshal : DataMap → String) (e : TimelineEntry) : List String :=
  [e.Message, e.Datetime, formatInt e.Timestamp, e.TimestampDesc, e.CollectorID,
   e.ArtifactType, e.Hostname, formatInt e.RiskScore, marshal e.Data]

/-- A row of the report timeline. -/
structure TimelineRow where
  EventTime : String
  ArtifactType : String
  CollectorID : String
  Summary : String
deriving DecidableEq

/-- The local type `entry` of `buildTimeline`: a row with its resolved time. -/
structure buildTimeline.entry where
  t : Int
  row : TimelineRow
deriving DecidableEq

/-- The entry the first loop of `buildTimeline` appends for one artifact. `Summarize` is the
one-line summary of `summarizer.go`, taken as a parameter; the location in which the time
is printed is not modelled. -/
def buildTimeline.entryOf (lib : GoLib) (Summarize : Artifact → String) (a : Artifact) :
    buildTimeline.entry :=
  let et := report.resolveEventTime lib a
  { t := et
    row :=
      { EventTime := lib.Format "2006-01-02 15:04:05" et
        ArtifactType := a.ArtifactType
        CollectorID := a.CollectorID
        Summary := Summarize a } }

/-- The entries of `buildTimeline` after the sort by `t.Before`. -/
def buildTimeline.entries (lib : GoLib) (Summarize : Artifact → String)
    (artifacts : List Artifact) : List buildTimeline.entry :=
  sortSlice (fun a b => decide (a.t < b.t)) (artifacts.map (buildTimeline.entryOf lib Summarize))

/-- Model of `buildTimeline` of package `report`. -/
def buildTimeline (lib : GoLib) (Summarize : Artifact → String) (artifacts : List Artifact) :
    List TimelineRow :=
  (buildTimeline.entries lib Summarize artifacts).map (fun e => e.row)

/-! ## Specification-side definitions -/

/-- The merge written without the `seen` set: an item is appended when it is not yet a
member of the list built so far. -/
def appendFresh (acc : List String) : List String → List String
  | [] => acc
  | x :: xs => if x ∈ acc then appendFresh acc xs else appendFresh (acc ++ [x]) xs

/-- Every value of the list kept at its first occurrence only, in order of first occurrence. -/
def keepFirst : List String → List String
  | [] => []
  | x :: xs => x :: (keepFirst xs).filter (fun y => y ≠ x)

/-- The risk scores of an artifact list, by index. -/
def scores (artifacts : List Artifact) : List Int :=
  artifacts.map (fun art => art.RiskScore)

/-- The amount analyzer `a` adds to the score of the artifact at index `i` when it is run
alone on `artifacts` (`0` past the end of the list). -/
def addedAlone (lib : GoLib) (now : Int) (a : Analyzer) (artifacts : List Artifact)
    (i : Nat) : Int :=
  (scores (a.Analyze lib now artifacts)).getD i 0 - (scores artifacts).getD i 0

/-- The score and tags a built-in analyzer computes for one artifact of a batch whose
per-pid counts are `counts`; nothing for an artifact outside the analyzer's types. -/
def rulesOf (lib : GoLib) (now : Int) (counts : String → Int) (a : Analyzer) (art : Artifact) :
    Int × List String :=
  match a with
  | .suspiciousProcess =>
    if art.ArtifactType != "running_process" then (0, []) else SuspiciousProcessAnalyzer.rules lib art
  | .networkAnomaly =>
    if art.ArtifactType != "network_connection" && art.ArtifactType != "open_network_file" then
      (0, [])
    else NetworkAnomalyAnalyzer.rules counts art
  | .persistenceAnomaly => PersistenceAnomalyAnalyzer.rules lib now art
  | .iocMatcher _ => (0, [])

/-- The score `rulesOf` adds: its first component when positive, else nothing. -/
def deltaOf (lib : GoLib) (now : Int) (counts : String → Int) (a : Analyzer) (art : Artifact) :
    Int :=
  if (rulesOf lib now counts a art).1 > 0 then (rulesOf lib now counts a art).1 else 0

/-- The analyzers registered by `init`, as opposed to the IOC matcher. -/
def Analyzer.isBuiltin : Analyzer → Bool
  | .iocMatcher _ => false
  | _ => true

/-- Two artifacts with the same type and payload. -/
def SameKey (inp out : Artifact) : Prop :=
  out.ArtifactType = inp.ArtifactType ∧ out.Data = inp.Data

/-- The four kinds of indicator, one per set of the matcher. -/
inductive IOCKind where
  | ip
  | domain
  | hash
  | path
deriving DecidableEq

/-- The set of the matcher that holds the indicators of a kind. -/
def IOCMatcher.stored (m : IOCMatcher) : IOCKind → List String
  | .ip => m.ips
  | .domain => m.domains
  | .hash => m.hashes
  | .path => m.paths

/-- The tag `ioc_match:<kind>:<value>`. -/
def iocTag : IOCKind → String → String
  | .ip, v => "ioc_match:ip:" ++ v
  | .domain, v => "ioc_match:domain:" ++ v
  | .hash, v => "ioc_match:hash:" ++ v
  | .path, v => "ioc_match:path:" ++ v

/-- A field value `s` contains the stored indicator `v` of kind `k`: exact-case containment
for IPs and paths, containment in the lower-cased value for domains and hashes. -/
def fieldContains (lib : GoLib) (k : IOCKind) (s v : String) : Bool :=
  match k with
  | .ip => Contains s v
  | .domain => Contains (ToLower lib s) v
  | .hash => Contains (ToLower lib s) v
  | .path => Contains s v

/-- The indicator `v` of kind `k` is stored and some string-valued field of the payload
contains it. -/
def IOCMatcher.indicatorHit (lib : GoLib) (m : IOCMatcher) (art : Artifact) (k : IOCKind)
    (v : String) : Prop :=
  v ∈ m.stored k ∧ ∃ kv ∈ art.Data, ∃ s, kv.2 = Value.str s ∧ fieldContains lib k s v = true

/-- Some string-valued field of the payload contains some stored indicator. -/
def IOCMatcher.hasMatch (lib : GoLib) (m : IOCMatcher) (art : Artifact) : Prop :=
  ∃ k v, m.indicatorHit lib art k v

/-- The matcher with `v` added to the set of kind `k`, the three other sets as they were. -/
def IOCMatcher.insert (m : IOCMatcher) (k : IOCKind) (v : String) : IOCMatcher :=
  match k with
  | .ip => { m with ips := setInsert m.ips v }
  | .domain => { m with domains := setInsert m.domains v }
  | .hash => { m with hashes := setInsert m.hashes v }
  | .path => { m with paths := setInsert m.paths v }

/-- The classification of one line of an indicator file as the specification words it: a
line that is blank after trimming, or starts with `#`, stores nothing; otherwise the first
test that succeeds picks the set and the stored form: IP literal (verbatim), 32 to 128
hexadecimal digits (lower-cased), leading `/` (verbatim), and domain (lower-cased) for
everything else. -/
def classifyLine (lib : GoLib) (text : String) : Option (IOCKind × String) :=
  let line := TrimSpace text
  if line = "" ∨ HasPrefix line "#" = true then none
  else if lib.ParseIP line = true then some (IOCKind.ip, line)
  else if hashRegexMatch line = true then some (IOCKind.hash, ToLower lib line)
  else if HasPrefix line "/" = true then some (IOCKind.path, line)
  else some (IOCKind.domain, ToLower lib line)

/-- A candidate field the export resolver passes over: it is absent, or its value is not a
string, or its value is a string that parses under none of the layouts. -/
def output.fieldSkipped (lib : GoLib) (a : Artifact) (field : String) : Prop :=
  ∀ s, a.Data.lookup field = some (Value.str s) →
    ∀ layout ∈ output.timeLayouts, lib.Parse layout s = none

/-- The output artifact agrees with the input artifact on every field other than risk
score, tags and severity. -/
def SameFrame (inp out : Artifact) : Prop :=
  out.Timestamp = inp.Timestamp ∧ out.CollectorID = inp.CollectorID ∧
  out.ArtifactType = inp.ArtifactType ∧ out.Hostname = inp.Hostname ∧
  out.Data = inp.Data ∧ out.Metadata = inp.Metadata ∧ out.EventTime = inp.EventTime

/-- The points of a rule: `n` when the rule fires, nothing otherwise. -/
def pts (fires : Bool) (n : Int) : Int :=
  if fires then n else 0

/-- The tag of a rule: `tag` when the rule fires, nothing otherwise. -/
def tagIf (fires : Bool) (tag : String) : List String :=
  if fires then [tag] else []

/-- Process rule 1: `exe` starts with one of the four temporary directories. -/
def processExeInTmp (art : Artifact) : Bool :=
  HasPrefix (getString art.Data "exe") "/tmp/" || HasPrefix (getString art.Data "exe") "/var/tmp/" ||
    HasPrefix (getString art.Data "exe") "/private/tmp/" ||
    HasPrefix (getString art.Data "exe") "/private/var/tmp/"

/-- Process rule 2: the lower-cased last path segment of `name` is a suspicious tool. -/
def processSuspiciousName (lib : GoLib) (art : Artifact) : Bool :=
  suspiciousNames.contains (ToLower lib (baseNameOf (getString art.Data "name")))

/-- Process rule 3: `exe` is empty and `name` is not. -/
def processNoExePath (art : Artifact) : Bool :=
  getString art.Data "exe" == "" && getString art.Data "name" != ""

/-- Process rule 4: `username` is `root` and `cwd` or `exe` starts with `/Users/`. -/
def processRootInUserDir (art : Artifact) : Bool :=
  getString art.Data "username" == "root" &&
    (HasPrefix (getString art.Data "cwd") "/Users/" || HasPrefix (getString art.Data "exe") "/Users/")

/-- Process rule 5: the last path segment of `name` starts with a dot. -/
def processHidden (art : Artifact) : Bool :=
  HasPrefix (baseNameOf (getString art.Data "name")) "."

/-- The score the five process rules add, as the specification lists them. -/
def processSpecScore (lib : GoLib) (art : Artifact) : Int :=
  pts (processExeInTmp art) 30 + pts (processSuspiciousName lib art) 20 +
    pts (processNoExePath art) 15 + pts (processRootInUserDir art) 25 +
    pts (processHidden art) 20

/-- The tags of the process rules that fired, in the order of the rules. -/
def processSpecTags (lib : GoLib) (art : Artifact) : List String :=
  tagIf (processExeInTmp art) "exe_in_tmp" ++
    tagIf (processSuspiciousName lib art)
      ("suspicious_name:" ++ baseNameOf (getString art.Data "name")) ++
    tagIf (processNoExePath art) "no_exe_path" ++
    tagIf (processRootInUserDir art) "root_in_user_dir" ++
    tagIf (processHidden art) "hidden_process"

/-- The remote address is external: non-empty, not starting with `127.` or `::1`, and
neither `0.0.0.0` nor `*`. -/
def networkExternal (art : Artifact) : Bool :=
  getString art.Data "remote_addr" != "" && !HasPrefix (getString art.Data "remote_addr") "127." &&
    !HasPrefix (getString art.Data "remote_addr") "::1" &&
    getString art.Data "remote_addr" != "0.0.0.0" && getString art.Data "remote_addr" != "*"

/-- Network rule 1: the resolved remote port is a C2 port and the address is external. -/
def networkC2 (art : Artifact) : Bool :=
  decide (resolveRemotePort art.Data ∈ c2Ports) && networkExternal art

/-- Network rule 2: the resolved remote port is an IRC port and the address is external. -/
def networkIRC (art : Artifact) : Bool :=
  decide (resolveRemotePort art.Data ∈ ircPorts) && networkExternal art

/-- Network rule 3: the resolved remote port or the local port is a Tor port. -/
def networkTor (art : Artifact) : Bool :=
  decide (resolveRemotePort art.Data ∈ torPorts) || decide (getPort art.Data "local_port" ∈ torPorts)

/-- Network rule 4: the artifact has a pid, and the batch counts more than 50 connections
for it. -/
def networkHighCount (counts : String → Int) (art : Artifact) : Bool :=
  getString art.Data "pid" != "" && decide (counts (getString art.Data "pid") > 50)

/-- The score the four network rules add, as the specification lists them. -/
def networkSpecScore (counts : String → Int) (art : Artifact) : Int :=
  pts (networkC2 art) 30 + pts (networkIRC art) 20 + pts (networkTor art) 20 +
    pts (networkHighCount counts art) 10

/-- The tags of the network rules that fired, in the order of the rules. -/
def networkSpecTags (counts : String → Int) (art : Artifact) : List String :=
  tagIf (networkC2 art) ("c2_port:" ++ formatInt (resolveRemotePort art.Data)) ++
    tagIf (networkIRC art) "irc_connection" ++
    tagIf (networkTor art) "tor_connection" ++
    tagIf (networkHighCount counts art) "high_conn_count"

/-- Launch agent rule 1 as the code decides it: `mod_time` is non-empty, parses as RFC3339,
and lies less than 24 hours before `now` (a `mod_time` after `now` included). -/
def launchAgentRecent (lib : GoLib) (now : Int) (art : Artifact) : Bool :=
  getString art.Data "mod_time" != "" &&
    match lib.Parse RFC3339 (getString art.Data "mod_time") with
    | some modTime => decide (now - modTime < 24 * Hour)
    | none => false

/-- Launch agent rule 2: `path` contains a temporary directory. -/
def launchAgentInTmp (art : Artifact) : Bool :=
  Contains (getString art.Data "path") "/tmp/" || Contains (getString art.Data "path") "/var/tmp/" ||
    Contains (getString art.Data "path") "/private/tmp/"

/-- Launch agent rule 3: a system launch agent or daemon whose `name` does not start with
`com.apple.`. -/
def launchAgentNonApple (art : Artifact) : Bool :=
  (art.ArtifactType == "system_launch_agent" || art.ArtifactType == "system_launch_daemon") &&
    !HasPrefix (getString art.Data "name") "com.apple."

/-- The score the three launch agent rules add. -/
def launchAgentSpecScore (lib : GoLib) (now : Int) (art : Artifact) : Int :=
  pts (launchAgentRecent lib now art) 20 + pts (launchAgentInTmp art) 35 +
    pts (launchAgentNonApple art) 10

/-- The tags of the launch agent rules that fired, in the order of the rules. -/
def launchAgentSpecTags (lib : GoLib) (now : Int) (art : Artifact) : List String :=
  tagIf (launchAgentRecent lib now art) "recently_modified" ++
    tagIf (launchAgentInTmp art) "plist_in_tmp" ++
    tagIf (launchAgentNonApple art) "non_apple_system_plist"

/-- The artifact types the three built-in analyzers act on. -/
def builtinTypes : List String :=
  ["running_process", "network_connection", "open_network_file", "user_launch_agent",
   "system_launch_agent", "system_launch_daemon", "user_crontab", "system_cron",
   "login_item_btm", "login_item_backgrounditems", "library_extension"]

/-- The number of network artifacts of the batch whose pid formats to `pid`. -/
def connectionsOf (artifacts : List Artifact) (pid : String) : Nat :=
  (artifacts.filter
    (fun a => isNetworkType a.ArtifactType && getString a.Data "pid" == pid)).length

/-- The states of the record parser. -/
inductive CsvState where
  | fieldStart
  | unquoted
  | quoted
  | quoteSeen

/-- Modelled from the spec: the parser used to re-parse an exported record, which the
repository does not contain. It reads one record as RFC 4180 describes it, ended by the line
feed the writer emits: `acc` holds the characters of the current field, `done` the fields
read so far; a quote inside an unquoted field, a character other than a quote or a separator
after a closing quote, and text after the end of the record are errors. -/
def csvRead : List Char → CsvState → List Char → List String → Option (List String)
  | [], _, _, _ => none
  | c :: cs, .fieldStart, _, done =>
    if c = '"' then csvRead cs .quoted [] done
    else if c = ',' then csvRead cs .fieldStart [] (done ++ [""])
    else if c = '\n' then (if cs.isEmpty then some (done ++ [""]) else none)
    else csvRead cs .unquoted [c] done
  | c :: cs, .unquoted, acc, done =>
    if c = '"' then none
    else if c = ',' then csvRead cs .fieldStart [] (done ++ [⟨acc⟩])
    else if c = '\n' then (if cs.isEmpty then some (done ++ [⟨acc⟩]) else none)
    else csvRead cs .unquoted (acc ++ [c]) done
  | c :: cs, .quoted, acc, done =>
    if c = '"' then csvRead cs .quoteSeen acc done
    else csvRead cs .quoted (acc ++ [c]) done
  | c :: cs, .quoteSeen, acc, done =>
    if c = '"' then csvRead cs .quoted (acc ++ ['"']) done
    else if c = ',' then csvRead cs .fieldStart [] (done ++ [⟨acc⟩])
    else if c = '\n' then (if cs.isEmpty then some (done ++ [⟨acc⟩]) else none)
    else none

/-- Modelled from the spec: re-parsing the text of one exported record. -/
def csvParseRecord (text : List Char) : Option (List String) :=
  csvRead text .fieldStart [] []

/-- The artifact types an analyzer acts on. -/
def analyzerTypes : Analyzer → List String
  | .suspiciousProcess => ["running_process"]
  | .networkAnomaly => ["network_connection", "open_network_file"]
  | .persistenceAnomaly =>
    ["user_launch_agent", "system_launch_agent", "system_launch_daemon", "user_crontab",
     "system_cron", "login_item_btm", "login_item_backgrounditems", "library_extension"]
  | .iocMatcher _ => []

/-- The artifact after the analyzers of `order` have applied their rules to it in turn, the
rules being computed from the artifact `inp` as it entered. -/
def applyAll (lib : GoLib) (now : Int) (counts : String → Int) (order : List Analyzer)
    (inp : Artifact) : Artifact :=
  order.foldl (fun x a => applyRules x (rulesOf lib now counts a inp)) inp

/-- One step of the pipeline on 64-bit integers, seen from the scores: the severity is
kept, and the score is set to 90, kept, or increased by at most 110 and wrapped. -/
def int64.StepRel (x y : Artifact) : Prop :=
  y.Severity = x.Severity ∧
    (y.RiskScore = 90 ∨ y.RiskScore = x.RiskScore ∨
      ∃ d : Int, 0 < d ∧ d ≤ 110 ∧ y.RiskScore = wrapInt64 (x.RiskScore + d))

/-! ## Sample data for the worked instances -/

/-- An artifact as a collector emits it: no score, no severity, no tags. -/
def newArtifact (artifactType : String) (data : DataMap) : Artifact where
  Timestamp := 0
  CollectorID := "sample"
  ArtifactType := artifactType
  Hostname := "host"
  Data := data
  Metadata := ⟨true, "", false, "", "", ""⟩
  Severity := ""
  RiskScore := 0
  Tags := []
  EventTime := none

/-- A stand-in runtime for the worked instances: the only timestamp that parses is
`2023-01-01T00:00:00Z` (1672531200 s after the epoch), a line counts as an IP literal
when it is made of digits and dots, and the case tables hold three entries: the Kelvin sign
U+212A with lower case `k`, the dotted capital I U+0130 with lower case `i`, and the capital
E with acute U+00C9 with lower case U+00E9. -/
def sampleLib : GoLib where
  Parse := fun _ value => if value = "2023-01-01T00:00:00Z" then some 1672531200000000000 else none
  ParseIP := fun s => s.data.all (fun c => c.isDigit || c == '.')
  Format := fun _ t => formatInt t
  LowerCase := fun r =>
    if r = Char.ofNat 0x212A then 'k' else if r = Char.ofNat 0x130 then 'i'
    else if r = Char.ofNat 0xC9 then Char.ofNat 0xE9 else r

/-- A batch with one artifact for each built-in analyzer: a process run from `/tmp`, a
connection to a C2 port and a launch agent whose plist lies in `/tmp`. -/
def sampleBatch : List Artifact :=
  [newArtifact "running_process" [("exe", Value.str "/tmp/evil"), ("name", Value.str "nc")],
   newArtifact "network_connection"
     [("remote_port", Value.int 4444), ("remote_addr", Value.str "8.8.8.8"),
      ("pid", Value.str "100")],
   newArtifact "user_launch_agent" [("path", Value.str "/tmp/x.plist")]]

/-- A matcher holding the single IP indicator `8.8.8.8`. -/
def sampleMatcher : IOCMatcher :=
  NewIOCMatcher sampleLib ["# resolvers", "8.8.8.8"]

/-- An artifact that two earlier analyzers scored 110 and tagged, with two fields that both
contain `8.8.8.8`. -/
def sampleScored : Artifact :=
  { newArtifact "running_process"
      [("cmdline", Value.str "ping 8.8.8.8"), ("pid", Value.int 7), ("dest", Value.str "8.8.8.8")]
    with RiskScore := 110, Tags := ["exe_in_tmp", "hidden_process"] }

/-- A browser visit whose only parseable candidate field is `modified`; `visit_time` holds a
number and `created` a string that does not parse. -/
def sampleVisit : Artifact :=
  { newArtifact "safari_history"
      [("created", Value.str "yesterday"), ("visit_time", Value.int 3),
       ("modified", Value.str "2023-01-01T00:00:00Z")]
    with Timestamp := 1700000000000000000 }

/-- A process record without time fields, collected later than the visit happened. -/
def sampleProcess : Artifact :=
  { newArtifact "running_process" [] with Timestamp := 1700000000000000000 }

/-- A log entry whose collector resolved the event time itself and which also carries a
parseable `mod_time`. -/
def sampleLogEntry : Artifact :=
  { newArtifact "unified_log_error" [("mod_time", Value.str "2023-01-01T00:00:00Z")]
    with Timestamp := 1700000000000000000, EventTime := some 1600000000000000000 }

/-- The process of the first scenario: run from `/tmp`, named `nc`, owned by root, working
in a home directory. -/
def sampleEvilProcess : Artifact :=
  newArtifact "running_process"
    [("exe", Value.str "/tmp/evil"), ("name", Value.str "nc"), ("username", Value.str "root"),
     ("cwd", Value.str "/Users/bob")]

/-- The connection of the second scenario: remote port 4444 on `8.8.8.8`, pid 100. -/
def sampleConnection : Artifact :=
  newArtifact "network_connection"
    [("remote_port", Value.int 4444), ("remote_addr", Value.str "8.8.8.8"),
     ("pid", Value.str "100")]

/-- The launch agent of the fourth scenario: a plist in `/tmp` whose `mod_time` is the
instant the sample runtime parses. -/
def sampleAgent : Artifact :=
  newArtifact "user_launch_agent"
    [("path", Value.str "/tmp/x.plist"), ("mod_time", Value.str "2023-01-01T00:00:00Z")]

/-- The instant of the sample `mod_time`, in nanoseconds since the epoch. -/
def sampleModTime : Int := 1672531200000000000

/-- A system launch daemon as a collector emits it when it could read no field. -/
def sampleBareDaemon : Artifact :=
  newArtifact "system_launch_daemon" []

/-- A user launch agent outside the temporary directories whose `mod_time` is the instant
the sample runtime parses. -/
def sampleFutureAgent : Artifact :=
  newArtifact "user_launch_agent"
    [("path", Value.str "/Users/bob/Library/LaunchAgents/com.example.plist"),
     ("mod_time", Value.str "2023-01-01T00:00:00Z")]

/-- An indicator file with one line of each kind. -/
def sampleIndicators : List String :=
  ["8.8.8.8", "Evil.Example.COM", "D41D8CD98F00B204E9800998ECF8427E", "/tmp/Evil"]

/-- A connection whose explicit `remote_port` is the number 0 and whose `remote_addr` ends
in `:1337`. -/
def sampleZeroPort : Artifact :=
  newArtifact "network_connection"
    [("remote_port", Value.int 0), ("remote_addr", Value.str "8.8.8.8:1337")]

/-- A process record collected between the instant the sample visit was modified and the
instant the visit was collected. -/
def sampleBetween : Artifact :=
  { newArtifact "running_process" [] with Timestamp := 1680000000000000000 }

/-- An artifact whose collector id, type and hostname hold commas, quotes, line breaks and
a leading blank, with risk score 0. -/
def sampleQuoted : Artifact :=
  { newArtifact "odd,\"type\"" [] with
    CollectorID := "col,lector"
    Hostname := " host \"a\"\nb,c\r\n" }

/-- The indicator line `ÉVIL.com`, written with the capital E with acute U+00C9 and
followed by a blank. -/
def sampleDomainLine : String :=
  String.singleton (Char.ofNat 0xC9) ++ "VIL.com "

/-- The domain `évil.com`, written with the small e with acute U+00E9. -/
def sampleDomainStored : String :=
  String.singleton (Char.ofNat 0xE9) ++ "vil.com"

/-- A field value that holds the sample domain with other capitals: `GET http://éVIL.Com/x`. -/
def sampleDomainField : String :=
  "GET http://" ++ String.singleton (Char.ofNat 0xE9) ++ "VIL.Com/x"

/-- A process whose `name` is a path ending in `snowflaKe-client`, written with the Kelvin
sign U+212A in place of the letter `k`. -/
def sampleKelvinProcess : Artifact :=
  newArtifact "running_process"
    [("exe", Value.str "/opt/tools/sf"),
     ("name", Value.str ("/opt/tools/snowfla" ++ String.singleton (Char.ofNat 0x212A) ++ "e-client"))]

/-- A process whose `name` is the path `/usr/local/bin/NC`. -/
def samplePathProcess : Artifact :=
  newArtifact "running_process"
    [("exe", Value.str "/usr/local/bin/NC"), ("name", Value.str "/usr/local/bin/NC")]

/-- The artifact type `unİfied_log_status`, written with the dotted capital I U+0130. -/
def sampleDottedType : String :=
  "un" ++ String.singleton (Char.ofNat 0x130) ++ "fied_log_status"

/-- A process run from `/tmp` that enters with the largest score an `int` holds. -/
def sampleMaxScore : Artifact :=
  { newArtifact "running_process" [("exe", Value.str "/tmp/evil")] with RiskScore := maxInt64 }

/-- An artifact without time fields collected 1999 ns after the epoch. -/
def sampleLate : Artifact :=
  { newArtifact "running_process" [] with Timestamp := 1999 }

/-- An artifact without time fields collected 1000 ns after the epoch. -/
def sampleEarly : Artifact :=
  { newArtifact "safari_history" [] with Timestamp := 1000 }

/-! ## Lemmas on `appendUnique` -/

theorem seen_foldl (l pre : List String) :
    l.foldl (fun (seen : String → Bool) s => Function.update seen s true)
      (fun s => decide (s ∈ pre)) = fun s => decide (s ∈ pre ++ l) := by
  induction l generalizing pre with
  | nil => simp
  | cons x xs ih =>
    have hupd : Function.update (fun s => decide (s ∈ pre)) x true
        = fun s => decide (s ∈ pre ++ [x]) := by
      funext s
      by_cases h : s = x
      · subst h; simp
      · simp [Function.update, h]
    rw [List.foldl_cons, hupd, ih]
    simp

theorem merge_foldl (items acc : List String) :
    items.foldl
      (fun (st : List String × (String → Bool)) item =>
        if !st.2 item then (st.1 ++ [item], Function.update st.2 item true) else st)
      (acc, fun s => decide (s ∈ acc))
    = (appendFresh acc items, fun s => decide (s ∈ appendFresh acc items)) := by
  induction items generalizing acc with
  | nil => simp [appendFresh]
  | cons x xs ih =>
    rw [List.foldl_cons]
    by_cases h : x ∈ acc
    · simp only [h, decide_True, Bool.not_true, Bool.false_eq_true, if_false, appendFresh, if_true]
      exact ih acc
    · have hupd : Function.update (fun s => decide (s ∈ acc)) x true
          = fun s => decide (s ∈ acc ++ [x]) := by
        funext s
        by_cases hs : s = x
        · subst hs; simp
        · simp [Function.update, hs]
      simp only [h, decide_False, Bool.not_false, if_true, appendFresh, if_false, hupd]
      exact ih (acc ++ [x])

theorem appendUnique_eq_appendFresh (e t : List String) :
    appendUnique e t = appendFresh e t := by
  unfold appendUnique
  have h := seen_foldl e []
  simp only [List.not_mem_nil, decide_False, List.nil_append] at h
  simp only [h, merge_foldl]

theorem mem_keepFirst (l : List String) (y : String) : y ∈ keepFirst l ↔ y ∈ l := by
  induction l with
  | nil => simp [keepFirst]
  | cons x xs ih =>
    simp only [keepFirst, List.mem_cons, List.mem_filter, ih, decide_eq_true_eq]
    by_cases h : y = x <;> simp [h]

theorem keepFirst_nodup (l : List String) : (keepFirst l).Nodup := by
  induction l with
  | nil => simp [keepFirst]
  | cons x xs ih =>
    simp only [keepFirst, List.nodup_cons, List.mem_filter, decide_eq_true_eq]
    exact ⟨fun h => h.2 rfl, ih.filter _⟩

theorem keepFirst_filter (p : String → Bool) (l : List String) :
    (keepFirst l).filter p = keepFirst (l.filter p) := by
  induction l with
  | nil => simp [keepFirst]
  | cons x xs ih =>
    by_cases hp : p x = true
    · simp only [keepFirst, List.filter_cons, hp, if_true, List.filter_filter, ← ih]
      congr 1
      apply List.filter_congr
      intro y _
      exact Bool.and_comm _ _
    · have hx : ∀ y ∈ keepFirst (xs.filter p), decide (y ≠ x) = true := by
        intro y hy
        rw [mem_keepFirst, List.mem_filter] at hy
        have : y ≠ x := fun hyx => hp (hyx ▸ hy.2)
        simpa using this
      calc (keepFirst (x :: xs)).filter p
          = ((keepFirst xs).filter (fun y => decide (y ≠ x))).filter p := by
            simp [keepFirst, List.filter_cons, hp]
        _ = ((keepFirst xs).filter p).filter (fun y => decide (y ≠ x)) := by
            simp only [List.filter_filter]
            apply List.filter_congr
            intro y _
            exact Bool.and_comm _ _
        _ = (keepFirst (xs.filter p)).filter (fun y => decide (y ≠ x)) := by rw [ih]
        _ = keepFirst (xs.filter p) := List.filter_eq_self.mpr hx
        _ = keepFirst ((x :: xs).filter p) := by simp [List.filter_cons, hp]

theorem appendFresh_eq (acc t : List String) :
    appendFresh acc t = acc ++ keepFirst (t.filter (fun x => decide (x ∉ acc))) := by
  induction t generalizing acc with
  | nil => simp [appendFresh, keepFirst]
  | cons x xs ih =>
    by_cases h : x ∈ acc
    · simp [appendFresh, h, ih]
    · simp only [appendFresh, h, if_false, ih, List.filter_cons, not_false_eq_true, decide_True,
        if_true, keepFirst, List.append_assoc, List.singleton_append, keepFirst_filter,
        List.filter_filter]
      congr 3
      apply List.filter_congr
      intro y _
      by_cases hy : y = x <;> simp [hy, h]

theorem mem_appendFresh (acc t : List String) (y : String) :
    y ∈ appendFresh acc t ↔ y ∈ acc ∨ y ∈ t := by
  rw [appendFresh_eq, List.mem_append, mem_keepFirst, List.mem_filter]
  by_cases h : y ∈ acc <;> simp [h]

theorem appendFresh_nodup (acc t : List String) (h : acc.Nodup) : (appendFresh acc t).Nodup := by
  rw [appendFresh_eq]
  refine List.Nodup.append h (keepFirst_nodup _) ?_
  intro y hy hy2
  rw [mem_keepFirst, List.mem_filter] at hy2
  simp at hy2
  exact hy2.2 hy

theorem appendFresh_of_subset (acc t : List String) (h : ∀ x ∈ t, x ∈ acc) :
    appendFresh acc t = acc := by
  induction t with
  | nil => rfl
  | cons x xs ih =>
    have hx : x ∈ acc := h x (List.mem_cons_self _ _)
    simp only [appendFresh, hx, if_true]
    exact ih (fun y hy => h y (List.mem_cons_of_mem _ hy))

theorem appendUnique_nodup (e t : List String) (h : e.Nodup) : (appendUnique e t).Nodup := by
  rw [appendUnique_eq_appendFresh]; exact appendFresh_nodup e t h

theorem mem_appendUnique (e t : List String) (y : String) :
    y ∈ appendUnique e t ↔ y ∈ e ∨ y ∈ t := by
  rw [appendUnique_eq_appendFresh]; exact mem_appendFresh e t y

/-! ## Lemmas on the analyzers as index-wise maps -/

theorem forall2_map_of {R : Artifact → Artifact → Prop} (f : Artifact → Artifact)
    (h : ∀ a, R a (f a)) (l : List Artifact) : List.Forall₂ R l (l.map f) := by
  induction l with
  | nil => exact List.Forall₂.nil
  | cons a as ih => exact List.Forall₂.cons (h a) ih

theorem applyRules_tags_nodup (art : Artifact) (r : Int × List String) (h : art.Tags.Nodup) :
    (applyRules art r).Tags.Nodup := by
  unfold applyRules
  split
  · exact appendUnique_nodup _ _ h
  · exact h

theorem analyzer_step_forall2 {R : Artifact → Artifact → Prop} (lib : GoLib) (now : Int)
    (hrules : ∀ art r, R art (applyRules art r))
    (hioc : ∀ (m : IOCMatcher) art, R art (m.step lib art))
    (hrefl : ∀ art, R art art)
    (a : Analyzer) (artifacts : List Artifact) :
    List.Forall₂ R artifacts (a.Analyze lib now artifacts) := by
  cases a with
  | suspiciousProcess =>
    refine forall2_map_of _ (fun art => ?_) artifacts
    unfold SuspiciousProcessAnalyzer.step
    split
    · exact hrefl art
    · exact hrules art _
  | networkAnomaly =>
    refine forall2_map_of _ (fun art => ?_) artifacts
    unfold NetworkAnomalyAnalyzer.step
    split
    · exact hrefl art
    · exact hrules art _
  | persistenceAnomaly =>
    exact forall2_map_of _ (fun art => hrules art _) artifacts
  | iocMatcher m =>
    exact forall2_map_of _ (fun art => hioc m art) artifacts

theorem iocStep_of_match {lib : GoLib} (m : IOCMatcher) (art : Artifact) (h : (m.scan lib art).1 = true) :
    m.step lib art =
      { art with
        RiskScore := 90
        Tags := appendUnique (appendUnique art.Tags ["ioc_match"]) (m.scan lib art).2 } := by
  simp [IOCMatcher.step, h]

theorem iocStep_of_no_match {lib : GoLib} (m : IOCMatcher) (art : Artifact) (h : (m.scan lib art).1 = false) :
    m.step lib art = art := by
  simp [IOCMatcher.step, h]

theorem forall2_trans {R : Artifact → Artifact → Prop}
    (htrans : ∀ a b c, R a b → R b c → R a c) {l1 l2 l3 : List Artifact}
    (h12 : List.Forall₂ R l1 l2) (h23 : List.Forall₂ R l2 l3) : List.Forall₂ R l1 l3 := by
  induction h12 generalizing l3 with
  | nil => cases h23; exact List.Forall₂.nil
  | cons hab _ ih =>
    cases h23 with
    | cons hbc htl => exact List.Forall₂.cons (htrans _ _ _ hab hbc) (ih htl)

theorem forall2_refl {R : Artifact → Artifact → Prop} (hrefl : ∀ a, R a a) (l : List Artifact) :
    List.Forall₂ R l l := by
  induction l with
  | nil => exact List.Forall₂.nil
  | cons a as ih => exact List.Forall₂.cons (hrefl a) ih

theorem runAnalyzers_forall2 {R : Artifact → Artifact → Prop} (lib : GoLib) (now : Int)
    (hrules : ∀ art r, R art (applyRules art r))
    (hioc : ∀ (m : IOCMatcher) art, R art (m.step lib art))
    (hrefl : ∀ art, R art art)
    (htrans : ∀ a b c, R a b → R b c → R a c)
    (analyzers : List Analyzer) (artifacts : List Artifact) :
    List.Forall₂ R artifacts (runAnalyzers lib now analyzers artifacts) := by
  induction analyzers generalizing artifacts with
  | nil => exact forall2_refl hrefl artifacts
  | cons a rest ih =>
    have h1 := analyzer_step_forall2 lib now hrules hioc hrefl a artifacts
    exact forall2_trans htrans h1 (ih (a.Analyze lib now artifacts))

theorem severityFromScore_ne_empty (score : Int) : SeverityFromScore score ≠ "" := by
  unfold SeverityFromScore
  split_ifs <;> decide

/-! ## Lemmas on the built-in analyzers -/

theorem applyRules_zero (art : Artifact) : applyRules art (0, []) = art := by
  simp [applyRules]

theorem builtin_analyze_eq (lib : GoLib) (now : Int) (a : Analyzer) (h : a.isBuiltin = true)
    (artifacts : List Artifact) :
    a.Analyze lib now artifacts
      = artifacts.map (fun art => applyRules art (rulesOf lib now (pidConnCount artifacts) a art)) := by
  cases a with
  | suspiciousProcess =>
    simp only [Analyzer.Analyze, SuspiciousProcessAnalyzer.Analyze, rulesOf]
    apply List.map_congr_left
    intro art _
    unfold SuspiciousProcessAnalyzer.step
    split
    · rw [applyRules_zero]
    · rfl
  | networkAnomaly =>
    simp only [Analyzer.Analyze, NetworkAnomalyAnalyzer.Analyze, rulesOf]
    apply List.map_congr_left
    intro art _
    unfold NetworkAnomalyAnalyzer.step
    split
    · rw [applyRules_zero]
    · rfl
  | persistenceAnomaly => rfl
  | iocMatcher m => simp [Analyzer.isBuiltin] at h

theorem rulesOf_congr (lib : GoLib) (now : Int) (counts : String → Int) (a : Analyzer)
    {inp out : Artifact} (h : SameKey inp out) :
    rulesOf lib now counts a out = rulesOf lib now counts a inp := by
  obtain ⟨hT, hD⟩ := h
  cases a with
  | suspiciousProcess =>
    simp only [rulesOf, SuspiciousProcessAnalyzer.rules, hT, hD]
  | networkAnomaly =>
    simp only [rulesOf, NetworkAnomalyAnalyzer.rules, hT, hD]
  | persistenceAnomaly =>
    simp only [rulesOf, PersistenceAnomalyAnalyzer.rules,
      PersistenceAnomalyAnalyzer.analyzeLaunchAgent, PersistenceAnomalyAnalyzer.analyzeCron,
      PersistenceAnomalyAnalyzer.analyzeLoginItem, PersistenceAnomalyAnalyzer.analyzeExtension,
      hT, hD]
  | iocMatcher m => rfl

theorem pidConnCount_foldl_congr {l l' : List Artifact} (h : List.Forall₂ SameKey l l')
    (init : String → Int) :
    l'.foldl
      (fun (m : String → Int) art =>
        if isNetworkType art.ArtifactType then
          let pid := getString art.Data "pid"
          if pid != "" then Function.update m pid (m pid + 1) else m
        else m) init
    = l.foldl
      (fun (m : String → Int) art =>
        if isNetworkType art.ArtifactType then
          let pid := getString art.Data "pid"
          if pid != "" then Function.update m pid (m pid + 1) else m
        else m) init := by
  induction h generalizing init with
  | nil => rfl
  | cons hab _ ih =>
    simp only [List.foldl_cons, hab.1, hab.2]
    exact ih _

theorem pidConnCount_congr {l l' : List Artifact} (h : List.Forall₂ SameKey l l') :
    pidConnCount l' = pidConnCount l :=
  pidConnCount_foldl_congr h _

theorem applyRules_sameKey (art : Artifact) (r : Int × List String) :
    SameKey art (applyRules art r) := by
  unfold applyRules SameKey
  split <;> exact ⟨rfl, rfl⟩

theorem applyRules_score (art : Artifact) (r : Int × List String) :
    (applyRules art r).RiskScore = art.RiskScore + (if r.1 > 0 then r.1 else 0) := by
  unfold applyRules
  split <;> simp

theorem runAnalyzers_scores (lib : GoLib) (now : Int) (artifacts : List Artifact)
    (order : List Analyzer) (hb : ∀ a ∈ order, a.isBuiltin = true)
    (X : Artifact → Int) (cur : List Artifact)
    (h : List.Forall₂ (fun inp out => SameKey inp out ∧ out.RiskScore = inp.RiskScore + X inp)
      artifacts cur) :
    List.Forall₂
      (fun inp out => SameKey inp out ∧ out.RiskScore = inp.RiskScore +
        (X inp + (order.map (fun a => deltaOf lib now (pidConnCount artifacts) a inp)).sum))
      artifacts (runAnalyzers lib now order cur) := by
  induction order generalizing cur X with
  | nil =>
    refine h.imp ?_
    intro inp out ho
    simpa using ho
  | cons a rest ih =>
    have ha : a.isBuiltin = true := hb a (List.mem_cons_self _ _)
    have hcount : pidConnCount cur = pidConnCount artifacts :=
      pidConnCount_congr (h.imp (fun _ _ ho => ho.1))
    have hstep : List.Forall₂
        (fun inp out => SameKey inp out ∧ out.RiskScore = inp.RiskScore +
          (X inp + deltaOf lib now (pidConnCount artifacts) a inp))
        artifacts (a.Analyze lib now cur) := by
      rw [builtin_analyze_eq lib now a ha cur, List.forall₂_map_right_iff, hcount]
      refine h.imp ?_
      intro inp out ho
      have hk := applyRules_sameKey out (rulesOf lib now (pidConnCount artifacts) a out)
      refine ⟨⟨hk.1.trans ho.1.1, hk.2.trans ho.1.2⟩, ?_⟩
      rw [applyRules_score, rulesOf_congr lib now _ a ho.1, ho.2]
      unfold deltaOf
      omega
    have hrest := ih (fun a ha => hb a (List.mem_cons_of_mem _ ha)) _ _ hstep
    refine hrest.imp ?_
    intro inp out ho
    refine ⟨ho.1, ?_⟩
    rw [ho.2, List.map_cons, List.sum_cons]
    omega

theorem forall2_scores_getD {P : Artifact → Artifact → Prop} {f : Artifact → Int}
    {l l' : List Artifact}
    (h : List.Forall₂ (fun inp out => P inp out ∧ out.RiskScore = inp.RiskScore + f inp) l l')
    (i : Nat) :
    (scores l').getD i 0 = (scores l).getD i 0 + (l.map f).getD i 0 := by
  induction h generalizing i with
  | nil => simp [scores]
  | cons hab _ ih =>
    cases i with
    | zero => simp [scores, hab.2]
    | succ n => simpa [scores] using ih n

theorem addedAlone_eq (lib : GoLib) (now : Int) (a : Analyzer) (ha : a.isBuiltin = true)
    (artifacts : List Artifact) (i : Nat) :
    addedAlone lib now a artifacts i
      = (artifacts.map (deltaOf lib now (pidConnCount artifacts) a)).getD i 0 := by
  have h0 : List.Forall₂ (fun inp out => SameKey inp out ∧ out.RiskScore = inp.RiskScore + 0)
      artifacts artifacts :=
    forall2_refl (fun art => ⟨⟨rfl, rfl⟩, by simp⟩) artifacts
  have h1 := runAnalyzers_scores lib now artifacts [a]
    (fun b hb => by simp at hb; subst hb; exact ha) (fun _ => 0) artifacts h0
  have h2 := forall2_scores_getD h1 i
  simp only [runAnalyzers, List.foldl_cons, List.foldl_nil, List.map_cons, List.map_nil,
    List.sum_cons, List.sum_nil, add_zero, zero_add] at h2
  unfold addedAlone
  rw [h2]
  simp

theorem getD_map_add3 (l : List Artifact) (f g h : Artifact → Int) (i : Nat) :
    (l.map (fun x => f x + g x + h x)).getD i 0
      = (l.map f).getD i 0 + (l.map g).getD i 0 + (l.map h).getD i 0 := by
  induction l generalizing i with
  | nil => simp
  | cons a as ih =>
    cases i with
    | zero => simp
    | succ n => simpa using ih n

/-! ## Lemmas on the IOC matcher -/

theorem exists_kind (P : IOCKind → Prop) :
    (∃ k, P k) ↔ P IOCKind.ip ∨ P IOCKind.domain ∨ P IOCKind.hash ∨ P IOCKind.path := by
  constructor
  · rintro ⟨k, hk⟩
    cases k
    · exact Or.inl hk
    · exact Or.inr (Or.inl hk)
    · exact Or.inr (Or.inr (Or.inl hk))
    · exact Or.inr (Or.inr (Or.inr hk))
  · rintro (h | h | h | h) <;> exact ⟨_, h⟩

theorem scanLoop_eq (p : String → Bool) (g : String → String) (l : List String)
    (st : Bool × List String) :
    l.foldl (fun st x => if p x then (true, st.2 ++ [g x]) else st) st
      = (st.1 || l.any p, st.2 ++ (l.filter p).map g) := by
  induction l generalizing st with
  | nil => simp
  | cons x xs ih =>
    rw [List.foldl_cons, ih]
    by_cases hp : p x = true
    · simp [hp]
    · simp [hp]

theorem scanField_eq {lib : GoLib} (m : IOCMatcher) (st : Bool × List String) (s : String) :
    m.scanField lib st s
      = (st.1 || m.ips.any (fun v => Contains s v) || m.domains.any (fun v => Contains (ToLower lib s) v)
            || m.hashes.any (fun v => Contains (ToLower lib s) v) || m.paths.any (fun v => Contains s v),
         st.2 ++ (m.ips.filter (fun v => Contains s v)).map (iocTag IOCKind.ip)
            ++ (m.domains.filter (fun v => Contains (ToLower lib s) v)).map (iocTag IOCKind.domain)
            ++ (m.hashes.filter (fun v => Contains (ToLower lib s) v)).map (iocTag IOCKind.hash)
            ++ (m.paths.filter (fun v => Contains s v)).map (iocTag IOCKind.path)) := by
  unfold IOCMatcher.scanField
  simp only []
  rw [scanLoop_eq (fun v => Contains s v) (fun v => "ioc_match:ip:" ++ v),
    scanLoop_eq (fun v => Contains (ToLower lib s) v) (fun v => "ioc_match:domain:" ++ v),
    scanLoop_eq (fun v => Contains (ToLower lib s) v) (fun v => "ioc_match:hash:" ++ v),
    scanLoop_eq (fun v => Contains s v) (fun v => "ioc_match:path:" ++ v)]
  rfl

theorem scanField_matched {lib : GoLib} (m : IOCMatcher) (st : Bool × List String) (s : String) :
    (m.scanField lib st s).1 = true ↔
      st.1 = true ∨ ∃ k v, v ∈ m.stored k ∧ fieldContains lib k s v = true := by
  rw [scanField_eq, exists_kind]
  simp only [Bool.or_eq_true, List.any_eq_true, IOCMatcher.stored, fieldContains, or_assoc]

theorem mem_scanField_tags {lib : GoLib} (m : IOCMatcher) (st : Bool × List String) (s t : String) :
    t ∈ (m.scanField lib st s).2 ↔
      t ∈ st.2 ∨ ∃ k v, v ∈ m.stored k ∧ fieldContains lib k s v = true ∧ t = iocTag k v := by
  rw [scanField_eq, exists_kind]
  simp only [List.mem_append, List.mem_map, List.mem_filter, IOCMatcher.stored, fieldContains]
  constructor
  · rintro ((((h | ⟨v, hv, rfl⟩) | ⟨v, hv, rfl⟩) | ⟨v, hv, rfl⟩) | ⟨v, hv, rfl⟩)
    · exact Or.inl h
    · exact Or.inr (Or.inl ⟨v, hv.1, hv.2, rfl⟩)
    · exact Or.inr (Or.inr (Or.inl ⟨v, hv.1, hv.2, rfl⟩))
    · exact Or.inr (Or.inr (Or.inr (Or.inl ⟨v, hv.1, hv.2, rfl⟩)))
    · exact Or.inr (Or.inr (Or.inr (Or.inr ⟨v, hv.1, hv.2, rfl⟩)))
  · rintro (h | ⟨v, h1, h2, rfl⟩ | ⟨v, h1, h2, rfl⟩ | ⟨v, h1, h2, rfl⟩ | ⟨v, h1, h2, rfl⟩)
    · exact Or.inl (Or.inl (Or.inl (Or.inl h)))
    · exact Or.inl (Or.inl (Or.inl (Or.inr ⟨v, ⟨h1, h2⟩, rfl⟩)))
    · exact Or.inl (Or.inl (Or.inr ⟨v, ⟨h1, h2⟩, rfl⟩))
    · exact Or.inl (Or.inr ⟨v, ⟨h1, h2⟩, rfl⟩)
    · exact Or.inr ⟨v, ⟨h1, h2⟩, rfl⟩

theorem scanData_matched {lib : GoLib} (m : IOCMatcher) (data : DataMap) (st : Bool × List String) :
    (data.foldl
      (fun st kv =>
        match kv.2 with
        | .str s => m.scanField lib st s
        | _ => st) st).1 = true ↔
      st.1 = true ∨ ∃ kv ∈ data, ∃ s, kv.2 = Value.str s ∧
        ∃ k v, v ∈ m.stored k ∧ fieldContains lib k s v = true := by
  induction data generalizing st with
  | nil => simp
  | cons kv rest ih =>
    rw [List.foldl_cons, ih]
    cases hv : kv.2 with
    | str s =>
      simp only [scanField_matched, List.mem_cons, exists_eq_or_imp, hv, Value.str.injEq,
        exists_eq_left', or_assoc]
    | int n => simp [hv]
    | bool b => simp [hv]
    | other r => simp [hv]

theorem mem_scanData_tags {lib : GoLib} (m : IOCMatcher) (data : DataMap) (st : Bool × List String)
    (t : String) :
    t ∈ (data.foldl
      (fun st kv =>
        match kv.2 with
        | .str s => m.scanField lib st s
        | _ => st) st).2 ↔
      t ∈ st.2 ∨ ∃ kv ∈ data, ∃ s, kv.2 = Value.str s ∧
        ∃ k v, v ∈ m.stored k ∧ fieldContains lib k s v = true ∧ t = iocTag k v := by
  induction data generalizing st with
  | nil => simp
  | cons kv rest ih =>
    rw [List.foldl_cons, ih]
    cases hv : kv.2 with
    | str s =>
      simp only [mem_scanField_tags, List.mem_cons, exists_eq_or_imp, hv, Value.str.injEq,
        exists_eq_left', or_assoc]
    | int n => simp [hv]
    | bool b => simp [hv]
    | other r => simp [hv]

theorem scan_matched_iff {lib : GoLib} (m : IOCMatcher) (art : Artifact) :
    (m.scan lib art).1 = true ↔ m.hasMatch lib art := by
  unfold IOCMatcher.scan IOCMatcher.hasMatch IOCMatcher.indicatorHit
  rw [scanData_matched]
  constructor
  · rintro (h | ⟨kv, hkv, s, hs, k, v, hv, hc⟩)
    · simp at h
    · exact ⟨k, v, hv, kv, hkv, s, hs, hc⟩
  · rintro ⟨k, v, hv, kv, hkv, s, hs, hc⟩
    exact Or.inr ⟨kv, hkv, s, hs, k, v, hv, hc⟩

theorem iocTag_injective {k k' : IOCKind} {v v' : String} (h : iocTag k v = iocTag k' v') :
    k = k' ∧ v = v' := by
  have hd := congrArg String.data h
  cases k <;> cases k' <;> simp [iocTag, String.data_append] at hd <;>
    exact ⟨rfl, String.ext hd⟩

theorem iocTag_ne_base (k : IOCKind) (v : String) : iocTag k v ≠ "ioc_match" := by
  intro h
  have hd := congrArg String.data h
  cases k <;> simp [iocTag, String.data_append] at hd

theorem iocTag_hasPrefix (k : IOCKind) (v : String) :
    HasPrefix (iocTag k v) "ioc_match" = true := by
  cases k <;> simp [HasPrefix, iocTag, String.data_append, List.isPrefixOf]

theorem mem_scan_tags {lib : GoLib} (m : IOCMatcher) (art : Artifact) (k : IOCKind) (v : String) :
    iocTag k v ∈ (m.scan lib art).2 ↔ m.indicatorHit lib art k v := by
  unfold IOCMatcher.scan IOCMatcher.indicatorHit
  rw [mem_scanData_tags]
  constructor
  · rintro (h | ⟨kv, hkv, s, hs, k', v', hv, hc, ht⟩)
    · simp at h
    · obtain ⟨rfl, rfl⟩ := iocTag_injective ht
      exact ⟨hv, kv, hkv, s, hs, hc⟩
  · rintro ⟨hv, kv, hkv, s, hs, hc⟩
    exact Or.inr ⟨kv, hkv, s, hs, k, v, hv, hc, rfl⟩

/-! ## Lemmas on `NewIOCMatcher` and on substring containment -/

theorem mem_setInsert (set : List String) (key x : String) :
    x ∈ setInsert set key ↔ x ∈ set ∨ x = key := by
  unfold setInsert
  split
  · constructor
    · exact Or.inl
    · rintro (h | rfl)
      · exact h
      · assumption
  · simp

theorem addLine_eq_classify (lib : GoLib) (m : IOCMatcher) (text : String) :
    NewIOCMatcher.addLine lib m text
      = match classifyLine lib text with
        | none => m
        | some (k, v) => m.insert k v := by
  unfold NewIOCMatcher.addLine classifyLine
  by_cases h0 : TrimSpace text = "" ∨ HasPrefix (TrimSpace text) "#" = true
  · have : (TrimSpace text == "" || HasPrefix (TrimSpace text) "#") = true := by
      simpa using h0
    simp [this, h0]
  · have : (TrimSpace text == "" || HasPrefix (TrimSpace text) "#") = false := by
      simpa using h0
    simp only [this, h0, Bool.false_eq_true, if_false]
    by_cases h1 : lib.ParseIP (TrimSpace text) = true
    · simp [h1, IOCMatcher.insert]
    · by_cases h2 : hashRegexMatch (TrimSpace text) = true
      · simp [h1, h2, IOCMatcher.insert]
      · by_cases h3 : HasPrefix (TrimSpace text) "/" = true
        · simp [h1, h2, h3, IOCMatcher.insert]
        · simp [h1, h2, h3, IOCMatcher.insert]

theorem mem_insert_stored (m : IOCMatcher) (k k' : IOCKind) (v x : String) :
    x ∈ (m.insert k' v).stored k ↔ x ∈ m.stored k ∨ (k' = k ∧ x = v) := by
  cases k <;> cases k' <;> simp [IOCMatcher.insert, IOCMatcher.stored, mem_setInsert]

theorem mem_foldl_addLine (lib : GoLib) (lines : List String) (m : IOCMatcher) (k : IOCKind)
    (x : String) :
    x ∈ (lines.foldl (NewIOCMatcher.addLine lib) m).stored k ↔
      x ∈ m.stored k ∨ ∃ text ∈ lines, classifyLine lib text = some (k, x) := by
  induction lines generalizing m with
  | nil => simp
  | cons text rest ih =>
    rw [List.foldl_cons, ih, addLine_eq_classify]
    cases hc : classifyLine lib text with
    | none => simp [hc]
    | some kv =>
      obtain ⟨k', v⟩ := kv
      simp only [mem_insert_stored, List.mem_cons, exists_eq_or_imp, hc, Option.some.injEq,
        Prod.mk.injEq, or_assoc]
      constructor
      · rintro (h | ⟨h1, h2⟩ | h)
        · exact Or.inl h
        · exact Or.inr (Or.inl ⟨h1, h2.symm⟩)
        · exact Or.inr (Or.inr h)
      · rintro (h | ⟨h1, h2⟩ | h)
        · exact Or.inl h
        · exact Or.inr (Or.inl ⟨h1, h2.symm⟩)
        · exact Or.inr (Or.inr h)

theorem containsChars_spec (l sub : List Char) :
    containsChars l sub = true ↔ sub <:+: l := by
  induction l with
  | nil => simp [containsChars, List.isEmpty_iff]
  | cons c cs ih =>
    simp only [containsChars, Bool.or_eq_true, List.isPrefixOf_iff_prefix, ih,
      List.infix_cons_iff]

theorem toLower_length {lib : GoLib} (s : String) : (ToLower lib s).data.length = s.data.length := by
  simp [ToLower]

theorem mem_scanField_iocTag {lib : GoLib} (m : IOCMatcher) (s : String) (k : IOCKind) (v : String) :
    iocTag k v ∈ (m.scanField lib (false, []) s).2 ↔ v ∈ m.stored k ∧ fieldContains lib k s v = true := by
  rw [mem_scanField_tags]
  constructor
  · rintro (h | ⟨k', v', hv, hc, ht⟩)
    · simp at h
    · obtain ⟨rfl, rfl⟩ := iocTag_injective ht
      exact ⟨hv, hc⟩
  · rintro ⟨hv, hc⟩
    exact Or.inr ⟨k, v, hv, hc, rfl⟩

theorem newIOCMatcher_membership (lib : GoLib) (lines : List String) (k : IOCKind)
    (x : String) :
    x ∈ (NewIOCMatcher lib lines).stored k ↔
      ∃ text ∈ lines, classifyLine lib text = some (k, x) := by
  unfold NewIOCMatcher
  rw [mem_foldl_addLine]
  cases k <;> simp [IOCMatcher.empty, IOCMatcher.stored]

theorem toNat_ofNat_small (n : Nat) (h : n < 55296) : (Char.ofNat n).toNat = n := by
  unfold Char.ofNat
  have hv : n.isValidChar := Or.inl h
  simp only [hv, dite_true]
  simp [Char.ofNatAux, Char.toNat, UInt32.toNat]

theorem toLower_toLower (c : Char) : c.toLower.toLower = c.toLower := by
  by_cases h : c.toNat ≥ 65 ∧ c.toNat ≤ 90
  · have h1 : c.toLower = Char.ofNat (c.toNat + 32) := by
      simp only [Char.toLower, h, and_self, if_true]
    have h2 : (Char.ofNat (c.toNat + 32)).toNat = c.toNat + 32 :=
      toNat_ofNat_small _ (by omega)
    rw [h1]
    have h3 : ¬ ((Char.ofNat (c.toNat + 32)).toNat ≥ 65 ∧ (Char.ofNat (c.toNat + 32)).toNat ≤ 90) := by
      rw [h2]; omega
    simp only [Char.toLower, h3, if_false]
  · have h1 : c.toLower = c := by
      simp only [Char.toLower, h, if_false]
    rw [h1, h1]

/-! ## Lemmas on the timeline -/

theorem insertSorted_perm {α : Type} (less : α → α → Bool) (x : α) (l : List α) :
    (insertSorted less x l).Perm (x :: l) := by
  induction l with
  | nil => exact List.Perm.refl _
  | cons y ys ih =>
    unfold insertSorted
    split
    · exact (List.Perm.cons y ih).trans (List.Perm.swap x y ys)
    · exact List.Perm.refl _

theorem sortSlice_perm {α : Type} (less : α → α → Bool) (l : List α) :
    (sortSlice less l).Perm l := by
  induction l with
  | nil => exact List.Perm.refl _
  | cons x xs ih =>
    unfold sortSlice
    exact (insertSorted_perm less x _).trans (List.Perm.cons x ih)

theorem insertSorted_pairwise {α : Type} (key : α → Int) (less : α → α → Bool)
    (hless : ∀ a b, less a b = true ↔ key a < key b) (x : α) (l : List α)
    (h : l.Pairwise (fun a b => key a ≤ key b)) :
    (insertSorted less x l).Pairwise (fun a b => key a ≤ key b) := by
  induction l with
  | nil => simp [insertSorted]
  | cons y ys ih =>
    rw [List.pairwise_cons] at h
    unfold insertSorted
    split
    · rename_i hyx
      have hlt : key y < key x := (hless y x).mp hyx
      rw [List.pairwise_cons]
      refine ⟨fun z hz => ?_, ih h.2⟩
      have hz2 : z ∈ x :: ys := (insertSorted_perm less x ys).mem_iff.mp hz
      rcases List.mem_cons.mp hz2 with rfl | hzs
      · omega
      · exact h.1 z hzs
    · rename_i hyx
      have hle : key x ≤ key y := by
        have : ¬ key y < key x := fun hc => hyx ((hless y x).mpr hc)
        omega
      rw [List.pairwise_cons]
      refine ⟨fun z hz => ?_, List.pairwise_cons.mpr h⟩
      rcases List.mem_cons.mp hz with rfl | hzs
      · exact hle
      · have := h.1 z hzs
        omega

theorem sortSlice_pairwise {α : Type} (key : α → Int) (less : α → α → Bool)
    (hless : ∀ a b, less a b = true ↔ key a < key b) (l : List α) :
    (sortSlice less l).Pairwise (fun a b => key a ≤ key b) := by
  induction l with
  | nil => simp [sortSlice]
  | cons x xs ih =>
    unfold sortSlice
    exact insertSorted_pairwise key less hless x _ ih

theorem parseFirst_eq_none (lib : GoLib) (layouts : List String) (s : String) :
    parseFirst lib layouts s = none ↔ ∀ layout ∈ layouts, lib.Parse layout s = none := by
  unfold parseFirst
  induction layouts with
  | nil => simp
  | cons l ls ih =>
    rw [List.findSome?_cons]
    cases hp : lib.Parse l s with
    | none => simp [ih, hp]
    | some t => simp [hp]

theorem parseFirst_eq_some (lib : GoLib) (lpre lpost : List String) (layout s : String) (t : Int)
    (hpre : ∀ l ∈ lpre, lib.Parse l s = none) (h : lib.Parse layout s = some t) :
    parseFirst lib (lpre ++ layout :: lpost) s = some t := by
  unfold parseFirst
  induction lpre with
  | nil => simp [List.findSome?_cons, h]
  | cons l ls ih =>
    have hl : lib.Parse l s = none := hpre l (List.mem_cons_self _ _)
    simp only [List.cons_append, List.findSome?_cons, hl]
    exact ih (fun l' hl' => hpre l' (List.mem_cons_of_mem _ hl'))

theorem fieldTime_eq_none_of_skipped (lib : GoLib) (a : Artifact) (field : String)
    (h : output.fieldSkipped lib a field) :
    fieldTime lib output.timeLayouts a.Data field = none := by
  unfold fieldTime
  cases hl : a.Data.lookup field with
  | none => rfl
  | some v =>
    cases v with
    | str s => exact (parseFirst_eq_none lib _ s).mpr (h s hl)
    | int n => rfl
    | bool b => rfl
    | other r => rfl

theorem findSome_skip {β : Type} (f : String → Option β) (pre post : List String) (x : String)
    (hpre : ∀ g ∈ pre, f g = none) :
    (pre ++ x :: post).findSome? f = (x :: post).findSome? f := by
  induction pre with
  | nil => rfl
  | cons g gs ih =>
    have hg : f g = none := hpre g (List.mem_cons_self _ _)
    simp only [List.cons_append, List.findSome?_cons, hg]
    exact ih (fun g' hg' => hpre g' (List.mem_cons_of_mem _ hg'))

theorem findSome_all_none {β : Type} (f : String → Option β) (l : List String)
    (h : ∀ g ∈ l, f g = none) : l.findSome? f = none := by
  induction l with
  | nil => rfl
  | cons g gs ih =>
    have hg : f g = none := h g (List.mem_cons_self _ _)
    simp only [List.findSome?_cons, hg]
    exact ih (fun g' hg' => h g' (List.mem_cons_of_mem _ hg'))

/-! ## Lemmas on frame and monotonicity -/

theorem builtin_monotone (lib : GoLib) (now : Int) (a : Analyzer) (h : a.isBuiltin = true)
    (artifacts : List Artifact) :
    List.Forall₂ (fun inp out => inp.RiskScore ≤ out.RiskScore)
      artifacts (a.Analyze lib now artifacts) := by
  rw [builtin_analyze_eq lib now a h artifacts]
  refine forall2_map_of _ (fun art => ?_) artifacts
  rw [applyRules_score]
  split <;> omega

theorem runAll_eq_map (lib : GoLib) (now : Int) (analyzers : List Analyzer)
    (artifacts : List Artifact) :
    RunAll lib now analyzers artifacts
      = (runAnalyzers lib now analyzers artifacts).map finalizeSeverity := rfl

/-! ## Lemmas on the rule blocks -/

theorem keepFirst_of_nodup (l : List String) (h : l.Nodup) : keepFirst l = l := by
  induction l with
  | nil => rfl
  | cons x xs ih =>
    rw [List.nodup_cons] at h
    simp only [keepFirst, ih h.2]
    congr 1
    apply List.filter_eq_self.mpr
    intro y hy
    have : y ≠ x := fun hyx => h.1 (hyx ▸ hy)
    simpa using this

theorem appendUnique_of_fresh (e t : List String) (ht : t.Nodup) (hfresh : ∀ x ∈ t, x ∉ e) :
    appendUnique e t = e ++ t := by
  rw [appendUnique_eq_appendFresh, appendFresh_eq]
  congr 1
  rw [List.filter_eq_self.mpr, keepFirst_of_nodup t ht]
  intro x hx
  simpa using hfresh x hx

theorem appendUnique_nil (e : List String) : appendUnique e [] = e := by
  rw [appendUnique_eq_appendFresh]
  rfl

theorem processRules_eq {lib : GoLib} (art : Artifact) :
    SuspiciousProcessAnalyzer.rules lib art = (processSpecScore lib art, processSpecTags lib art) := by
  unfold SuspiciousProcessAnalyzer.rules processSpecScore processSpecTags pts tagIf
    processExeInTmp processSuspiciousName processNoExePath processRootInUserDir processHidden
  dsimp only
  split_ifs <;> simp

theorem suspiciousName_tag_ne (b t : String)
    (ht : t ∈ ["exe_in_tmp", "no_exe_path", "root_in_user_dir", "hidden_process"]) :
    "suspicious_name:" ++ b ≠ t := by
  intro h
  have hd := congrArg String.data h
  simp only [List.mem_cons, List.mem_singleton, List.not_mem_nil, or_false] at ht
  rcases ht with rfl | rfl | rfl | rfl <;> simp [String.data_append] at hd

theorem processSpecTags_nodup {lib : GoLib} (art : Artifact) : (processSpecTags lib art).Nodup := by
  unfold processSpecTags tagIf
  have h1 := suspiciousName_tag_ne (baseNameOf (getString art.Data "name")) "exe_in_tmp" (by simp)
  have h2 := suspiciousName_tag_ne (baseNameOf (getString art.Data "name")) "no_exe_path" (by simp)
  have h3 := suspiciousName_tag_ne (baseNameOf (getString art.Data "name")) "root_in_user_dir"
    (by simp)
  have h4 := suspiciousName_tag_ne (baseNameOf (getString art.Data "name")) "hidden_process"
    (by simp)
  generalize processExeInTmp art = b1
  generalize processSuspiciousName lib art = b2
  generalize processNoExePath art = b3
  generalize processRootInUserDir art = b4
  generalize processHidden art = b5
  cases b1 <;> cases b2 <;> cases b3 <;> cases b4 <;> cases b5 <;>
    simp [h1, h2, h3, h4, Ne.symm h1, Ne.symm h2, Ne.symm h3, Ne.symm h4]

theorem processSpecScore_nonneg {lib : GoLib} (art : Artifact) : 0 ≤ processSpecScore lib art := by
  unfold processSpecScore pts
  split_ifs <;> omega

theorem processSpecTags_nil_of_zero {lib : GoLib} (art : Artifact) (h : ¬ processSpecScore lib art > 0) :
    processSpecTags lib art = [] := by
  unfold processSpecScore pts at h
  unfold processSpecTags tagIf
  generalize processExeInTmp art = b1 at h ⊢
  generalize processSuspiciousName lib art = b2 at h ⊢
  generalize processNoExePath art = b3 at h ⊢
  generalize processRootInUserDir art = b4 at h ⊢
  generalize processHidden art = b5 at h ⊢
  cases b1 <;> cases b2 <;> cases b3 <;> cases b4 <;> cases b5 <;> simp at h ⊢

theorem applyRules_tags (art : Artifact) (r : Int × List String) :
    (applyRules art r).Tags = if r.1 > 0 then appendUnique art.Tags r.2 else art.Tags := by
  unfold applyRules
  split <;> rfl

theorem c2_guard (p : Int) : (decide (p > 0) && c2Ports.contains p) = decide (p ∈ c2Ports) := by
  by_cases h : p ∈ c2Ports
  · have hp : p > 0 := by
      simp only [c2Ports, List.mem_cons, List.mem_singleton, List.not_mem_nil, or_false] at h
      omega
    simp [h, hp]
  · simp [h]

theorem irc_guard (p : Int) : (decide (p > 0) && ircPorts.contains p) = decide (p ∈ ircPorts) := by
  by_cases h : p ∈ ircPorts
  · have hp : p > 0 := by
      simp only [ircPorts, List.mem_cons, List.mem_singleton, List.not_mem_nil, or_false] at h
      omega
    simp [h, hp]
  · simp [h]

theorem tor_guard (p : Int) : (decide (p > 0) && torPorts.contains p) = decide (p ∈ torPorts) := by
  by_cases h : p ∈ torPorts
  · have hp : p > 0 := by
      simp only [torPorts, List.mem_cons, List.mem_singleton, List.not_mem_nil, or_false] at h
      omega
    simp [h, hp]
  · simp [h]

theorem networkRules_eq (counts : String → Int) (art : Artifact) :
    NetworkAnomalyAnalyzer.rules counts art
      = (networkSpecScore counts art, networkSpecTags counts art) := by
  unfold NetworkAnomalyAnalyzer.rules networkSpecScore networkSpecTags pts tagIf
    networkC2 networkIRC networkTor networkHighCount networkExternal
  dsimp only
  rw [c2_guard, irc_guard, tor_guard, tor_guard]
  split_ifs <;> simp

theorem c2_tag_ne (x t : String)
    (ht : t ∈ ["irc_connection", "tor_connection", "high_conn_count"]) :
    "c2_port:" ++ x ≠ t := by
  intro h
  have hd := congrArg String.data h
  simp only [List.mem_cons, List.mem_singleton, List.not_mem_nil, or_false] at ht
  rcases ht with rfl | rfl | rfl <;> simp [String.data_append] at hd

theorem mem_networkSpecTags_c2 (counts : String → Int) (art : Artifact) :
    "c2_port:" ++ formatInt (resolveRemotePort art.Data) ∈ networkSpecTags counts art ↔
      networkC2 art = true := by
  unfold networkSpecTags tagIf
  have h1 := c2_tag_ne (formatInt (resolveRemotePort art.Data)) "irc_connection" (by simp)
  have h2 := c2_tag_ne (formatInt (resolveRemotePort art.Data)) "tor_connection" (by simp)
  have h3 := c2_tag_ne (formatInt (resolveRemotePort art.Data)) "high_conn_count" (by simp)
  generalize networkC2 art = b1
  generalize networkIRC art = b2
  generalize networkTor art = b3
  generalize networkHighCount counts art = b4
  cases b1 <;> cases b2 <;> cases b3 <;> cases b4 <;> simp [h1, h2, h3]

theorem networkSpecScore_nonneg (counts : String → Int) (art : Artifact) :
    0 ≤ networkSpecScore counts art := by
  unfold networkSpecScore pts
  split_ifs <;> omega

theorem networkSpecTags_nil_of_zero (counts : String → Int) (art : Artifact)
    (h : ¬ networkSpecScore counts art > 0) : networkSpecTags counts art = [] := by
  unfold networkSpecScore pts at h
  unfold networkSpecTags tagIf
  generalize networkC2 art = b1 at h ⊢
  generalize networkIRC art = b2 at h ⊢
  generalize networkTor art = b3 at h ⊢
  generalize networkHighCount counts art = b4 at h ⊢
  cases b1 <;> cases b2 <;> cases b3 <;> cases b4 <;> simp at h ⊢

theorem timeSub_lt_day (now m : Int) : timeSub now m < 24 * Hour ↔ now - m < 24 * Hour := by
  unfold timeSub maxInt64 minInt64 Hour
  dsimp only
  split_ifs <;> omega

theorem launchAgentRules_eq (lib : GoLib) (now : Int) (art : Artifact) :
    PersistenceAnomalyAnalyzer.analyzeLaunchAgent lib art now
      = (launchAgentSpecScore lib now art, launchAgentSpecTags lib now art) := by
  unfold PersistenceAnomalyAnalyzer.analyzeLaunchAgent launchAgentSpecScore launchAgentSpecTags
    pts tagIf launchAgentRecent launchAgentInTmp launchAgentNonApple
  dsimp only
  cases hp : lib.Parse RFC3339 (getString art.Data "mod_time") with
  | none => split_ifs <;> simp_all
  | some m =>
    simp only [timeSub_lt_day]
    split_ifs <;> simp_all <;> omega

theorem launchAgentRecent_iff (lib : GoLib) (now : Int) (art : Artifact) :
    launchAgentRecent lib now art = true ↔
      getString art.Data "mod_time" ≠ "" ∧
      ∃ m, lib.Parse RFC3339 (getString art.Data "mod_time") = some m ∧ now - 24 * Hour < m := by
  unfold launchAgentRecent
  cases hp : lib.Parse RFC3339 (getString art.Data "mod_time") with
  | none => simp
  | some m =>
    simp only [Bool.and_eq_true, bne_iff_ne, ne_eq, decide_eq_true_eq, Option.some.injEq,
      exists_eq_left']
    constructor
    · rintro ⟨h1, h2⟩
      exact ⟨h1, by omega⟩
    · rintro ⟨h1, h2⟩
      exact ⟨h1, by omega⟩

/-! ## Lemmas on artifacts with an empty payload -/

theorem forall2_comp {R S T : Artifact → Artifact → Prop}
    (h : ∀ a b c, R a b → S b c → T a c) {l1 l2 l3 : List Artifact}
    (h12 : List.Forall₂ R l1 l2) (h23 : List.Forall₂ S l2 l3) : List.Forall₂ T l1 l3 := by
  induction h12 generalizing l3 with
  | nil => cases h23; exact List.Forall₂.nil
  | cons hab _ ih =>
    cases h23 with
    | cons hbc htl => exact List.Forall₂.cons (h _ _ _ hab hbc) (ih htl)

theorem processStep_empty {lib : GoLib} (art : Artifact) (h : art.Data = []) :
    SuspiciousProcessAnalyzer.step lib art = art := by
  have hr : SuspiciousProcessAnalyzer.rules lib art = (0, []) := by
    unfold SuspiciousProcessAnalyzer.rules
    rw [h]
    rfl
  unfold SuspiciousProcessAnalyzer.step
  rw [hr, applyRules_zero]
  simp

theorem networkStep_empty (counts : String → Int) (art : Artifact) (h : art.Data = []) :
    NetworkAnomalyAnalyzer.step counts art = art := by
  have h1 : networkC2 art = false := by
    unfold networkC2 networkExternal; rw [h]; decide
  have h2 : networkIRC art = false := by
    unfold networkIRC networkExternal; rw [h]; decide
  have h3 : networkTor art = false := by
    unfold networkTor; rw [h]; decide
  have h4 : networkHighCount counts art = false := by
    unfold networkHighCount; rw [h]; simp [getString]
  have hr : NetworkAnomalyAnalyzer.rules counts art = (0, []) := by
    rw [networkRules_eq]
    unfold networkSpecScore networkSpecTags
    rw [h1, h2, h3, h4]
    rfl
  unfold NetworkAnomalyAnalyzer.step
  rw [hr, applyRules_zero]
  simp

theorem persistenceRules_empty (lib : GoLib) (now : Int) (art : Artifact) (h : art.Data = []) :
    PersistenceAnomalyAnalyzer.rules lib now art
      = if art.ArtifactType = "system_launch_agent" ∨ art.ArtifactType = "system_launch_daemon"
        then (10, ["non_apple_system_plist"]) else (0, []) := by
  have hrec : launchAgentRecent lib now art = false := by
    unfold launchAgentRecent; rw [h]; simp [getString]
  have htmp : launchAgentInTmp art = false := by
    unfold launchAgentInTmp; rw [h]; decide
  have hcron : PersistenceAnomalyAnalyzer.analyzeCron lib art = (0, []) := by
    unfold PersistenceAnomalyAnalyzer.analyzeCron; rw [h]; rfl
  have hlogin : PersistenceAnomalyAnalyzer.analyzeLoginItem art = (0, []) := by
    unfold PersistenceAnomalyAnalyzer.analyzeLoginItem; rw [h]; decide
  have hext : PersistenceAnomalyAnalyzer.analyzeExtension lib art now = (0, []) := by
    unfold PersistenceAnomalyAnalyzer.analyzeExtension; rw [h]; simp [getString]
  have hname : HasPrefix (getString art.Data "name") "com.apple." = false := by
    rw [h]; decide
  unfold PersistenceAnomalyAnalyzer.rules
  dsimp only
  rw [launchAgentRules_eq, hcron, hlogin, hext]
  unfold launchAgentSpecScore launchAgentSpecTags launchAgentNonApple
  rw [hrec, htmp, hname]
  by_cases hu : art.ArtifactType = "user_launch_agent"
  · simp [hu, pts, tagIf]
  · by_cases ha : art.ArtifactType = "system_launch_agent"
    · simp [ha, pts, tagIf]
    · by_cases hd : art.ArtifactType = "system_launch_daemon"
      · simp [hd, pts, tagIf]
      · simp [hu, ha, hd, pts, tagIf]

/-! ## Lemmas on artifact types and timestamp descriptions -/

theorem persistenceRules_other (lib : GoLib) (now : Int) (art : Artifact)
    (h : art.ArtifactType ∉ builtinTypes) :
    PersistenceAnomalyAnalyzer.rules lib now art = (0, []) := by
  simp only [builtinTypes, List.mem_cons, List.mem_singleton, List.not_mem_nil, or_false,
    not_or] at h
  obtain ⟨_, _, _, h4, h5, h6, h7, h8, h9, h10, h11⟩ := h
  unfold PersistenceAnomalyAnalyzer.rules
  simp [h4, h5, h6, h7, h8, h9, h10, h11]

theorem builtinStep_other (lib : GoLib) (now : Int) (counts : String → Int) (art : Artifact)
    (h : art.ArtifactType ∉ builtinTypes) :
    SuspiciousProcessAnalyzer.step lib art = art ∧ NetworkAnomalyAnalyzer.step counts art = art ∧
    PersistenceAnomalyAnalyzer.step lib now art = art := by
  have hp := persistenceRules_other lib now art h
  simp only [builtinTypes, List.mem_cons, List.mem_singleton, List.not_mem_nil, or_false,
    not_or] at h
  obtain ⟨h1, h2, h3, _⟩ := h
  refine ⟨?_, ?_, ?_⟩
  · unfold SuspiciousProcessAnalyzer.step
    simp [h1]
  · unfold NetworkAnomalyAnalyzer.step
    simp [h2, h3]
  · unfold PersistenceAnomalyAnalyzer.step
    rw [hp, applyRules_zero]

theorem hasSuffix_exclusive (s a b : String) (ha : HasSuffix s a = true)
    (hb : HasSuffix s b = true) : a.data <:+ b.data ∨ b.data <:+ a.data := by
  unfold HasSuffix at ha hb
  rw [List.isSuffixOf_iff_suffix] at ha hb
  exact List.suffix_or_suffix_of_suffix ha hb

theorem hasSuffix_toLower {lib : GoLib} (t : String) (h : HasSuffix t "_status" = true) :
    HasSuffix (ToLower lib t) "_status" = true := by
  unfold HasSuffix at h ⊢
  rw [List.isSuffixOf_iff_suffix] at h ⊢
  have := List.IsSuffix.map (unicodeToLower lib) h
  have hs : List.map (unicodeToLower lib) "_status".data = "_status".data := rfl
  rw [hs] at this
  exact this

theorem timestampDesc_of_status {lib : GoLib} (t : String) (h : HasSuffix (ToLower lib t) "_status" = true) :
    timestampDesc lib t
      = if HasPrefix (ToLower lib t) "unified_log_" = true then "Log Entry"
        else "Security Status Collected" := by
  unfold timestampDesc
  dsimp only
  generalize ToLower lib t = lowered at h ⊢
  have ne : ∀ s : String, HasSuffix s "_status" = false → lowered ≠ s := by
    intro s hs e
    rw [e, hs] at h
    exact Bool.noConfusion h
  have e1 := ne "safari_history" (by decide)
  have e2 := ne "chrome_history" (by decide)
  have e3 := ne "running_process" (by decide)
  have e4 := ne "network_connection" (by decide)
  have e5 := ne "open_network_file" (by decide)
  have e6 := ne "recent_file" (by decide)
  have e7 := ne "bash_history" (by decide)
  have e8 := ne "zsh_history" (by decide)
  have e9 := ne "quarantine_event" (by decide)
  have e10 := ne "user_crash_report" (by decide)
  have e11 := ne "system_crash_report" (by decide)
  have e12 := ne "install_log" (by decide)
  have s1 : HasSuffix lowered "launch_agent" = false := by
    cases hc : HasSuffix lowered "launch_agent" with
    | false => rfl
    | true =>
      exfalso
      rcases hasSuffix_exclusive lowered _ _ hc h with h' | h'
      · exact absurd h' (by decide)
      · exact absurd h' (by decide)
  have s2 : HasSuffix lowered "launch_daemon" = false := by
    cases hc : HasSuffix lowered "launch_daemon" with
    | false => rfl
    | true =>
      exfalso
      rcases hasSuffix_exclusive lowered _ _ hc h with h' | h'
      · exact absurd h' (by decide)
      · exact absurd h' (by decide)
  simp [e1, e2, e3, e4, e5, e6, e7, e8, e9, e10, e11, e12, s1, s2, h]

/-! ## Lemmas on the exclusive process rules -/

theorem exeInTmp_noExe_exclusive (art : Artifact) :
    ¬ (processExeInTmp art = true ∧ processNoExePath art = true) := by
  rintro ⟨h1, h3⟩
  unfold processNoExePath at h3
  unfold processExeInTmp at h1
  simp only [Bool.and_eq_true, beq_iff_eq] at h3
  rw [h3.1] at h1
  exact absurd h1 (by decide)

theorem hasPrefix_dot (b : String) (h : HasPrefix b "." = true) : ∃ r, b.data = '.' :: r := by
  unfold HasPrefix at h
  rw [List.isPrefixOf_iff_prefix] at h
  obtain ⟨r, hr⟩ := h
  exact ⟨r, hr.symm⟩

theorem suspicious_hidden_exclusive {lib : GoLib} (art : Artifact) :
    ¬ (processSuspiciousName lib art = true ∧ processHidden art = true) := by
  rintro ⟨h2, h5⟩
  unfold processHidden at h5
  unfold processSuspiciousName at h2
  obtain ⟨r, hr⟩ := hasPrefix_dot _ h5
  have hdot : unicodeToLower lib '.' = '.' := rfl
  have hl : (ToLower lib (baseNameOf (getString art.Data "name"))).data
      = '.' :: r.map (unicodeToLower lib) := by
    simp [ToLower, hr, hdot]
  have hm : ToLower lib (baseNameOf (getString art.Data "name")) ∈ suspiciousNames := by
    simpa using h2
  generalize ToLower lib (baseNameOf (getString art.Data "name")) = x at hl hm
  simp only [suspiciousNames, List.mem_cons, List.mem_singleton, List.not_mem_nil, or_false] at hm
  rcases hm with rfl | rfl | rfl | rfl | rfl | rfl | rfl | rfl | rfl | rfl | rfl | rfl | rfl <;>
    simp at hl

theorem processSpecScore_le {lib : GoLib} (art : Artifact) : processSpecScore lib art ≤ 75 := by
  have h13 := exeInTmp_noExe_exclusive art
  have h25 := @suspicious_hidden_exclusive lib art
  unfold processSpecScore pts
  generalize processExeInTmp art = b1 at h13 ⊢
  generalize processSuspiciousName lib art = b2 at h25 ⊢
  generalize processNoExePath art = b3 at h13 ⊢
  generalize processRootInUserDir art = b4
  generalize processHidden art = b5 at h25 ⊢
  cases b1 <;> cases b2 <;> cases b3 <;> cases b4 <;> cases b5 <;> simp at h13 h25 ⊢

theorem processStep_score {lib : GoLib} (art : Artifact) (ht : art.ArtifactType = "running_process") :
    (SuspiciousProcessAnalyzer.step lib art).RiskScore = art.RiskScore + processSpecScore lib art := by
  have hnn := @processSpecScore_nonneg lib art
  unfold SuspiciousProcessAnalyzer.step
  simp only [ht, bne_self_eq_false, Bool.false_eq_true, if_false, processRules_eq,
    applyRules_score]
  split <;> omega

/-! ## Lemmas on the disjointness of the indicator sets -/

theorem isHexDigit_iff (c : Char) :
    isHexDigit c = true ↔
      (48 ≤ c.toNat ∧ c.toNat ≤ 57) ∨ (97 ≤ c.toNat ∧ c.toNat ≤ 102) ∨
      (65 ≤ c.toNat ∧ c.toNat ≤ 70) := by
  unfold isHexDigit Char.isDigit
  simp only [Bool.or_eq_true, Bool.and_eq_true, decide_eq_true_eq, Char.le_def,
    UInt32.le_def, Fin.le_def, ge_iff_le]
  simp [Char.toNat, UInt32.toNat, BitVec.le_def, or_assoc]

theorem toLower_cases (c : Char) :
    c.toLower = c ∨ (65 ≤ c.toNat ∧ c.toNat ≤ 90 ∧ c.toLower.toNat = c.toNat + 32) := by
  by_cases h : c.toNat ≥ 65 ∧ c.toNat ≤ 90
  · right
    have h1 : c.toLower = Char.ofNat (c.toNat + 32) := by
      simp only [Char.toLower, h, and_self, if_true]
    exact ⟨h.1, h.2, by rw [h1]; exact toNat_ofNat_small _ (by omega)⟩
  · left
    simp only [Char.toLower, h, if_false]

theorem isHexDigit_toLower (c : Char) : isHexDigit c.toLower = isHexDigit c := by
  rcases toLower_cases c with h | ⟨h1, h2, h3⟩
  · rw [h]
  · have e1 := isHexDigit_iff c
    have e2 := isHexDigit_iff c.toLower
    rw [h3] at e2
    cases hc : isHexDigit c <;> cases hl : isHexDigit c.toLower <;> simp [hc, hl] at e1 e2 ⊢ <;> omega

theorem toLower_eq_slash (c : Char) : c.toLower = '/' ↔ c = '/' := by
  rcases toLower_cases c with h | ⟨h1, h2, h3⟩
  · rw [h]
  · constructor
    · intro e
      rw [e] at h3
      have : ('/' : Char).toNat = 47 := by decide
      omega
    · intro e
      rw [e] at h1
      have : ('/' : Char).toNat = 47 := by decide
      omega

theorem unicodeToLower_ascii (lib : GoLib) (c : Char) (h : c.toNat ≤ 127) :
    unicodeToLower lib c = c.toLower := by
  unfold unicodeToLower
  rw [if_pos h]

theorem unicodeToLower_table (lib : GoLib) (c : Char) (h : 127 < c.toNat) :
    unicodeToLower lib c = lib.LowerCase c := by
  unfold unicodeToLower
  rw [if_neg (by omega)]

theorem isHexDigit_unicodeToLower (lib : GoLib)
    (hlow : ∀ c : Char, 127 < c.toNat →
      isHexDigit (lib.LowerCase c) = false ∧ lib.LowerCase c ≠ '/')
    (c : Char) : isHexDigit (unicodeToLower lib c) = isHexDigit c := by
  by_cases h : c.toNat ≤ 127
  · rw [unicodeToLower_ascii lib c h, isHexDigit_toLower]
  · rw [unicodeToLower_table lib c (by omega), (hlow c (by omega)).1]
    cases hc : isHexDigit c with
    | false => rfl
    | true =>
      have := (isHexDigit_iff c).mp hc
      omega

theorem unicodeToLower_eq_slash (lib : GoLib)
    (hlow : ∀ c : Char, 127 < c.toNat →
      isHexDigit (lib.LowerCase c) = false ∧ lib.LowerCase c ≠ '/')
    (c : Char) : unicodeToLower lib c = '/' ↔ c = '/' := by
  by_cases h : c.toNat ≤ 127
  · rw [unicodeToLower_ascii lib c h]
    exact toLower_eq_slash c
  · rw [unicodeToLower_table lib c (by omega)]
    constructor
    · intro e
      exact absurd e (hlow c (by omega)).2
    · intro e
      rw [e] at h
      have : ('/' : Char).toNat = 47 := by decide
      omega

theorem hashRegexMatch_toLower (lib : GoLib)
    (hlow : ∀ c : Char, 127 < c.toNat →
      isHexDigit (lib.LowerCase c) = false ∧ lib.LowerCase c ≠ '/')
    (s : String) : hashRegexMatch (ToLower lib s) = hashRegexMatch s := by
  unfold hashRegexMatch ToLower
  have hf : (isHexDigit ∘ unicodeToLower lib) = isHexDigit :=
    funext (isHexDigit_unicodeToLower lib hlow)
  simp only [List.length_map, List.all_map, hf]

theorem hasPrefix_slash_toLower (lib : GoLib)
    (hlow : ∀ c : Char, 127 < c.toNat →
      isHexDigit (lib.LowerCase c) = false ∧ lib.LowerCase c ≠ '/')
    (s : String) : HasPrefix (ToLower lib s) "/" = HasPrefix s "/" := by
  unfold HasPrefix ToLower
  cases hs : s.data with
  | nil => rfl
  | cons c r =>
    have : "/".data = ['/'] := rfl
    simp only [this, List.map_cons, List.isPrefixOf]
    by_cases hc : c = '/'
    · subst hc; rfl
    · have h2 : unicodeToLower lib c ≠ '/' :=
        fun e => hc ((unicodeToLower_eq_slash lib hlow c).mp e)
      have e1 : ('/' == unicodeToLower lib c) = false := by
        simpa using fun e : '/' = unicodeToLower lib c => h2 e.symm
      have e2 : ('/' == c) = false := by
        simpa using fun e : '/' = c => hc e.symm
      simp [e1, e2]

theorem hash_not_slash (s : String) (h : hashRegexMatch s = true) : HasPrefix s "/" = false := by
  unfold hashRegexMatch at h
  simp only [Bool.and_eq_true, decide_eq_true_eq, List.all_eq_true] at h
  unfold HasPrefix
  cases hs : s.data with
  | nil => rw [hs] at h; simp at h
  | cons c r =>
    have hc : isHexDigit c = true := h.2 c (by rw [hs]; exact List.mem_cons_self _ _)
    have : "/".data = ['/'] := rfl
    simp only [this, List.isPrefixOf]
    have hne : c ≠ '/' := by
      intro e; subst e; exact absurd hc (by decide)
    simp [hne]
    intro e; exact hne e.symm

theorem classifyLine_some (lib : GoLib) (text : String) (k : IOCKind) (x : String)
    (h : classifyLine lib text = some (k, x)) :
    match k with
    | .ip => lib.ParseIP (TrimSpace text) = true ∧ x = TrimSpace text
    | .hash => lib.ParseIP (TrimSpace text) = false ∧ hashRegexMatch (TrimSpace text) = true ∧
        x = ToLower lib (TrimSpace text)
    | .path => lib.ParseIP (TrimSpace text) = false ∧ hashRegexMatch (TrimSpace text) = false ∧
        HasPrefix (TrimSpace text) "/" = true ∧ x = TrimSpace text
    | .domain => lib.ParseIP (TrimSpace text) = false ∧
        hashRegexMatch (TrimSpace text) = false ∧ HasPrefix (TrimSpace text) "/" = false ∧
        x = ToLower lib (TrimSpace text) := by
  unfold classifyLine at h
  dsimp only at h
  split_ifs at h with h0 h1 h2 h3 <;> simp only [Option.some.injEq, Prod.mk.injEq] at h <;>
    obtain ⟨rfl, rfl⟩ := h <;> simp_all

theorem stored_disjoint (lib : GoLib)
    (hcase : ∀ s, lib.ParseIP (ToLower lib s) = true → lib.ParseIP s = true)
    (hlow : ∀ c : Char, 127 < c.toNat →
      isHexDigit (lib.LowerCase c) = false ∧ lib.LowerCase c ≠ '/')
    (lines : List String) (k k' : IOCKind) (x : String)
    (h : x ∈ (NewIOCMatcher lib lines).stored k) (h' : x ∈ (NewIOCMatcher lib lines).stored k') :
    k = k' := by
  obtain ⟨t, _, ht⟩ := (newIOCMatcher_membership lib lines k x).mp h
  obtain ⟨t', _, ht'⟩ := (newIOCMatcher_membership lib lines k' x).mp h'
  have c := classifyLine_some lib t k x ht
  have c' := classifyLine_some lib t' k' x ht'
  have hnot : ∀ s, lib.ParseIP s = false → lib.ParseIP (ToLower lib s) = false := by
    intro s hs
    cases hl : lib.ParseIP (ToLower lib s) with
    | false => rfl
    | true => rw [hcase s hl] at hs; exact Bool.noConfusion hs
  cases k <;> cases k' <;> first | rfl | exfalso
  -- ip / domain
  · obtain ⟨h1, rfl⟩ := c
    obtain ⟨g1, _, _, g4⟩ := c'
    rw [g4, hnot _ g1] at h1
    exact Bool.noConfusion h1
  -- ip / hash
  · obtain ⟨h1, rfl⟩ := c
    obtain ⟨g1, _, g3⟩ := c'
    rw [g3, hnot _ g1] at h1
    exact Bool.noConfusion h1
  -- ip / path
  · obtain ⟨h1, rfl⟩ := c
    obtain ⟨g1, _, _, g4⟩ := c'
    rw [g4, g1] at h1
    exact Bool.noConfusion h1
  -- domain / ip
  · obtain ⟨h1, rfl⟩ := c'
    obtain ⟨g1, _, _, g4⟩ := c
    rw [g4, hnot _ g1] at h1
    exact Bool.noConfusion h1
  -- domain / hash
  · obtain ⟨_, g2, _, g4⟩ := c
    obtain ⟨_, h2, h3⟩ := c'
    have e : hashRegexMatch (TrimSpace t) = hashRegexMatch (TrimSpace t') := by
      rw [← hashRegexMatch_toLower lib hlow (TrimSpace t),
        ← hashRegexMatch_toLower lib hlow (TrimSpace t'), ← g4, ← h3]
    rw [e, h2] at g2
    exact Bool.noConfusion g2
  -- domain / path
  · obtain ⟨_, _, g3, g4⟩ := c
    obtain ⟨_, _, h3, h4⟩ := c'
    rw [← hasPrefix_slash_toLower lib hlow, ← g4, h4, h3] at g3
    exact Bool.noConfusion g3
  -- hash / ip
  · obtain ⟨h1, rfl⟩ := c'
    obtain ⟨g1, _, g3⟩ := c
    rw [g3, hnot _ g1] at h1
    exact Bool.noConfusion h1
  -- hash / domain
  · obtain ⟨_, g2, _, g4⟩ := c'
    obtain ⟨_, h2, h3⟩ := c
    have e : hashRegexMatch (TrimSpace t') = hashRegexMatch (TrimSpace t) := by
      rw [← hashRegexMatch_toLower lib hlow (TrimSpace t),
        ← hashRegexMatch_toLower lib hlow (TrimSpace t'), ← g4, ← h3]
    rw [e, h2] at g2
    exact Bool.noConfusion g2
  -- hash / path
  · obtain ⟨_, h2, h3⟩ := c
    obtain ⟨_, _, g3, g4⟩ := c'
    have hx : hashRegexMatch x = true := by
      rw [h3, hashRegexMatch_toLower lib hlow]; exact h2
    have := hash_not_slash x hx
    rw [g4, g3] at this
    exact Bool.noConfusion this
  -- path / ip
  · obtain ⟨h1, rfl⟩ := c'
    obtain ⟨g1, _, _, g4⟩ := c
    rw [g4, g1] at h1
    exact Bool.noConfusion h1
  -- path / domain
  · obtain ⟨_, _, g3, g4⟩ := c'
    obtain ⟨_, _, h3, h4⟩ := c
    rw [← hasPrefix_slash_toLower lib hlow, ← g4, h4, h3] at g3
    exact Bool.noConfusion g3
  -- path / hash
  · obtain ⟨_, h2, h3⟩ := c'
    obtain ⟨_, _, g3, g4⟩ := c
    have hx : hashRegexMatch x = true := by
      rw [h3, hashRegexMatch_toLower lib hlow]; exact h2
    have := hash_not_slash x hx
    rw [g4, g3] at this
    exact Bool.noConfusion this

theorem sampleLib_case (s : String) (h : sampleLib.ParseIP (ToLower sampleLib s) = true) :
    sampleLib.ParseIP s = true := by
  have key : ∀ c : Char,
      ((unicodeToLower sampleLib c).isDigit || unicodeToLower sampleLib c == '.') = true →
      (c.isDigit || c == '.') = true := by
    intro c hc
    by_cases hascii : c.toNat ≤ 127
    · rw [unicodeToLower_ascii sampleLib c hascii] at hc
      rcases toLower_cases c with e | ⟨h1, h2, h3⟩
      · rw [e] at hc; exact hc
      · exfalso
        have hd : c.toLower.isDigit = false := by
          unfold Char.isDigit
          have : c.toLower.val.toNat = c.toNat + 32 := h3
          simp [UInt32.le_def, BitVec.le_def, UInt32.toNat] at this ⊢
          omega
        have hp : (c.toLower == '.') = false := by
          have : c.toLower ≠ '.' := by
            intro e
            rw [e] at h3
            have : ('.' : Char).toNat = 46 := by decide
            omega
          simpa using this
        rw [hd, hp] at hc
        exact Bool.noConfusion hc
    · rw [unicodeToLower_table sampleLib c (by omega)] at hc
      simp only [sampleLib] at hc
      split_ifs at hc
      · exact absurd hc (by decide)
      · exact absurd hc (by decide)
      · exact absurd hc (by decide)
      · exact hc
  simp only [sampleLib, ToLower, List.all_map, List.all_eq_true, Function.comp] at h ⊢
  intro c hc
  exact key c (h c hc)

theorem sampleLib_lower (c : Char) (h : 127 < c.toNat) :
    isHexDigit (sampleLib.LowerCase c) = false ∧ sampleLib.LowerCase c ≠ '/' := by
  simp only [sampleLib]
  split_ifs
  · decide
  · decide
  · decide
  · constructor
    · cases hc : isHexDigit c with
      | false => rfl
      | true =>
        have := (isHexDigit_iff c).mp hc
        omega
    · intro e
      rw [e] at h
      have : ('/' : Char).toNat = 47 := by decide
      omega

/-! ## Lemmas on the per-pid connection count -/

theorem pidConnCount_foldl (artifacts : List Artifact) (pid : String) (hpid : pid ≠ "")
    (init : String → Int) :
    (artifacts.foldl
      (fun (m : String → Int) art =>
        if isNetworkType art.ArtifactType then
          let pid := getString art.Data "pid"
          if pid != "" then Function.update m pid (m pid + 1) else m
        else m) init) pid = init pid + connectionsOf artifacts pid := by
  induction artifacts generalizing init with
  | nil => simp [connectionsOf]
  | cons a rest ih =>
    rw [List.foldl_cons, ih]
    unfold connectionsOf
    dsimp only
    by_cases ht : isNetworkType a.ArtifactType = true
    · rw [if_pos ht]
      by_cases hp : getString a.Data "pid" = pid
      · have hne : (getString a.Data "pid" != "") = true := by
          rw [hp]; simpa using hpid
        have hb : (isNetworkType a.ArtifactType && getString a.Data "pid" == pid) = true := by
          simp [ht, hp]
        rw [if_pos hne, List.filter_cons, if_pos hb, List.length_cons, hp,
          Function.update_same]
        push_cast
        omega
      · have hb : ¬ (isNetworkType a.ArtifactType && getString a.Data "pid" == pid) = true := by
          simp [hp]
        rw [List.filter_cons, if_neg hb]
        by_cases hne : (getString a.Data "pid" != "") = true
        · rw [if_pos hne, Function.update_noteq (Ne.symm hp)]
        · rw [if_neg hne]
    · have hb : ¬ (isNetworkType a.ArtifactType && getString a.Data "pid" == pid) = true := by
        simp [ht]
      rw [if_neg ht, List.filter_cons, if_neg hb]

theorem pidConnCount_eq (artifacts : List Artifact) (pid : String) (hpid : pid ≠ "") :
    pidConnCount artifacts pid = connectionsOf artifacts pid := by
  unfold pidConnCount
  rw [pidConnCount_foldl artifacts pid hpid]
  simp

theorem tag_high_ne_c2 (x : String) : "c2_port:" ++ x ≠ "high_conn_count" :=
  c2_tag_ne x "high_conn_count" (by simp)

theorem mem_networkSpecTags_high (counts : String → Int) (art : Artifact) :
    "high_conn_count" ∈ networkSpecTags counts art ↔ networkHighCount counts art = true := by
  unfold networkSpecTags tagIf
  have h1 := tag_high_ne_c2 (formatInt (resolveRemotePort art.Data))
  generalize networkC2 art = b1
  generalize networkIRC art = b2
  generalize networkTor art = b3
  generalize networkHighCount counts art = b4
  cases b1 <;> cases b2 <;> cases b3 <;> cases b4 <;> simp [h1, Ne.symm h1]

theorem connectionsOf_replicate (n : Nat) :
    connectionsOf (List.replicate n sampleConnection) "100" = n := by
  unfold connectionsOf
  rw [List.filter_replicate]
  have : (isNetworkType sampleConnection.ArtifactType &&
      getString sampleConnection.Data "pid" == "100") = true := by decide
  simp [this]

theorem isNetworkType_iff (t : String) :
    isNetworkType t = true ↔ t = "network_connection" ∨ t = "open_network_file" := by
  simp [isNetworkType]

theorem networkStep_spec (counts : String → Int) (art : Artifact)
    (ht : art.ArtifactType = "network_connection" ∨ art.ArtifactType = "open_network_file") :
    (NetworkAnomalyAnalyzer.step counts art).RiskScore
        = art.RiskScore + networkSpecScore counts art ∧
      (NetworkAnomalyAnalyzer.step counts art).Tags
        = appendUnique art.Tags (networkSpecTags counts art) := by
  have hstep : NetworkAnomalyAnalyzer.step counts art
      = applyRules art (networkSpecScore counts art, networkSpecTags counts art) := by
    unfold NetworkAnomalyAnalyzer.step
    rcases ht with ht | ht <;> simp [ht, networkRules_eq]
  have hnn := networkSpecScore_nonneg counts art
  constructor
  · rw [hstep, applyRules_score]
    simp only
    split <;> omega
  · rw [hstep, applyRules_tags]
    by_cases hpos : networkSpecScore counts art > 0
    · simp [hpos]
    · simp only [hpos, if_false]
      rw [networkSpecTags_nil_of_zero _ art hpos, appendUnique_nil]

theorem networkHighCount_iff (artifacts : List Artifact) (art : Artifact)
    (hpid : getString art.Data "pid" ≠ "") :
    networkHighCount (pidConnCount artifacts) art = true ↔
      50 < connectionsOf artifacts (getString art.Data "pid") := by
  unfold networkHighCount
  rw [pidConnCount_eq artifacts _ hpid]
  simp [hpid]

theorem networkStep_high (artifacts : List Artifact) (art : Artifact)
    (ht : art.ArtifactType = "network_connection" ∨ art.ArtifactType = "open_network_file")
    (hpid : getString art.Data "pid" ≠ "") :
    (networkHighCount (pidConnCount artifacts) art = true ↔
      50 < connectionsOf artifacts (getString art.Data "pid")) ∧
    (NetworkAnomalyAnalyzer.step (pidConnCount artifacts) art).RiskScore
      = art.RiskScore + pts (networkC2 art) 30 + pts (networkIRC art) 20 +
        pts (networkTor art) 20 +
        pts (decide (50 < connectionsOf artifacts (getString art.Data "pid"))) 10 ∧
    ("high_conn_count" ∉ art.Tags →
      ("high_conn_count" ∈ (NetworkAnomalyAnalyzer.step (pidConnCount artifacts) art).Tags ↔
        50 < connectionsOf artifacts (getString art.Data "pid"))) := by
  have hiff := networkHighCount_iff artifacts art hpid
  have hs := networkStep_spec (pidConnCount artifacts) art ht
  refine ⟨hiff, ?_, fun hfresh => ?_⟩
  · rw [hs.1]
    unfold networkSpecScore
    have hb : networkHighCount (pidConnCount artifacts) art
        = decide (50 < connectionsOf artifacts (getString art.Data "pid")) := by
      rw [Bool.eq_iff_iff, hiff, decide_eq_true_iff]
    rw [hb]
    omega
  · rw [hs.2, mem_appendUnique, mem_networkSpecTags_high, hiff]
    exact ⟨fun h => h.resolve_left hfresh, Or.inr⟩

/-! ## Lemmas on `Atoi` and `formatInt` -/

theorem digitChar_spec (k : Nat) (h : k < 10) :
    (Nat.digitChar k).isDigit = true ∧ digitVal (Nat.digitChar k) = k ∧
    Nat.digitChar k ≠ '-' ∧ Nat.digitChar k ≠ '+' := by
  interval_cases k <;> decide

theorem toDigitsCore_spec (fuel : Nat) : ∀ (n : Nat) (ds : List Char), n < fuel →
    ∃ pre, Nat.toDigitsCore 10 fuel n ds = pre ++ ds ∧ pre ≠ [] ∧
      pre.all Char.isDigit = true ∧ (∀ c ∈ pre, c ≠ '-' ∧ c ≠ '+') ∧
      ∀ acc : Int, pre.foldl (fun acc d => acc * 10 + digitVal d) acc
        = acc * 10 ^ pre.length + n := by
  induction fuel with
  | zero => intro n ds h; omega
  | succ fuel ih =>
    intro n ds h
    have hd := digitChar_spec (n % 10) (Nat.mod_lt _ (by omega))
    unfold Nat.toDigitsCore
    dsimp only
    by_cases hn : n / 10 = 0
    · rw [if_pos hn]
      refine ⟨[Nat.digitChar (n % 10)], rfl, by simp, by simp [hd.1], ?_, ?_⟩
      · intro c hc
        rw [List.mem_singleton] at hc
        rw [hc]
        exact ⟨hd.2.2.1, hd.2.2.2⟩
      · intro acc
        have hlt : n % 10 = n := Nat.mod_eq_of_lt (by omega)
        have hv := hd.2.1
        rw [hlt] at hv
        simp only [List.foldl_cons, List.foldl_nil, List.length_singleton, pow_one, hlt, hv]
    · rw [if_neg hn]
      obtain ⟨pre, hpre, hne, hall, hsign, hval⟩ :=
        ih (n / 10) (Nat.digitChar (n % 10) :: ds) (by omega)
      refine ⟨pre ++ [Nat.digitChar (n % 10)], by rw [hpre]; simp, by simp, ?_, ?_, ?_⟩
      · simp [hall, hd.1]
      · intro c hc
        rcases List.mem_append.mp hc with h1 | h1
        · exact hsign c h1
        · rw [List.mem_singleton] at h1
          rw [h1]
          exact ⟨hd.2.2.1, hd.2.2.2⟩
      · intro acc
        rw [List.foldl_append, hval]
        simp only [List.foldl_cons, List.foldl_nil, hd.2.1, List.length_append,
          List.length_singleton, pow_succ]
        have hdm : ((n / 10 : Nat) : Int) * 10 + ((n % 10 : Nat) : Int) = (n : Int) := by
          have := Nat.div_add_mod n 10
          omega
        linear_combination hdm

theorem repr_spec (k : Nat) :
    ∃ pre, (Nat.repr k).data = pre ∧ pre ≠ [] ∧ pre.all Char.isDigit = true ∧
      (∀ c ∈ pre, c ≠ '-' ∧ c ≠ '+') ∧
      pre.foldl (fun (acc : Int) d => acc * 10 + digitVal d) 0 = k := by
  obtain ⟨pre, hpre, hne, hall, hsign, hval⟩ := toDigitsCore_spec (k + 1) k [] (by omega)
  refine ⟨pre, ?_, hne, hall, hsign, ?_⟩
  · show Nat.toDigits 10 k = pre
    unfold Nat.toDigits
    rw [hpre, List.append_nil]
  · rw [hval 0]; simp

theorem atoi_formatInt (n : Int) (h1 : minInt64 ≤ n) (h2 : n ≤ maxInt64) :
    Atoi (formatInt n) = n := by
  unfold minInt64 at h1
  unfold maxInt64 at h2
  unfold formatInt
  by_cases hneg : n < 0
  · rw [if_pos hneg]
    obtain ⟨pre, hpre, hne, hall, hsign, hval⟩ := repr_spec n.natAbs
    have hdata : ("-" ++ Nat.repr n.natAbs).data = '-' :: pre := by
      rw [String.data_append, hpre]; rfl
    unfold Atoi
    simp only [hdata, List.head?_cons, true_or, if_true, List.tail_cons]
    have he : pre.isEmpty = false := by
      cases pre with
      | nil => exact absurd rfl hne
      | cons _ _ => rfl
    simp only [he, hall, Bool.not_true, Bool.or_self, Bool.false_eq_true, if_false, hval,
      minInt64, maxInt64]
    have : ((n.natAbs : Nat) : Int) = -n := by omega
    rw [this]
    simp only [neg_neg]
    split_ifs <;> omega
  · rw [if_neg hneg]
    obtain ⟨pre, hpre, hne, hall, hsign, hval⟩ := repr_spec n.toNat
    unfold Atoi
    obtain ⟨c, r, rfl⟩ : ∃ c r, pre = c :: r := by
      cases pre with
      | nil => exact absurd rfl hne
      | cons c r => exact ⟨c, r, rfl⟩
    have hs := hsign c (List.mem_cons_self _ _)
    have hc1 : ¬ (some c = some '-') := fun e => hs.1 (Option.some.inj e)
    have hc2 : ¬ (some c = some '+') := fun e => hs.2 (Option.some.inj e)
    simp only [hpre, List.head?_cons, hc1, hc2, or_self, if_false, List.isEmpty_cons, hall,
      Bool.not_true, Bool.or_self, Bool.false_eq_true, hval, decide_False, minInt64, maxInt64]
    have : ((n.toNat : Nat) : Int) = n := by omega
    rw [this]
    split_ifs <;> omega

/-! ## Lemmas on writing and reading a CSV record -/

theorem csvRead_quoted_quote (cs acc : List Char) (done : List String) :
    csvRead ('"' :: cs) .quoted acc done = csvRead cs .quoteSeen acc done := by
  simp [csvRead]

theorem csvRead_quoted_other (c : Char) (hc : c ≠ '"') (cs acc : List Char)
    (done : List String) :
    csvRead (c :: cs) .quoted acc done = csvRead cs .quoted (acc ++ [c]) done := by
  simp [csvRead, hc]

theorem csvRead_quoteSeen_quote (cs acc : List Char) (done : List String) :
    csvRead ('"' :: cs) .quoteSeen acc done = csvRead cs .quoted (acc ++ ['"']) done := by
  simp [csvRead]

theorem csvRead_unquoted_other (c : Char) (hc : c ≠ '"' ∧ c ≠ ',' ∧ c ≠ '\n')
    (cs acc : List Char) (done : List String) :
    csvRead (c :: cs) .unquoted acc done = csvRead cs .unquoted (acc ++ [c]) done := by
  simp [csvRead, hc.1, hc.2.1, hc.2.2]

theorem csvRead_start_quote (cs acc : List Char) (done : List String) :
    csvRead ('"' :: cs) .fieldStart acc done = csvRead cs .quoted [] done := by
  simp [csvRead]

theorem csvRead_start_other (c : Char) (hc : c ≠ '"' ∧ c ≠ ',' ∧ c ≠ '\n')
    (cs acc : List Char) (done : List String) :
    csvRead (c :: cs) .fieldStart acc done = csvRead cs .unquoted [c] done := by
  simp [csvRead, hc.1, hc.2.1, hc.2.2]

theorem csvRead_start_sep (sep : Char) (hsep : sep = ',' ∨ sep = '\n') (rest : List Char)
    (done : List String) :
    csvRead (sep :: rest) .fieldStart [] done = csvRead (sep :: rest) .quoteSeen [] done := by
  rcases hsep with rfl | rfl <;> simp [csvRead]

theorem csvRead_sep (sep : Char) (hsep : sep = ',' ∨ sep = '\n') (rest acc : List Char)
    (done : List String) :
    csvRead (sep :: rest) .unquoted acc done = csvRead (sep :: rest) .quoteSeen acc done := by
  rcases hsep with rfl | rfl <;> simp [csvRead]

theorem csvRead_quoted (l : List Char) : ∀ (acc : List Char) (done : List String)
    (tail : List Char),
    csvRead (csvQuoteChars l ++ '"' :: tail) .quoted acc done
      = csvRead tail .quoteSeen (acc ++ l) done := by
  induction l with
  | nil =>
    intro acc done tail
    rw [csvQuoteChars, List.nil_append, csvRead_quoted_quote, List.append_nil]
  | cons c cs ih =>
    intro acc done tail
    by_cases hc : c = '"'
    · subst hc
      rw [csvQuoteChars, if_pos rfl, List.cons_append, List.cons_append, csvRead_quoted_quote,
        csvRead_quoteSeen_quote, ih, List.append_assoc, List.singleton_append]
    · rw [csvQuoteChars, if_neg hc, List.cons_append, csvRead_quoted_other c hc, ih,
        List.append_assoc, List.singleton_append]

theorem csvRead_unquoted (l : List Char) : ∀ (acc : List Char) (done : List String)
    (tail : List Char), (∀ c ∈ l, c ≠ '"' ∧ c ≠ ',' ∧ c ≠ '\n') →
    csvRead (l ++ tail) .unquoted acc done = csvRead tail .unquoted (acc ++ l) done := by
  induction l with
  | nil => intro acc done tail _; rw [List.nil_append, List.append_nil]
  | cons c cs ih =>
    intro acc done tail h
    have hc := h c (List.mem_cons_self _ _)
    rw [List.cons_append, csvRead_unquoted_other c hc,
      ih _ _ _ (fun d hd => h d (List.mem_cons_of_mem _ hd)), List.append_assoc,
      List.singleton_append]

theorem csvPlain_chars (f : String) (h : csvFieldNeedsQuotes f = false) :
    ∀ c ∈ f.data, c ≠ '"' ∧ c ≠ ',' ∧ c ≠ '\n' := by
  unfold csvFieldNeedsQuotes at h
  by_cases h0 : (f == "") = true
  · have : f = "" := by simpa using h0
    subst this
    intro c hc
    simp at hc
  · rw [if_neg h0] at h
    by_cases h1 : (f == "\\.") = true
    · rw [if_pos h1] at h; exact Bool.noConfusion h
    · rw [if_neg h1] at h
      by_cases h2 : f.data.any (fun c => c == '\n' || c == '\r' || c == '"' || c == ',') = true
      · rw [if_pos h2] at h; exact Bool.noConfusion h
      · intro c hc
        simp only [List.any_eq_true, not_exists, not_and, Bool.or_eq_true, beq_iff_eq,
          not_or] at h2
        have := h2 c hc
        exact ⟨this.1.2, this.2, this.1.1.1⟩

theorem csvRead_field (f : String) (sep : Char) (hsep : sep = ',' ∨ sep = '\n')
    (rest : List Char) (done : List String) :
    csvRead (csvWriteField f ++ sep :: rest) .fieldStart [] done
      = csvRead (sep :: rest) .quoteSeen f.data done := by
  unfold csvWriteField
  by_cases hq : csvFieldNeedsQuotes f = true
  · rw [if_pos hq, List.cons_append, csvRead_start_quote, List.append_assoc,
      List.singleton_append, csvRead_quoted, List.nil_append]
  · rw [if_neg hq]
    have hq' : csvFieldNeedsQuotes f = false := by simpa using hq
    have hch := csvPlain_chars f hq'
    cases hd : f.data with
    | nil => rw [List.nil_append, csvRead_start_sep sep hsep]
    | cons c cs =>
      rw [hd] at hch
      have hc := hch c (List.mem_cons_self _ _)
      rw [List.cons_append, csvRead_start_other c hc,
        csvRead_unquoted cs _ _ _ (fun d hd' => hch d (List.mem_cons_of_mem _ hd')),
        csvRead_sep sep hsep, List.singleton_append]

theorem csvRead_end (acc : List Char) (done : List String) :
    csvRead ['\n'] .quoteSeen acc done = some (done ++ [⟨acc⟩]) := by
  simp [csvRead]

theorem csvRead_comma (rest acc : List Char) (done : List String) :
    csvRead (',' :: rest) .quoteSeen acc done = csvRead rest .fieldStart [] (done ++ [⟨acc⟩]) := by
  simp [csvRead]

theorem csvRead_write (fields : List String) : ∀ (done : List String), fields ≠ [] →
    csvRead (csvWrite fields) .fieldStart [] done = some (done ++ fields) := by
  induction fields with
  | nil => intro done h; exact absurd rfl h
  | cons f rest ih =>
    intro done _
    cases rest with
    | nil =>
      rw [csvWrite, csvRead_field f '\n' (Or.inr rfl), csvRead_end]
    | cons g rest' =>
      rw [csvWrite, csvRead_field f ',' (Or.inl rfl), csvRead_comma,
        ih (done ++ [f]) (by simp), List.append_assoc, List.singleton_append]

/-! ## Lemmas on the order of the built-in analyzers -/

theorem rulesOf_zero_of_type (lib : GoLib) (now : Int) (counts : String → Int) (a : Analyzer)
    (art : Artifact) (h : art.ArtifactType ∉ analyzerTypes a) :
    rulesOf lib now counts a art = (0, []) := by
  cases a with
  | suspiciousProcess =>
    simp only [analyzerTypes, List.mem_singleton] at h
    simp [rulesOf, h]
  | networkAnomaly =>
    simp only [analyzerTypes, List.mem_cons, List.mem_singleton, List.not_mem_nil, or_false,
      not_or] at h
    simp [rulesOf, h.1, h.2]
  | persistenceAnomaly =>
    simp only [analyzerTypes, List.mem_cons, List.mem_singleton, List.not_mem_nil, or_false,
      not_or] at h
    obtain ⟨h4, h5, h6, h7, h8, h9, h10, h11⟩ := h
    unfold rulesOf PersistenceAnomalyAnalyzer.rules
    simp [h4, h5, h6, h7, h8, h9, h10, h11]
  | iocMatcher m => rfl

theorem analyzerTypes_disjoint (a b : Analyzer) (ha : a.isBuiltin = true)
    (hb : b.isBuiltin = true) (hab : a ≠ b) :
    ∀ t ∈ analyzerTypes a, t ∉ analyzerTypes b := by
  cases a <;> cases b <;> first
    | exact absurd rfl hab
    | exact Bool.noConfusion ha
    | exact Bool.noConfusion hb
    | decide

theorem rulesOf_exclusive (lib : GoLib) (now : Int) (counts : String → Int) (a b : Analyzer)
    (ha : a.isBuiltin = true) (hb : b.isBuiltin = true) (hab : a ≠ b) (art : Artifact) :
    ¬ (0 < (rulesOf lib now counts a art).1 ∧ 0 < (rulesOf lib now counts b art).1) := by
  rintro ⟨h1, h2⟩
  by_cases hta : art.ArtifactType ∈ analyzerTypes a
  · have htb := analyzerTypes_disjoint a b ha hb hab _ hta
    rw [rulesOf_zero_of_type lib now counts b art htb] at h2
    exact absurd h2 (by decide)
  · rw [rulesOf_zero_of_type lib now counts a art hta] at h1
    exact absurd h1 (by decide)

theorem applyRules_comm (z : Artifact) (r1 r2 : Int × List String)
    (h : ¬ (0 < r1.1 ∧ 0 < r2.1)) :
    applyRules (applyRules z r1) r2 = applyRules (applyRules z r2) r1 := by
  unfold applyRules
  by_cases h1 : r1.1 > 0
  · have h2 : ¬ r2.1 > 0 := fun h2 => h ⟨h1, h2⟩
    simp [h1, h2]
  · by_cases h2 : r2.1 > 0
    · simp [h1, h2]
    · simp [h1, h2]

theorem applyAll_perm (lib : GoLib) (now : Int) (counts : String → Int)
    (order order' : List Analyzer) (hb : ∀ a ∈ order, a.isBuiltin = true)
    (hp : order.Perm order') (inp : Artifact) :
    applyAll lib now counts order inp = applyAll lib now counts order' inp := by
  unfold applyAll
  refine List.Perm.foldl_eq' hp ?_ inp
  intro x hx y hy z
  by_cases hxy : x = y
  · rw [hxy]
  · exact applyRules_comm z _ _
      (rulesOf_exclusive lib now counts x y (hb x hx) (hb y hy) hxy inp)

theorem runAnalyzers_fold (lib : GoLib) (now : Int) (artifacts : List Artifact)
    (order : List Analyzer) (hb : ∀ a ∈ order, a.isBuiltin = true)
    (H : Artifact → Artifact) (cur : List Artifact)
    (h : List.Forall₂ (fun inp x => SameKey inp x ∧ x = H inp) artifacts cur) :
    List.Forall₂
      (fun inp out => SameKey inp out ∧
        out = order.foldl
          (fun x a => applyRules x (rulesOf lib now (pidConnCount artifacts) a inp)) (H inp))
      artifacts (runAnalyzers lib now order cur) := by
  induction order generalizing cur H with
  | nil => exact h
  | cons a rest ih =>
    have ha : a.isBuiltin = true := hb a (List.mem_cons_self _ _)
    have hcount : pidConnCount cur = pidConnCount artifacts :=
      pidConnCount_congr (h.imp (fun _ _ ho => ho.1))
    have hstep : List.Forall₂
        (fun inp x => SameKey inp x ∧
          x = applyRules (H inp) (rulesOf lib now (pidConnCount artifacts) a inp))
        artifacts (a.Analyze lib now cur) := by
      rw [builtin_analyze_eq lib now a ha cur, List.forall₂_map_right_iff, hcount]
      refine h.imp ?_
      intro inp out ho
      have hk := applyRules_sameKey out (rulesOf lib now (pidConnCount artifacts) a out)
      refine ⟨⟨hk.1.trans ho.1.1, hk.2.trans ho.1.2⟩, ?_⟩
      rw [rulesOf_congr lib now _ a ho.1, ho.2]
    exact ih (fun a ha => hb a (List.mem_cons_of_mem _ ha)) _ _ hstep

theorem forall2_eq_map {P : Artifact → Artifact → Prop} {F : Artifact → Artifact}
    {l l' : List Artifact} (h : List.Forall₂ (fun inp out => P inp out ∧ out = F inp) l l') :
    l' = l.map F := by
  induction h with
  | nil => rfl
  | cons hab _ ih => rw [List.map_cons, ← ih, hab.2]

theorem runAnalyzers_eq_applyAll (lib : GoLib) (now : Int) (artifacts : List Artifact)
    (order : List Analyzer) (hb : ∀ a ∈ order, a.isBuiltin = true) :
    runAnalyzers lib now order artifacts
      = artifacts.map (applyAll lib now (pidConnCount artifacts) order) := by
  have h0 : List.Forall₂ (fun inp x => SameKey inp x ∧ x = id inp) artifacts artifacts :=
    forall2_refl (fun art => ⟨⟨rfl, rfl⟩, rfl⟩) artifacts
  exact forall2_eq_map (runAnalyzers_fold lib now artifacts order hb id artifacts h0)

theorem runAnalyzers_perm (lib : GoLib) (now : Int) (artifacts : List Artifact)
    (order order' : List Analyzer) (hb : ∀ a ∈ order, a.isBuiltin = true)
    (hp : order.Perm order') :
    runAnalyzers lib now order artifacts = runAnalyzers lib now order' artifacts := by
  have hb' : ∀ a ∈ order', a.isBuiltin = true := fun a ha => hb a (hp.mem_iff.mpr ha)
  rw [runAnalyzers_eq_applyAll lib now artifacts order hb,
    runAnalyzers_eq_applyAll lib now artifacts order' hb']
  apply List.map_congr_left
  intro art _
  exact applyAll_perm lib now _ order order' hb hp art

/-! ## Lemmas on the remote port -/

theorem getPort_int (d : DataMap) (key : String) (n : Int)
    (h : d.lookup key = some (Value.int n)) (h1 : minInt64 ≤ n) (h2 : n ≤ maxInt64) :
    getPort d key = n := by
  unfold getPort getString
  rw [h]
  simp only [formatValue]
  rw [atoi_formatInt n h1 h2]
  split
  · rename_i h0
    have : Atoi (formatInt n) = 0 := by
      have h0' : formatInt n = "" := by simpa using h0
      rw [h0']; decide
    rw [atoi_formatInt n h1 h2] at this
    exact this.symm
  · rfl

theorem getPort_missing (d : DataMap) (key : String) (h : d.lookup key = none) :
    getPort d key = 0 := by
  unfold getPort getString
  rw [h]
  rfl

theorem atoi_non_numeric (s : String)
    (h : ∃ c ∈ s.data, c.isDigit = false ∧ c ≠ '-' ∧ c ≠ '+') : Atoi s = 0 := by
  obtain ⟨c, hc, hd, hm, hp⟩ := h
  unfold Atoi
  dsimp only
  have hmem : c ∈ (if s.data.head? = some '-' ∨ s.data.head? = some '+' then s.data.tail
      else s.data) := by
    split
    · rename_i hs
      cases hdata : s.data with
      | nil => rw [hdata] at hc; cases hc
      | cons x xs =>
        rw [hdata] at hc hs
        simp only [List.head?_cons, Option.some.injEq] at hs
        simp only [List.tail_cons]
        rcases List.mem_cons.mp hc with hx | hx
        · rcases hs with hs | hs
          · exact absurd (hx.trans hs) hm
          · exact absurd (hx.trans hs) hp
        · exact hx
    · exact hc
  have hall : (if s.data.head? = some '-' ∨ s.data.head? = some '+' then s.data.tail
      else s.data).all Char.isDigit = false := by
    rw [List.all_eq_false]
    exact ⟨c, hmem, by simp [hd]⟩
  rw [hall]
  simp

theorem resolveRemotePort_of_ne_zero (d : DataMap) (h : getPort d "remote_port" ≠ 0) :
    resolveRemotePort d = getPort d "remote_port" := by
  unfold resolveRemotePort
  simp [h]

theorem resolveRemotePort_of_zero (d : DataMap) (h : getPort d "remote_port" = 0) :
    resolveRemotePort d =
      if getString d "remote_addr" = "" ∨ LastIndex (getString d "remote_addr") ':' < 0 then 0
      else Atoi (sliceFrom (getString d "remote_addr")
        (LastIndex (getString d "remote_addr") ':' + 1)) := by
  unfold resolveRemotePort
  simp only [h]
  by_cases ha : getString d "remote_addr" = ""
  · simp [ha]
  · by_cases hi : LastIndex (getString d "remote_addr") ':' < 0
    · have : ¬ LastIndex (getString d "remote_addr") ':' ≥ 0 := by omega
      simp [ha, hi, this]
    · have : LastIndex (getString d "remote_addr") ':' ≥ 0 := by omega
      simp [ha, hi, this]

theorem network_rules_of_port_zero (art : Artifact) (h : resolveRemotePort art.Data = 0) :
    networkC2 art = false ∧ networkIRC art = false ∧
      networkTor art = decide (getPort art.Data "local_port" ∈ torPorts) := by
  unfold networkC2 networkIRC networkTor
  rw [h]
  refine ⟨?_, ?_, ?_⟩
  · have : decide ((0 : Int) ∈ c2Ports) = false := by decide
    rw [this]; rfl
  · have : decide ((0 : Int) ∈ ircPorts) = false := by decide
    rw [this]; rfl
  · have : decide ((0 : Int) ∈ torPorts) = false := by decide
    rw [this]; rfl

/-! ## Lemmas on the pipeline with an IOC matcher -/

theorem runAnalyzers_register (lib : GoLib) (now : Int) (analyzers : List Analyzer)
    (a : Analyzer) (artifacts : List Artifact) :
    runAnalyzers lib now (RegisterAnalyzer analyzers a) artifacts
      = a.Analyze lib now (runAnalyzers lib now analyzers artifacts) := by
  unfold RegisterAnalyzer runAnalyzers
  rw [List.foldl_append]
  rfl

theorem runAnalyzers_data_severity (lib : GoLib) (now : Int) (analyzers : List Analyzer)
    (artifacts : List Artifact) :
    List.Forall₂ (fun inp out => out.Data = inp.Data ∧ out.Severity = inp.Severity)
      artifacts (runAnalyzers lib now analyzers artifacts) := by
  refine @runAnalyzers_forall2 (fun inp out => out.Data = inp.Data ∧ out.Severity = inp.Severity)
    lib now ?_ ?_ (fun _ => ⟨rfl, rfl⟩) ?_ analyzers artifacts
  · intro art r
    unfold applyRules
    split <;> exact ⟨rfl, rfl⟩
  · intro m art
    cases hm : (m.scan lib art).1 with
    | true => rw [iocStep_of_match m art hm]; exact ⟨rfl, rfl⟩
    | false => rw [iocStep_of_no_match m art hm]; exact ⟨rfl, rfl⟩
  · intro a b c hab hbc
    exact ⟨hbc.1.trans hab.1, hbc.2.trans hab.2⟩

theorem hasMatch_congr {lib : GoLib} (m : IOCMatcher) (a b : Artifact) (h : b.Data = a.Data) :
    m.hasMatch lib b ↔ m.hasMatch lib a := by
  unfold IOCMatcher.hasMatch IOCMatcher.indicatorHit
  rw [h]

/-! ## Lemmas on the exported row -/

theorem csvParse_write (fields : List String) (h : fields ≠ []) :
    csvParseRecord (csvWrite fields) = some fields := by
  unfold csvParseRecord
  rw [csvRead_write fields [] h, List.nil_append]

/-! ## Lemmas on lower-casing and on the last path segment -/

theorem toLower_ascii_le (c : Char) (h : c.toNat ≤ 127) : c.toLower.toNat ≤ 127 := by
  rcases toLower_cases c with e | ⟨_, h2, h3⟩
  · rw [e]; exact h
  · omega

theorem unicodeToLower_idem (lib : GoLib)
    (htable : ∀ c : Char, 127 < c.toNat →
      unicodeToLower lib (lib.LowerCase c) = lib.LowerCase c)
    (c : Char) : unicodeToLower lib (unicodeToLower lib c) = unicodeToLower lib c := by
  by_cases h : c.toNat ≤ 127
  · rw [unicodeToLower_ascii lib c h,
      unicodeToLower_ascii lib c.toLower (toLower_ascii_le c h), toLower_toLower]
  · rw [unicodeToLower_table lib c (by omega)]
    exact htable c (by omega)

theorem toLower_idem (lib : GoLib)
    (htable : ∀ c : Char, 127 < c.toNat →
      unicodeToLower lib (lib.LowerCase c) = lib.LowerCase c)
    (s : String) : ToLower lib (ToLower lib s) = ToLower lib s := by
  apply String.ext
  simp only [ToLower, List.map_map]
  apply List.map_congr_left
  intro c _
  simp only [Function.comp]
  exact unicodeToLower_idem lib htable c

theorem lastIndexChars_absent (c : Char) (l : List Char) (h : c ∉ l) :
    lastIndexChars c l = -1 := by
  induction l with
  | nil => rfl
  | cons x xs ih =>
    have hx : x ≠ c := fun e => h (e ▸ List.mem_cons_self _ _)
    have hxs : c ∉ xs := fun e => h (List.mem_cons_of_mem _ e)
    simp only [lastIndexChars, ih hxs]
    simp [hx]

theorem lastIndexChars_last (c : Char) (pre suf : List Char) (h : c ∉ suf) :
    lastIndexChars c (pre ++ c :: suf) = pre.length := by
  induction pre with
  | nil =>
    simp only [List.nil_append, lastIndexChars, lastIndexChars_absent c suf h]
    simp
  | cons x xs ih =>
    have hpos : (0 : Int) ≤ xs.length := Int.natCast_nonneg _
    have e : lastIndexChars c (x :: (xs ++ c :: suf))
        = (if lastIndexChars c (xs ++ c :: suf) ≥ 0 then lastIndexChars c (xs ++ c :: suf) + 1
          else if x = c then 0 else -1) := rfl
    rw [List.cons_append, e, ih]
    simp only [ge_iff_le, hpos, if_true, List.length_cons]
    push_cast
    rfl

theorem baseNameOf_plain (name : String) (h : '/' ∉ name.data) : baseNameOf name = name := by
  unfold baseNameOf LastIndex
  simp only [lastIndexChars_absent '/' name.data h]
  simp

theorem baseNameOf_path (dir seg : String) (h : '/' ∉ seg.data) :
    baseNameOf (dir ++ "/" ++ seg) = seg := by
  have hd : (dir ++ "/" ++ seg).data = dir.data ++ '/' :: seg.data := by
    simp [String.data_append]
  unfold baseNameOf LastIndex sliceFrom
  simp only [hd, lastIndexChars_last '/' dir.data seg.data h]
  have h0 : (dir.data.length : Int) ≥ 0 := Int.natCast_nonneg _
  have h1 : ((dir.data.length : Int) + 1).toNat = dir.data.length + 1 := by omega
  simp only [h0, if_true, h1]
  apply String.ext
  exact List.drop_append 1

/-! ## Lemmas on the pipeline on 64-bit integers -/

theorem wrapInt64_of_range (n : Int) (h1 : minInt64 ≤ n) (h2 : n ≤ maxInt64) :
    wrapInt64 n = n := by
  unfold wrapInt64
  unfold minInt64 maxInt64 at *
  omega

theorem wrapInt64_overflow (n : Int) (h1 : maxInt64 < n) (h2 : n ≤ maxInt64 + 110) :
    wrapInt64 n = n - 18446744073709551616 := by
  unfold wrapInt64
  unfold minInt64 maxInt64 at *
  omega

theorem networkSpecScore_le (counts : String → Int) (art : Artifact) :
    networkSpecScore counts art ≤ 80 := by
  unfold networkSpecScore pts
  split_ifs <;> omega

theorem persistenceRules_bound (lib : GoLib) (now : Int) (art : Artifact) :
    0 ≤ (PersistenceAnomalyAnalyzer.rules lib now art).1 ∧
      (PersistenceAnomalyAnalyzer.rules lib now art).1 ≤ 65 := by
  unfold PersistenceAnomalyAnalyzer.rules
  dsimp only
  split_ifs
  · rw [launchAgentRules_eq]
    unfold launchAgentSpecScore pts
    dsimp only
    split_ifs <;> omega
  · unfold PersistenceAnomalyAnalyzer.analyzeCron
    dsimp only
    split_ifs <;> simp
  · unfold PersistenceAnomalyAnalyzer.analyzeLoginItem
    dsimp only
    split_ifs <;> simp
  · unfold PersistenceAnomalyAnalyzer.analyzeExtension
    dsimp only
    split <;> (try split) <;> (try split_ifs) <;> simp
  · simp

theorem rulesOf_bound (lib : GoLib) (now : Int) (counts : String → Int) (a : Analyzer)
    (art : Artifact) :
    0 ≤ (rulesOf lib now counts a art).1 ∧ (rulesOf lib now counts a art).1 ≤ 110 := by
  cases a with
  | suspiciousProcess =>
    unfold rulesOf
    dsimp only
    split
    · simp
    · rw [processRules_eq]
      have h1 := @processSpecScore_nonneg lib art
      have h2 := @processSpecScore_le lib art
      exact ⟨h1, by simp only; omega⟩
  | networkAnomaly =>
    unfold rulesOf
    dsimp only
    split
    · simp
    · rw [networkRules_eq]
      have h1 := networkSpecScore_nonneg counts art
      have h2 := networkSpecScore_le counts art
      exact ⟨h1, by simp only; omega⟩
  | persistenceAnomaly =>
    have h := persistenceRules_bound lib now art
    exact ⟨h.1, by unfold rulesOf; dsimp only; omega⟩
  | iocMatcher m => simp [rulesOf]

theorem deltaOf_bound (lib : GoLib) (now : Int) (counts : String → Int) (a : Analyzer)
    (art : Artifact) :
    0 ≤ deltaOf lib now counts a art ∧ deltaOf lib now counts a art ≤ 110 := by
  have h := rulesOf_bound lib now counts a art
  unfold deltaOf
  split <;> omega

theorem int64_analyze_eq (lib : GoLib) (now : Int) (a : Analyzer) (h : a.isBuiltin = true)
    (artifacts : List Artifact) :
    int64.Analyze lib now a artifacts
      = artifacts.map
          (fun art => int64.applyRules art (rulesOf lib now (pidConnCount artifacts) a art)) := by
  have hz : ∀ art : Artifact, int64.applyRules art (0, []) = art := by
    intro art
    simp [int64.applyRules]
  cases a with
  | suspiciousProcess =>
    simp only [int64.Analyze, rulesOf]
    apply List.map_congr_left
    intro art _
    unfold int64.SuspiciousProcessAnalyzer.step
    split
    · rw [hz]
    · rfl
  | networkAnomaly =>
    simp only [int64.Analyze, rulesOf]
    apply List.map_congr_left
    intro art _
    unfold int64.NetworkAnomalyAnalyzer.step
    split
    · rw [hz]
    · rfl
  | persistenceAnomaly => rfl
  | iocMatcher m => simp [Analyzer.isBuiltin] at h

theorem int64_applyRules_score (art : Artifact) (r : Int × List String) :
    (int64.applyRules art r).RiskScore
      = if r.1 > 0 then wrapInt64 (art.RiskScore + r.1) else art.RiskScore := by
  unfold int64.applyRules
  split <;> rfl

theorem int64_applyRules_severity (art : Artifact) (r : Int × List String) :
    (int64.applyRules art r).Severity = art.Severity := by
  unfold int64.applyRules
  split <;> rfl

theorem int64_builtin_score (lib : GoLib) (now : Int) (a : Analyzer) (h : a.isBuiltin = true)
    (artifacts : List Artifact) :
    List.Forall₂
      (fun inp out => out.Severity = inp.Severity ∧
        (minInt64 ≤ inp.RiskScore → inp.RiskScore ≤ maxInt64 →
          out.RiskScore
            = wrapInt64 (inp.RiskScore + deltaOf lib now (pidConnCount artifacts) a inp)) ∧
        (deltaOf lib now (pidConnCount artifacts) a inp = 0 → out.RiskScore = inp.RiskScore) ∧
        (0 < deltaOf lib now (pidConnCount artifacts) a inp →
          out.RiskScore
            = wrapInt64 (inp.RiskScore + deltaOf lib now (pidConnCount artifacts) a inp)))
      artifacts (int64.Analyze lib now a artifacts) := by
  rw [int64_analyze_eq lib now a h artifacts]
  refine forall2_map_of _ (fun art => ?_) artifacts
  have hb := rulesOf_bound lib now (pidConnCount artifacts) a art
  refine ⟨int64_applyRules_severity _ _, fun h1 h2 => ?_, fun h0 => ?_, fun hpos => ?_⟩
  · rw [int64_applyRules_score]
    unfold deltaOf
    split
    · rfl
    · rw [Int.add_zero, wrapInt64_of_range _ h1 h2]
  · rw [int64_applyRules_score]
    unfold deltaOf at h0
    split_ifs at h0 with hp
    · omega
    · rw [if_neg hp]
  · rw [int64_applyRules_score]
    unfold deltaOf at hpos ⊢
    split_ifs at hpos ⊢ with hp
    · rfl
    · omega

theorem int64_stepRel (lib : GoLib) (now : Int) (a : Analyzer) (artifacts : List Artifact) :
    List.Forall₂ int64.StepRel artifacts (int64.Analyze lib now a artifacts) := by
  by_cases hb : a.isBuiltin = true
  · refine (int64_builtin_score lib now a hb artifacts).imp ?_
    intro inp out h
    have hd := deltaOf_bound lib now (pidConnCount artifacts) a inp
    refine ⟨h.1, Or.inr ?_⟩
    by_cases h0 : deltaOf lib now (pidConnCount artifacts) a inp = 0
    · exact Or.inl (h.2.2.1 h0)
    · exact Or.inr ⟨_, by omega, hd.2, h.2.2.2 (by omega)⟩
  · cases a with
    | iocMatcher m =>
      refine forall2_map_of _ (fun art => ?_) artifacts
      cases hm : (m.scan lib art).1 with
      | true =>
        rw [iocStep_of_match m art hm]
        exact ⟨rfl, Or.inl rfl⟩
      | false =>
        rw [iocStep_of_no_match m art hm]
        exact ⟨rfl, Or.inr (Or.inl rfl)⟩
    | suspiciousProcess => exact absurd rfl hb
    | networkAnomaly => exact absurd rfl hb
    | persistenceAnomaly => exact absurd rfl hb

theorem int64_runAnalyzers_bound (lib : GoLib) (now : Int) (G : Artifact → Prop)
    (artifacts : List Artifact) (analyzers : List Analyzer) :
    ∀ cur : List Artifact, 110 * (analyzers.length : Int) + 90 ≤ maxInt64 →
      List.Forall₂
        (fun inp x => x.Severity = inp.Severity ∧
          (G inp → 0 ≤ x.RiskScore ∧ x.RiskScore + 110 * (analyzers.length : Int) ≤ maxInt64))
        artifacts cur →
      List.Forall₂
        (fun inp out => out.Severity = inp.Severity ∧
          (G inp → 0 ≤ out.RiskScore ∧ out.RiskScore ≤ maxInt64))
        artifacts (int64.runAnalyzers lib now analyzers cur) := by
  induction analyzers with
  | nil =>
    intro cur _ h
    refine h.imp ?_
    intro inp x hx
    refine ⟨hx.1, fun hg => ?_⟩
    have := hx.2 hg
    simp only [List.length_nil, Int.Nat.cast_ofNat_Int] at this
    omega
  | cons a rest ih =>
    intro cur hlen h
    have hlen' : 110 * ((rest.length : Int) + 1) + 90 ≤ maxInt64 := by
      simpa [List.length_cons] using hlen
    have hstep := int64_stepRel lib now a cur
    refine ih (int64.Analyze lib now a cur) (by omega) ?_
    refine forall2_comp ?_ h hstep
    intro inp x y hx hxy
    refine ⟨hxy.1.trans hx.1, fun hg => ?_⟩
    have hx2 := hx.2 hg
    simp only [List.length_cons, Nat.cast_add, Nat.cast_one] at hx2
    unfold maxInt64 at hx2 hlen' ⊢
    rcases hxy.2 with h90 | hsame | ⟨d, hd0, hd1, hd⟩
    · rw [h90]; omega
    · rw [hsame]; omega
    · rw [hd, wrapInt64_of_range _ (by unfold minInt64; omega) (by unfold maxInt64; omega)]
      omega

theorem forall2_mem_right {R : Artifact → Artifact → Prop} {l1 l2 : List Artifact}
    (h : List.Forall₂ R l1 l2) : ∀ y ∈ l2, ∃ x ∈ l1, R x y := by
  induction h with
  | nil => intro y hy; cases hy
  | cons hab _ ih =>
    intro y hy
    rcases List.mem_cons.mp hy with e | e
    · exact ⟨_, List.mem_cons_self _ _, e ▸ hab⟩
    · obtain ⟨x, hx, hr⟩ := ih y e
      exact ⟨x, List.mem_cons_of_mem _ hx, hr⟩

theorem int64_applyRules_eq (art : Artifact) (r : Int × List String) (hr : r.1 ≤ 110)
    (h1 : minInt64 ≤ art.RiskScore) (h2 : art.RiskScore + 110 ≤ maxInt64) :
    int64.applyRules art r = applyRules art r := by
  unfold int64.applyRules applyRules
  split
  · rw [wrapInt64_of_range _ (by omega) (by omega)]
  · rfl

theorem int64_analyze_eq_of_range (lib : GoLib) (now : Int) (a : Analyzer)
    (artifacts : List Artifact)
    (h : ∀ x ∈ artifacts, minInt64 ≤ x.RiskScore ∧ x.RiskScore + 110 ≤ maxInt64) :
    int64.Analyze lib now a artifacts = a.Analyze lib now artifacts := by
  by_cases hb : a.isBuiltin = true
  · rw [int64_analyze_eq lib now a hb, builtin_analyze_eq lib now a hb]
    apply List.map_congr_left
    intro art hart
    exact int64_applyRules_eq art _ (rulesOf_bound lib now _ a art).2 (h art hart).1
      (h art hart).2
  · cases a with
    | iocMatcher m => rfl
    | suspiciousProcess => exact absurd rfl hb
    | networkAnomaly => exact absurd rfl hb
    | persistenceAnomaly => exact absurd rfl hb

theorem int64_runAnalyzers_eq (lib : GoLib) (now : Int) (analyzers : List Analyzer) :
    ∀ artifacts : List Artifact, 110 * (analyzers.length : Int) + 90 ≤ maxInt64 →
      (∀ x ∈ artifacts,
        0 ≤ x.RiskScore ∧ x.RiskScore + 110 * (analyzers.length : Int) ≤ maxInt64) →
      int64.runAnalyzers lib now analyzers artifacts = runAnalyzers lib now analyzers artifacts := by
  induction analyzers with
  | nil => intro artifacts _ _; rfl
  | cons a rest ih =>
    intro artifacts hlen h
    have hlen' : 110 * ((rest.length : Int) + 1) + 90 ≤ maxInt64 := by
      simpa [List.length_cons] using hlen
    have h' : ∀ x ∈ artifacts,
        0 ≤ x.RiskScore ∧ x.RiskScore + 110 * ((rest.length : Int) + 1) ≤ maxInt64 := by
      intro x hx
      simpa [List.length_cons] using h x hx
    have hstepeq : int64.Analyze lib now a artifacts = a.Analyze lib now artifacts := by
      refine int64_analyze_eq_of_range lib now a artifacts (fun x hx => ?_)
      have := h' x hx
      unfold minInt64
      constructor <;> omega
    have hrel := int64_stepRel lib now a artifacts
    show int64.runAnalyzers lib now rest (int64.Analyze lib now a artifacts)
      = runAnalyzers lib now rest (a.Analyze lib now artifacts)
    rw [← hstepeq]
    refine ih _ (by omega) (fun y hy => ?_)
    obtain ⟨x, hx, hxy⟩ := forall2_mem_right hrel y hy
    have hx2 := h' x hx
    unfold maxInt64 at hx2 hlen' ⊢
    rcases hxy.2 with h90 | hsame | ⟨d, hd0, hd1, hd⟩
    · rw [h90]; omega
    · rw [hsame]; omega
    · rw [hd, wrapInt64_of_range _ (by unfold minInt64; omega) (by unfold maxInt64; omega)]
      omega

theorem int64_runAll_eq (lib : GoLib) (now : Int) (analyzers : List Analyzer)
    (artifacts : List Artifact) (hlen : 110 * (analyzers.length : Int) + 90 ≤ maxInt64)
    (h : ∀ x ∈ artifacts,
      0 ≤ x.RiskScore ∧ x.RiskScore + 110 * (analyzers.length : Int) ≤ maxInt64) :
    int64.RunAll lib now analyzers artifacts = RunAll lib now analyzers artifacts := by
  unfold int64.RunAll RunAll
  rw [int64_runAnalyzers_eq lib now analyzers artifacts hlen h]

/-! ## Lemmas on sorting a mapped list -/

theorem insertSorted_map {α β : Type} (f : α → β) (less : β → β → Bool) (x : α) (l : List α) :
    insertSorted less (f x) (l.map f)
      = (insertSorted (fun a b => less (f a) (f b)) x l).map f := by
  induction l with
  | nil => rfl
  | cons y ys ih =>
    simp only [List.map_cons, insertSorted]
    split
    · rw [List.map_cons, ih]
    · rfl

theorem sortSlice_map {α β : Type} (f : α → β) (less : β → β → Bool) (l : List α) :
    sortSlice less (l.map f) = (sortSlice (fun a b => less (f a) (f b)) l).map f := by
  induction l with
  | nil => rfl
  | cons x xs ih =>
    simp only [List.map_cons, sortSlice]
    rw [ih, insertSorted_map]

theorem unixMicro_le (s t : Int) (h : UnixMicro s ≤ UnixMicro t) : s < t + 1000 := by
  unfold UnixMicro at h
  omega

/-! ## Claims -/

/-- C1: `SeverityFromScore` returns `critical` exactly for scores of 80 and more, `high`
exactly for 60 to 79, `medium` exactly for 40 to 59, `low` exactly for 20 to 39 and `info`
exactly for scores below 20; 79 gives `high`, 80 gives `critical`, and the result is always
one of the five vocabulary strings. -/
theorem severityFromScore_thresholds (score : Int) :
    (SeverityFromScore score = "critical" ↔ 80 ≤ score) ∧
    (SeverityFromScore score = "high" ↔ 60 ≤ score ∧ score ≤ 79) ∧
    (SeverityFromScore score = "medium" ↔ 40 ≤ score ∧ score ≤ 59) ∧
    (SeverityFromScore score = "low" ↔ 20 ≤ score ∧ score ≤ 39) ∧
    (SeverityFromScore score = "info" ↔ score < 20) ∧
    SeverityFromScore 79 = "high" ∧ SeverityFromScore 80 = "critical" ∧
    SeverityFromScore score ∈ ["critical", "high", "medium", "low", "info"] := by
  refine ⟨?_, ?_, ?_, ?_, ?_, by decide, by decide, ?_⟩ <;>
    unfold SeverityFromScore <;> split_ifs <;> simp <;> omega

/-- Counterexample to C2: on Go's 64-bit `int` a process run from `/tmp` that enters
`RunAll` with severity unset and the largest score leaves it with a negative score, not 0,
and severity still unset. -/
theorem runAll_severity_iff_score_counterexample :
    ¬ ∀ (lib : GoLib) (now : Int) (analyzers : List Analyzer) (artifacts : List Artifact),
      List.Forall₂
        (fun inp out => inp.Severity = "" → 0 ≤ inp.RiskScore → inp.RiskScore ≤ maxInt64 →
          (out.Severity = "" ↔ out.RiskScore = 0) ∧
          (out.RiskScore ≠ 0 → out.Severity = SeverityFromScore out.RiskScore))
        artifacts (int64.RunAll lib now analyzers artifacts) := by
  intro h
  have h1 := (List.forall₂_cons.mp (h sampleLib 0 builtinAnalyzers [sampleMaxScore])).1
    (by decide) (by decide) (by decide)
  exact absurd (h1.1.mp (by decide)) (by decide)

/-- C2, amended: on Go's 64-bit `int`, for every registry of analyzers (in particular the
three built-ins, with or without an IOC matcher appended), an artifact that enters `RunAll`
with severity unset and a non-negative risk score that lies at least 110 for every
registered analyzer below the largest `int`, so that no addition can wrap around, leaves it
with severity unset if and only if its final risk score is 0, and otherwise with the
severity `SeverityFromScore` gives for its final risk score. When every artifact of the list
enters in that range, `RunAll` on 64-bit integers returns what `RunAll` returns with the
addition on the integers. -/
theorem runAll_severity_iff_score (lib : GoLib) (now : Int) (analyzers : List Analyzer)
    (hlen : 110 * (analyzers.length : Int) + 90 ≤ maxInt64) (artifacts : List Artifact) :
    List.Forall₂
      (fun inp out => inp.Severity = "" → 0 ≤ inp.RiskScore →
        inp.RiskScore + 110 * (analyzers.length : Int) ≤ maxInt64 →
        (out.Severity = "" ↔ out.RiskScore = 0) ∧
        (out.RiskScore ≠ 0 → out.Severity = SeverityFromScore out.RiskScore))
      artifacts (int64.RunAll lib now analyzers artifacts) ∧
    ((∀ x ∈ artifacts,
        0 ≤ x.RiskScore ∧ x.RiskScore + 110 * (analyzers.length : Int) ≤ maxInt64) →
      int64.RunAll lib now analyzers artifacts = RunAll lib now analyzers artifacts) := by
  refine ⟨?_, int64_runAll_eq lib now analyzers artifacts hlen⟩
  have hmid := int64_runAnalyzers_bound lib now
    (fun inp => 0 ≤ inp.RiskScore ∧ inp.RiskScore + 110 * (analyzers.length : Int) ≤ maxInt64)
    artifacts analyzers artifacts hlen
    (forall2_refl (fun art => ⟨rfl, fun hg => hg⟩) artifacts)
  unfold int64.RunAll
  rw [List.forall₂_map_right_iff]
  refine hmid.imp ?_
  intro inp mid hm hsev hscore hroom
  have hs : mid.Severity = "" := hm.1.trans hsev
  have hn : 0 ≤ mid.RiskScore := (hm.2 ⟨hscore, hroom⟩).1
  unfold finalizeSeverity
  by_cases hpos : mid.RiskScore > 0
  · have hne : mid.RiskScore ≠ 0 := by omega
    simp [hpos, hs, hne, severityFromScore_ne_empty]
  · have hz : mid.RiskScore = 0 := by omega
    simp [hs, hz]

/-- Witness of C2, amended: a process in `/tmp` enters unscored and unset and leaves with
score 30 and the severity of 30. -/
theorem runAll_severity_iff_score_witness :
    110 * ((builtinAnalyzers.length : Nat) : Int) + 90 ≤ maxInt64 ∧
    (newArtifact "running_process" [("exe", Value.str "/tmp/evil")]).Severity = "" ∧
    0 ≤ (newArtifact "running_process" [("exe", Value.str "/tmp/evil")]).RiskScore ∧
    (int64.RunAll sampleLib 0 builtinAnalyzers
      [newArtifact "running_process" [("exe", Value.str "/tmp/evil")]]).map
        (fun a => (a.RiskScore, a.Severity)) = [(30, "low")] ∧
    List.Forall₂
      (fun inp out => inp.Severity = "" → 0 ≤ inp.RiskScore →
        inp.RiskScore + 110 * ((builtinAnalyzers.length : Nat) : Int) ≤ maxInt64 →
        (out.Severity = "" ↔ out.RiskScore = 0) ∧
        (out.RiskScore ≠ 0 → out.Severity = SeverityFromScore out.RiskScore))
      [newArtifact "running_process" [("exe", Value.str "/tmp/evil")]]
      (int64.RunAll sampleLib 0 builtinAnalyzers
        [newArtifact "running_process" [("exe", Value.str "/tmp/evil")]]) :=
  ⟨by decide, by decide, by decide, by decide,
    (runAll_severity_iff_score sampleLib 0 builtinAnalyzers (by decide) _).1⟩

/-- C3: for a fixed reference time, running the three built-in analyzers in any order (any
permutation of Suspicious Process, Network Anomaly, Persistence Anomaly) keeps the length of
the list and gives the artifact at every index the same final risk score: its input score
plus the amounts the three analyzers add when each is run alone on the original list. -/
theorem builtin_scores_order_independent (lib : GoLib) (now : Int) (artifacts : List Artifact)
    (order : List Analyzer) (h : order.Perm builtinAnalyzers) :
    (runAnalyzers lib now order artifacts).length = artifacts.length ∧
    ∀ i : Nat, (scores (runAnalyzers lib now order artifacts)).getD i 0
      = (scores artifacts).getD i 0
        + addedAlone lib now Analyzer.suspiciousProcess artifacts i
        + addedAlone lib now Analyzer.networkAnomaly artifacts i
        + addedAlone lib now Analyzer.persistenceAnomaly artifacts i := by
  have hb : ∀ a ∈ order, a.isBuiltin = true := by
    intro a ha
    have hmem : a ∈ builtinAnalyzers := h.mem_iff.mp ha
    simp only [builtinAnalyzers, List.mem_cons, List.mem_singleton, List.not_mem_nil,
      or_false] at hmem
    rcases hmem with rfl | rfl | rfl <;> rfl
  have h0 : List.Forall₂ (fun inp out => SameKey inp out ∧ out.RiskScore = inp.RiskScore + 0)
      artifacts artifacts :=
    forall2_refl (fun art => ⟨⟨rfl, rfl⟩, by simp⟩) artifacts
  have h1 := runAnalyzers_scores lib now artifacts order hb (fun _ => 0) artifacts h0
  refine ⟨h1.length_eq.symm, fun i => ?_⟩
  have hsum : ∀ inp : Artifact,
      (0 : Int) + (order.map (fun a => deltaOf lib now (pidConnCount artifacts) a inp)).sum
        = deltaOf lib now (pidConnCount artifacts) Analyzer.suspiciousProcess inp
          + deltaOf lib now (pidConnCount artifacts) Analyzer.networkAnomaly inp
          + deltaOf lib now (pidConnCount artifacts) Analyzer.persistenceAnomaly inp := by
    intro inp
    rw [(h.map _).sum_eq]
    simp [builtinAnalyzers, add_assoc]
  simp only [hsum] at h1
  rw [forall2_scores_getD h1 i, getD_map_add3,
    addedAlone_eq lib now Analyzer.suspiciousProcess rfl,
    addedAlone_eq lib now Analyzer.networkAnomaly rfl,
    addedAlone_eq lib now Analyzer.persistenceAnomaly rfl]
  omega

/-- Witness of C3: on the sample batch, the order persistence, process, network gives the
network artifact (index 1) its input score plus the three separate contributions. -/
theorem builtin_scores_order_independent_witness :
    [Analyzer.persistenceAnomaly, Analyzer.suspiciousProcess, Analyzer.networkAnomaly].Perm
      builtinAnalyzers ∧
    (scores (runAnalyzers sampleLib 0
      [Analyzer.persistenceAnomaly, Analyzer.suspiciousProcess, Analyzer.networkAnomaly]
      sampleBatch)).getD 1 0
      = (scores sampleBatch).getD 1 0
        + addedAlone sampleLib 0 Analyzer.suspiciousProcess sampleBatch 1
        + addedAlone sampleLib 0 Analyzer.networkAnomaly sampleBatch 1
        + addedAlone sampleLib 0 Analyzer.persistenceAnomaly sampleBatch 1 :=
  ⟨by decide, (builtin_scores_order_independent sampleLib 0 sampleBatch _ (by decide)).2 1⟩

/-- C4: after `IOCMatcher.Analyze`, the artifact at each index has risk score exactly 90 when
some string-valued field of its payload contains some stored indicator, whatever its score
was before, and otherwise keeps its risk score, tags and severity; an artifact scored 110
with a matching field is lowered to 90. -/
theorem iocMatcher_overwrites_score (lib : GoLib) (m : IOCMatcher) (artifacts : List Artifact) :
    List.Forall₂
      (fun inp out =>
        (m.hasMatch lib inp → out.RiskScore = 90) ∧
        (¬ m.hasMatch lib inp →
          out.RiskScore = inp.RiskScore ∧ out.Tags = inp.Tags ∧ out.Severity = inp.Severity))
      artifacts (m.Analyze lib artifacts) ∧
    scores [sampleScored] = [110] ∧
    scores (sampleMatcher.Analyze sampleLib [sampleScored]) = [90] := by
  refine ⟨forall2_map_of _ (fun art => ⟨fun h => ?_, fun h => ?_⟩) artifacts, by decide, by decide⟩
  · rw [iocStep_of_match m art ((scan_matched_iff m art).mpr h)]
  · have hf : (m.scan lib art).1 = false := by
      cases hs : (m.scan lib art).1 with
      | true => exact absurd ((scan_matched_iff m art).mp hs) h
      | false => rfl
    rw [iocStep_of_no_match m art hf]
    exact ⟨rfl, rfl, rfl⟩

/-- C5: after `IOCMatcher.Analyze`, a matched artifact whose input tags were duplicate-free
and held no tag beginning with `ioc_match` carries `ioc_match` exactly once, carries
`ioc_match:<kind>:<value>` exactly once for every stored indicator that some string-valued
field contains (however many fields contain it), and carries no `ioc_match:<kind>:<value>`
for any other kind and value. -/
theorem iocMatcher_tags_exactly_once (lib : GoLib) (m : IOCMatcher) (artifacts : List Artifact) :
    List.Forall₂
      (fun inp out =>
        inp.Tags.Nodup → (∀ t ∈ inp.Tags, HasPrefix t "ioc_match" = false) → m.hasMatch lib inp →
          out.Tags.count "ioc_match" = 1 ∧
          ∀ k v, (m.indicatorHit lib inp k v → out.Tags.count (iocTag k v) = 1) ∧
            (¬ m.indicatorHit lib inp k v → iocTag k v ∉ out.Tags))
      artifacts (m.Analyze lib artifacts) := by
  refine forall2_map_of _ (fun art hnd hno hmatch => ?_) artifacts
  rw [iocStep_of_match m art ((scan_matched_iff m art).mpr hmatch)]
  have hout : (appendUnique (appendUnique art.Tags ["ioc_match"]) (m.scan lib art).2).Nodup :=
    appendUnique_nodup _ _ (appendUnique_nodup _ _ hnd)
  refine ⟨List.count_eq_one_of_mem hout ?_, fun k v => ⟨fun hit => ?_, fun hmiss hmem => ?_⟩⟩
  · rw [mem_appendUnique, mem_appendUnique]
    exact Or.inl (Or.inr (List.mem_singleton_self _))
  · refine List.count_eq_one_of_mem hout ?_
    rw [mem_appendUnique]
    exact Or.inr ((mem_scan_tags m art k v).mpr hit)
  · simp only [mem_appendUnique, List.mem_singleton] at hmem
    rcases hmem with (h | h) | h
    · have := hno _ h
      rw [iocTag_hasPrefix] at this
      exact Bool.noConfusion this
    · exact iocTag_ne_base k v h
    · exact hmiss ((mem_scan_tags m art k v).mp h)

/-- Witness of C5: `8.8.8.8` is contained in two fields of the sample artifact, and its
tag and `ioc_match` each occur once after the matcher has run. -/
theorem iocMatcher_tags_exactly_once_witness :
    sampleScored.Tags.Nodup ∧ (∀ t ∈ sampleScored.Tags, HasPrefix t "ioc_match" = false) ∧
    (sampleMatcher.step sampleLib sampleScored).Tags.count "ioc_match" = 1 ∧
    (sampleMatcher.step sampleLib sampleScored).Tags.count (iocTag IOCKind.ip "8.8.8.8") = 1 ∧
    iocTag IOCKind.domain "8.8.8.8" ∉ (sampleMatcher.step sampleLib sampleScored).Tags := by
  have hit : sampleMatcher.indicatorHit sampleLib sampleScored IOCKind.ip "8.8.8.8" :=
    ⟨by decide, ("dest", Value.str "8.8.8.8"), by decide, "8.8.8.8", rfl, by decide⟩
  have hmiss : ¬ sampleMatcher.indicatorHit sampleLib sampleScored IOCKind.domain "8.8.8.8" :=
    fun h => absurd h.1 (by decide)
  have h := (List.forall₂_cons.mp
    (iocMatcher_tags_exactly_once sampleLib sampleMatcher [sampleScored])).1
    (by decide) (by decide) ⟨_, _, hit⟩
  exact ⟨by decide, by decide, h.1, (h.2 _ _).1 hit, (h.2 _ _).2 hmiss⟩

/-- C6: `NewIOCMatcher` treats every scanned line as the classification says: a line that
is blank after trimming or starts with `#` leaves the matcher unchanged, and any other line
is added to exactly one set, chosen by the first test that succeeds on the trimmed line (IP
literal, verbatim; 32 to 128 hexadecimal digits, lower-cased; leading `/`, verbatim;
otherwise domain, lower-cased, whatever the domain pattern says), the three other sets
staying as they were; hence the members of each set of the finished matcher are exactly the
stored forms of the lines classified into that set. -/
theorem newIOCMatcher_classifies_lines (lib : GoLib) :
    (∀ (m : IOCMatcher) (text : String),
      NewIOCMatcher.addLine lib m text
        = match classifyLine lib text with
          | none => m
          | some (k, v) => m.insert k v) ∧
    (∀ (m : IOCMatcher) (k k' : IOCKind) (v : String),
      (m.insert k v).stored k = setInsert (m.stored k) v ∧
      (k' ≠ k → (m.insert k v).stored k' = m.stored k')) ∧
    (∀ (lines : List String) (k : IOCKind) (x : String),
      x ∈ (NewIOCMatcher lib lines).stored k ↔
        ∃ text ∈ lines, classifyLine lib text = some (k, x)) ∧
    (∀ text : String, classifyLine lib text = some (IOCKind.domain, ToLower lib (TrimSpace text)) ↔
      ¬ (TrimSpace text = "" ∨ HasPrefix (TrimSpace text) "#" = true) ∧
      lib.ParseIP (TrimSpace text) = false ∧ hashRegexMatch (TrimSpace text) = false ∧
      HasPrefix (TrimSpace text) "/" = false) := by
  refine ⟨addLine_eq_classify lib, ?_, ?_, ?_⟩
  · intro m k k' v
    constructor
    · cases k <;> rfl
    · intro h
      cases k <;> cases k' <;> first | rfl | exact absurd rfl h
  · intro lines k x
    unfold NewIOCMatcher
    rw [mem_foldl_addLine]
    cases k <;> simp [IOCMatcher.empty, IOCMatcher.stored]
  · intro text
    unfold classifyLine
    by_cases h0 : TrimSpace text = "" ∨ HasPrefix (TrimSpace text) "#" = true
    · simp [h0]
    · by_cases h1 : lib.ParseIP (TrimSpace text) = true
      · simp [h0, h1]
      · by_cases h2 : hashRegexMatch (TrimSpace text) = true
        · simp [h0, h1, h2]
        · by_cases h3 : HasPrefix (TrimSpace text) "/" = true
          · simp [h0, h1, h2, h3]
          · simp [h0, h1, h2, h3]

/-- C7: a stored IP or path indicator `v` matches a field value `s` exactly when `s`
contains `v`, a stored domain or hash indicator exactly when the lower-cased `s` contains
it; for a matcher loaded from one line, a domain or hash indicator matches exactly when the
lower-cased `s` contains the lower-cased trimmed line, so two field values with the same
lower-casing and two such lines with the same lower-casing give the same decision; and a
value that differs from the field text only in letter case is not contained in it. The
lower-casing is that of `strings.ToLower`: rune by rune, `A`..`Z` by arithmetic and every
rune outside ASCII through the case tables of the runtime; when the tables map their
values to themselves, lower-casing a text does not change its lower-casing. -/
theorem indicator_match_case_rules (lib : GoLib) :
    (∀ (m : IOCMatcher) (s : String) (k : IOCKind) (v : String), v ∈ m.stored k →
      (iocTag k v ∈ (m.scanField lib (false, []) s).2 ↔
        (match k with
          | .ip => Contains s v
          | .domain => Contains (ToLower lib s) v
          | .hash => Contains (ToLower lib s) v
          | .path => Contains s v) = true)) ∧
    (∀ (text s : String) (k : IOCKind) (v : String),
      v ∈ (NewIOCMatcher lib [text]).stored k → (k = IOCKind.domain ∨ k = IOCKind.hash) →
      (iocTag k v ∈ ((NewIOCMatcher lib [text]).scanField lib (false, []) s).2 ↔
        Contains (ToLower lib s) (ToLower lib (TrimSpace text)) = true)) ∧
    (∀ (text text' s s' : String) (k k' : IOCKind) (v v' : String),
      v ∈ (NewIOCMatcher lib [text]).stored k → (k = IOCKind.domain ∨ k = IOCKind.hash) →
      v' ∈ (NewIOCMatcher lib [text']).stored k' → (k' = IOCKind.domain ∨ k' = IOCKind.hash) →
      ToLower lib s' = ToLower lib s →
      ToLower lib (TrimSpace text') = ToLower lib (TrimSpace text) →
      (iocTag k v ∈ ((NewIOCMatcher lib [text]).scanField lib (false, []) s).2 ↔
        iocTag k' v' ∈ ((NewIOCMatcher lib [text']).scanField lib (false, []) s').2)) ∧
    (∀ s v : String, v ≠ s → ToLower lib v = ToLower lib s → Contains s v = false) ∧
    (∀ s : String, (ToLower lib s).data = s.data.map (unicodeToLower lib)) ∧
    (∀ c : Char,
      unicodeToLower lib c = if c.toNat ≤ 127 then c.toLower else lib.LowerCase c) ∧
    ((∀ c : Char, 127 < c.toNat → unicodeToLower lib (lib.LowerCase c) = lib.LowerCase c) →
      ∀ s : String, ToLower lib (ToLower lib s) = ToLower lib s) := by
  have hgen : ∀ (m : IOCMatcher) (s : String) (k : IOCKind) (v : String), v ∈ m.stored k →
      (iocTag k v ∈ (m.scanField lib (false, []) s).2 ↔ fieldContains lib k s v = true) := by
    intro m s k v hv
    rw [mem_scanField_iocTag]
    exact ⟨fun h => h.2, fun h => ⟨hv, h⟩⟩
  have hline : ∀ (text s : String) (k : IOCKind) (v : String),
      v ∈ (NewIOCMatcher lib [text]).stored k → (k = IOCKind.domain ∨ k = IOCKind.hash) →
      (iocTag k v ∈ ((NewIOCMatcher lib [text]).scanField lib (false, []) s).2 ↔
        Contains (ToLower lib s) (ToLower lib (TrimSpace text)) = true) := by
    intro text s k v hv hk
    have hc : classifyLine lib text = some (k, v) := by
      have := (newIOCMatcher_membership lib [text] k v).mp hv
      simpa using this
    have hval : v = ToLower lib (TrimSpace text) := by
      unfold classifyLine at hc
      simp only [] at hc
      split_ifs at hc <;> simp at hc <;> rcases hk with rfl | rfl <;> simp_all
    rw [hgen _ s k v hv, hval]
    rcases hk with rfl | rfl <;> rfl
  refine ⟨?_, hline, ?_, ?_, fun _ => rfl, fun _ => rfl, toLower_idem lib⟩
  · intro m s k v hv
    rw [hgen m s k v hv]
    cases k <;> rfl
  · intro text text' s s' k k' v v' hv hk hv' hk' hs ht
    rw [hline text s k v hv hk, hline text' s' k' v' hv' hk', hs, ht]
  · intro s v hne hlow
    cases hc : Contains s v with
    | false => rfl
    | true =>
      exfalso
      have hinf : v.data <:+: s.data := (containsChars_spec _ _).mp hc
      have hlen : v.data.length = s.data.length := by
        rw [← @toLower_length lib v, ← @toLower_length lib s, hlow]
      exact hne (String.ext (hinf.eq_of_length hlen))

/-- Witness of C7: with the sample tables, the line `ÉVIL.com` is stored as the domain
`évil.com` and matches the field value `GET http://éVIL.Com/x`, while the path `/Tmp/x` is
not contained in the field text `/tmp/x`. -/
theorem indicator_match_case_rules_witness :
    sampleDomainStored ∈ (NewIOCMatcher sampleLib [sampleDomainLine]).stored IOCKind.domain ∧
    (iocTag IOCKind.domain sampleDomainStored ∈
        ((NewIOCMatcher sampleLib [sampleDomainLine]).scanField sampleLib (false, [])
          sampleDomainField).2 ↔
      Contains (ToLower sampleLib sampleDomainField)
        (ToLower sampleLib (TrimSpace sampleDomainLine)) = true) ∧
    Contains (ToLower sampleLib sampleDomainField)
      (ToLower sampleLib (TrimSpace sampleDomainLine)) = true ∧
    Contains sampleDomainField sampleDomainStored = false ∧
    "/Tmp/x" ≠ "/tmp/x" ∧ ToLower sampleLib "/Tmp/x" = ToLower sampleLib "/tmp/x" ∧
    Contains "/tmp/x" "/Tmp/x" = false :=
  ⟨by decide,
   (indicator_match_case_rules sampleLib).2.1 _ _ _ _ (by decide) (Or.inl rfl),
   by decide, by decide, by decide, by decide,
   (indicator_match_case_rules sampleLib).2.2.2.1 _ _ (by decide) (by decide)⟩

/-- C8: `appendUnique` of a duplicate-free list and any items is duplicate-free, and every
analyzer (the three built-ins and the IOC matcher) maps an artifact with duplicate-free tags
to an artifact, at the same index, with duplicate-free tags. -/
theorem appendUnique_no_duplicates :
    (∀ existing items : List String, existing.Nodup → (appendUnique existing items).Nodup) ∧
    (∀ (lib : GoLib) (now : Int) (a : Analyzer) (artifacts : List Artifact),
      List.Forall₂ (fun inp out => inp.Tags.Nodup → out.Tags.Nodup)
        artifacts (a.Analyze lib now artifacts)) := by
  refine ⟨fun e t h => appendUnique_nodup e t h, fun lib now a artifacts => ?_⟩
  refine analyzer_step_forall2 lib now ?_ ?_ (fun _ h => h) a artifacts
  · intro art r h
    exact applyRules_tags_nodup art r h
  · intro m art h
    cases hm : (m.scan lib art).1 with
    | true =>
      rw [iocStep_of_match m art hm]
      exact appendUnique_nodup _ _ (appendUnique_nodup _ _ h)
    | false => rw [iocStep_of_no_match m art hm]; exact h

/-- Witness of C8: merging `b, a, b, c` into the duplicate-free `a, b`. -/
theorem appendUnique_no_duplicates_witness :
    ["a", "b"].Nodup ∧ (appendUnique ["a", "b"] ["b", "a", "b", "c"]).Nodup :=
  ⟨by decide, appendUnique_no_duplicates.1 ["a", "b"] ["b", "a", "b", "c"] (by decide)⟩

/-- C9: appending the same items a second time changes nothing:
`appendUnique (appendUnique e t) t = appendUnique e t`. -/
theorem appendUnique_idempotent (e t : List String) :
    appendUnique (appendUnique e t) t = appendUnique e t := by
  simp only [appendUnique_eq_appendFresh]
  exact appendFresh_of_subset _ _ (fun x hx => (mem_appendFresh e t x).mpr (Or.inr hx))

/-- C10: `appendUnique e t` is `e` followed by the items of `t` that are not in `e`, each
kept at its first occurrence only and in order of first occurrence; in particular `e` is a
prefix of the result. -/
theorem appendUnique_eq_append_keepFirst (e t : List String) :
    appendUnique e t = e ++ keepFirst (t.filter (fun x => decide (x ∉ e))) ∧
    e <+: appendUnique e t := by
  have h : appendUnique e t = e ++ keepFirst (t.filter (fun x => decide (x ∉ e))) := by
    rw [appendUnique_eq_appendFresh, appendFresh_eq]
  exact ⟨h, h ▸ List.prefix_append _ _⟩

/-- C11: an artifact whose explicit event time is present resolves to exactly that time, in
the export resolver and in the report resolver alike, whatever its payload and its
collection time are. -/
theorem resolveEventTime_explicit (lib : GoLib) (a : Artifact) (t : Int)
    (h : a.EventTime = some t) :
    output.resolveEventTime lib a = t ∧ report.resolveEventTime lib a = t := by
  unfold output.resolveEventTime report.resolveEventTime
  simp [h]

/-- Witness of C11: the log entry carries an explicit event time and a parseable `mod_time`;
both resolvers return the explicit time. -/
theorem resolveEventTime_explicit_witness :
    sampleLogEntry.EventTime = some 1600000000000000000 ∧
    fieldTime sampleLib output.timeLayouts sampleLogEntry.Data "mod_time"
      = some 1672531200000000000 ∧
    output.resolveEventTime sampleLib sampleLogEntry = 1600000000000000000 ∧
    report.resolveEventTime sampleLib sampleLogEntry = 1600000000000000000 :=
  ⟨rfl, by decide, resolveEventTime_explicit sampleLib sampleLogEntry 1600000000000000000 rfl⟩

/-- C12: for an artifact without explicit event time, the export resolver returns the time
parsed from the first candidate field, in the order `visit_time`, `last_visit_time`,
`mod_time`, `timestamp`, `event_time`, `last_modified`, `modified`, `created`, that holds a
string some layout parses (the first such layout giving the value), every earlier candidate
being absent, not a string or unparseable; and it returns the collection time when every
candidate is passed over. -/
theorem export_resolveEventTime_first_parse (lib : GoLib) (a : Artifact)
    (h : a.EventTime = none) :
    (∀ (pre post lpre lpost : List String) (field layout s : String) (t : Int),
      output.timeFields = pre ++ field :: post →
      (∀ g ∈ pre, output.fieldSkipped lib a g) →
      a.Data.lookup field = some (Value.str s) →
      output.timeLayouts = lpre ++ layout :: lpost →
      (∀ l ∈ lpre, lib.Parse l s = none) →
      lib.Parse layout s = some t →
      output.resolveEventTime lib a = t) ∧
    ((∀ g ∈ output.timeFields, output.fieldSkipped lib a g) →
      output.resolveEventTime lib a = a.Timestamp) ∧
    output.timeFields = ["visit_time", "last_visit_time", "mod_time", "timestamp", "event_time",
      "last_modified", "modified", "created"] := by
  refine ⟨?_, ?_, rfl⟩
  · intro pre post lpre lpost field layout s t hf hpre hv hl hlpre hp
    have hfield : fieldTime lib output.timeLayouts a.Data field = some t := by
      unfold fieldTime
      rw [hv, hl]
      exact parseFirst_eq_some lib lpre lpost layout s t hlpre hp
    unfold output.resolveEventTime
    rw [h, hf, findSome_skip _ pre post field
      (fun g hg => fieldTime_eq_none_of_skipped lib a g (hpre g hg))]
    simp [List.findSome?_cons, hfield]
  · intro hall
    unfold output.resolveEventTime
    rw [h, findSome_all_none _ _
      (fun g hg => fieldTime_eq_none_of_skipped lib a g (hall g hg))]

/-- Witness of C12: the visit's candidate fields before `modified` are absent or hold a
number, so the time parsed from `modified` is returned; the process record has no candidate
field and resolves to its collection time. -/
theorem export_resolveEventTime_first_parse_witness :
    sampleVisit.EventTime = none ∧
    output.resolveEventTime sampleLib sampleVisit = 1672531200000000000 ∧
    sampleProcess.EventTime = none ∧
    output.resolveEventTime sampleLib sampleProcess = sampleProcess.Timestamp := by
  refine ⟨rfl, ?_, rfl, ?_⟩
  · refine (export_resolveEventTime_first_parse sampleLib sampleVisit rfl).1
      ["visit_time", "last_visit_time", "mod_time", "timestamp", "event_time", "last_modified"]
      ["created"] [] _ "modified" RFC3339 "2023-01-01T00:00:00Z" _ rfl ?_ (by decide) rfl
      (fun l hl => absurd hl (List.not_mem_nil l)) (by decide)
    intro g hg s hs
    simp only [List.mem_cons, List.mem_singleton, List.not_mem_nil, or_false] at hg
    rcases hg with rfl | rfl | rfl | rfl | rfl | rfl <;>
      simp [sampleVisit, newArtifact, List.lookup] at hs
  · refine (export_resolveEventTime_first_parse sampleLib sampleProcess rfl).2.1 ?_
    intro g _ s hs
    simp [sampleProcess, newArtifact, List.lookup] at hs

/-- Counterexample to C13: two artifacts without time fields, collected 1999 ns and 1000 ns
after the epoch, in that order; both entries carry the microsecond 1, the exported timeline
keeps them in that order, and no arrangement of the two artifacts by ascending resolved time
gives the exported entries. -/
theorem timeline_resolved_order_counterexample :
    ¬ ∀ (lib : GoLib) (summarize : Option (Artifact → String)) (artifacts : List Artifact),
      ∃ sorted : List Artifact, sorted.Perm artifacts ∧
        GenerateTimeline.entries lib summarize artifacts
          = sorted.map (GenerateTimeline.entryOf lib summarize) ∧
        sorted.Pairwise
          (fun a b => output.resolveEventTime lib a ≤ output.resolveEventTime lib b) := by
  intro h
  obtain ⟨sorted, hperm, hmap, hpair⟩ := h sampleLib none [sampleLate, sampleEarly]
  have he : GenerateTimeline.entries sampleLib none [sampleLate, sampleEarly]
      = [GenerateTimeline.entryOf sampleLib none sampleLate,
         GenerateTimeline.entryOf sampleLib none sampleEarly] := by decide
  rw [he] at hmap
  have hlen := hperm.length_eq
  rcases sorted with _ | ⟨x, _ | ⟨y, _ | ⟨z, rest⟩⟩⟩
  · simp at hlen
  · simp at hlen
  · have hx : x ∈ [sampleLate, sampleEarly] := hperm.subset (List.mem_cons_self _ _)
    have hy : y ∈ [sampleLate, sampleEarly] :=
      hperm.subset (List.mem_cons_of_mem _ (List.mem_cons_self _ _))
    simp only [List.map_cons, List.map_nil, List.cons.injEq, and_true] at hmap
    have tx : sampleLate.ArtifactType = x.ArtifactType :=
      congrArg TimelineEntry.ArtifactType hmap.1
    have ty : sampleEarly.ArtifactType = y.ArtifactType :=
      congrArg TimelineEntry.ArtifactType hmap.2
    simp only [List.mem_cons, List.mem_singleton, List.not_mem_nil, or_false] at hx hy
    have ex : x = sampleLate := by
      rcases hx with e | e
      · exact e
      · rw [e] at tx; exact absurd tx (by decide)
    have ey : y = sampleEarly := by
      rcases hy with e | e
      · rw [e] at ty; exact absurd ty (by decide)
      · exact e
    rw [ex, ey] at hpair
    have := (List.pairwise_cons.mp hpair).1 sampleEarly (List.mem_cons_self _ _)
    exact absurd this (by decide)
  · simp at hlen

/-- C13, amended: the entries `GenerateTimeline` writes are a permutation of one entry per
input artifact and are ordered by their microsecond timestamp, each at most the next: they
are the entries of an arrangement of the artifacts in which the resolved time of an artifact,
truncated to microseconds, is at most that of every later one, so that a resolved time is
less than a microsecond above any later one. The entries of `buildTimeline` are a
permutation of one entry per input artifact ordered by resolved time, its rows are the rows
of an arrangement of the artifacts by ascending resolved time, one per artifact. -/
theorem timeline_sorted_permutation (lib : GoLib) (summarize : Option (Artifact → String))
    (Summarize : Artifact → String) (artifacts : List Artifact) :
    (GenerateTimeline.entries lib summarize artifacts).Perm
      (artifacts.map (GenerateTimeline.entryOf lib summarize)) ∧
    (GenerateTimeline.entries lib summarize artifacts).length = artifacts.length ∧
    (GenerateTimeline.entries lib summarize artifacts).Pairwise
      (fun e f => e.Timestamp ≤ f.Timestamp) ∧
    (GenerateTimeline.entries lib summarize artifacts).Chain'
      (fun e f => e.Timestamp ≤ f.Timestamp) ∧
    (∃ sorted : List Artifact, sorted.Perm artifacts ∧
      GenerateTimeline.entries lib summarize artifacts
        = sorted.map (GenerateTimeline.entryOf lib summarize) ∧
      sorted.Pairwise
        (fun a b => UnixMicro (output.resolveEventTime lib a)
          ≤ UnixMicro (output.resolveEventTime lib b)) ∧
      sorted.Pairwise
        (fun a b => output.resolveEventTime lib a < output.resolveEventTime lib b + 1000)) ∧
    (∀ a : Artifact, (GenerateTimeline.entryOf lib summarize a).Timestamp
      = output.resolveEventTime lib a / 1000) ∧
    (buildTimeline.entries lib Summarize artifacts).Perm
      (artifacts.map (buildTimeline.entryOf lib Summarize)) ∧
    (buildTimeline.entries lib Summarize artifacts).Pairwise (fun e f => e.t ≤ f.t) ∧
    (buildTimeline.entries lib Summarize artifacts).Chain' (fun e f => e.t ≤ f.t) ∧
    (buildTimeline lib Summarize artifacts).Perm
      (artifacts.map (fun a => (buildTimeline.entryOf lib Summarize a).row)) ∧
    (buildTimeline lib Summarize artifacts).length = artifacts.length ∧
    (∃ sorted : List Artifact, sorted.Perm artifacts ∧
      buildTimeline lib Summarize artifacts
        = sorted.map (fun a => (buildTimeline.entryOf lib Summarize a).row) ∧
      sorted.Pairwise
        (fun a b => report.resolveEventTime lib a ≤ report.resolveEventTime lib b)) ∧
    (GenerateTimeline.entries sampleLib none [sampleProcess, sampleVisit]).map
      (fun e => e.ArtifactType) = ["safari_history", "running_process"] ∧
    (GenerateTimeline.entries sampleLib none [sampleLate, sampleEarly]).map
      (fun e => (e.ArtifactType, e.Timestamp)) = [("running_process", 1), ("safari_history", 1)] ∧
    (buildTimeline sampleLib (fun _ => "") [sampleLate, sampleEarly]).map
      (fun r => r.ArtifactType) = ["safari_history", "running_process"] := by
  have hp1 := sortSlice_perm (fun (a b : TimelineEntry) => decide (a.Timestamp < b.Timestamp))
    (artifacts.map (GenerateTimeline.entryOf lib summarize))
  have hs1 := sortSlice_pairwise (fun e : TimelineEntry => e.Timestamp)
    (fun a b => decide (a.Timestamp < b.Timestamp)) (fun a b => by simp)
    (artifacts.map (GenerateTimeline.entryOf lib summarize))
  have hp2 := sortSlice_perm (fun (a b : buildTimeline.entry) => decide (a.t < b.t))
    (artifacts.map (buildTimeline.entryOf lib Summarize))
  have hs2 := sortSlice_pairwise (fun e : buildTimeline.entry => e.t)
    (fun a b => decide (a.t < b.t)) (fun a b => by simp)
    (artifacts.map (buildTimeline.entryOf lib Summarize))
  have hrows : (buildTimeline lib Summarize artifacts).Perm
      (artifacts.map (fun a => (buildTimeline.entryOf lib Summarize a).row)) := by
    have := hp2.map (fun e : buildTimeline.entry => e.row)
    simpa [buildTimeline, buildTimeline.entries, List.map_map, Function.comp] using this
  have hexp : ∃ sorted : List Artifact, sorted.Perm artifacts ∧
      GenerateTimeline.entries lib summarize artifacts
        = sorted.map (GenerateTimeline.entryOf lib summarize) ∧
      sorted.Pairwise
        (fun a b => UnixMicro (output.resolveEventTime lib a)
          ≤ UnixMicro (output.resolveEventTime lib b)) ∧
      sorted.Pairwise
        (fun a b => output.resolveEventTime lib a < output.resolveEventTime lib b + 1000) := by
    have hpw := sortSlice_pairwise (fun a : Artifact => UnixMicro (output.resolveEventTime lib a))
      (fun a b => decide ((GenerateTimeline.entryOf lib summarize a).Timestamp
        < (GenerateTimeline.entryOf lib summarize b).Timestamp))
      (fun a b => by simp [GenerateTimeline.entryOf]) artifacts
    exact ⟨_, sortSlice_perm _ artifacts, sortSlice_map _ _ artifacts, hpw,
      hpw.imp (fun h => unixMicro_le _ _ h)⟩
  have hrep : ∃ sorted : List Artifact, sorted.Perm artifacts ∧
      buildTimeline lib Summarize artifacts
        = sorted.map (fun a => (buildTimeline.entryOf lib Summarize a).row) ∧
      sorted.Pairwise
        (fun a b => report.resolveEventTime lib a ≤ report.resolveEventTime lib b) := by
    have hpw := sortSlice_pairwise (fun a : Artifact => report.resolveEventTime lib a)
      (fun a b => decide ((buildTimeline.entryOf lib Summarize a).t
        < (buildTimeline.entryOf lib Summarize b).t))
      (fun a b => by simp [buildTimeline.entryOf]) artifacts
    refine ⟨_, sortSlice_perm _ artifacts, ?_, hpw⟩
    unfold buildTimeline buildTimeline.entries
    rw [sortSlice_map, List.map_map]
    rfl
  refine ⟨hp1, ?_, hs1, hs1.chain', hexp, fun _ => rfl, hp2, hs2, hs2.chain', hrows, ?_, hrep,
    by decide, by decide, by decide⟩
  · simpa using hp1.length_eq
  · simpa using hrows.length_eq

/-- C14: each of the four analyzers, and `RunAll` over any registry, returns a list of the
same length in which the artifact at each index has the collection time, collector id,
artifact type, hostname, payload, metadata and event time of the input artifact at that
index. -/
theorem analyzers_preserve_frame (lib : GoLib) (now : Int) (artifacts : List Artifact) :
    (∀ a : Analyzer,
      List.Forall₂ SameFrame artifacts (a.Analyze lib now artifacts) ∧
      (a.Analyze lib now artifacts).length = artifacts.length) ∧
    (∀ analyzers : List Analyzer,
      List.Forall₂ SameFrame artifacts (RunAll lib now analyzers artifacts) ∧
      (RunAll lib now analyzers artifacts).length = artifacts.length) ∧
    (∀ inp out : Artifact, SameFrame inp out ↔
      out.Timestamp = inp.Timestamp ∧ out.CollectorID = inp.CollectorID ∧
      out.ArtifactType = inp.ArtifactType ∧ out.Hostname = inp.Hostname ∧
      out.Data = inp.Data ∧ out.Metadata = inp.Metadata ∧ out.EventTime = inp.EventTime) := by
  have hrules : ∀ (art : Artifact) (r : Int × List String), SameFrame art (applyRules art r) := by
    intro art r
    unfold applyRules SameFrame
    split <;> exact ⟨rfl, rfl, rfl, rfl, rfl, rfl, rfl⟩
  have hioc : ∀ (m : IOCMatcher) (art : Artifact), SameFrame art (m.step lib art) := by
    intro m art
    cases hm : (m.scan lib art).1 with
    | true => rw [iocStep_of_match m art hm]; exact ⟨rfl, rfl, rfl, rfl, rfl, rfl, rfl⟩
    | false => rw [iocStep_of_no_match m art hm]; exact ⟨rfl, rfl, rfl, rfl, rfl, rfl, rfl⟩
  have hrefl : ∀ art : Artifact, SameFrame art art := fun _ => ⟨rfl, rfl, rfl, rfl, rfl, rfl, rfl⟩
  have htrans : ∀ a b c : Artifact, SameFrame a b → SameFrame b c → SameFrame a c := by
    intro a b c hab hbc
    obtain ⟨h1, h2, h3, h4, h5, h6, h7⟩ := hab
    obtain ⟨g1, g2, g3, g4, g5, g6, g7⟩ := hbc
    exact ⟨g1.trans h1, g2.trans h2, g3.trans h3, g4.trans h4, g5.trans h5, g6.trans h6,
      g7.trans h7⟩
  refine ⟨fun a => ?_, fun analyzers => ?_, fun _ _ => Iff.rfl⟩
  · have h := analyzer_step_forall2 lib now hrules hioc hrefl a artifacts
    exact ⟨h, h.length_eq.symm⟩
  · have hmid := runAnalyzers_forall2 lib now hrules hioc hrefl htrans analyzers artifacts
    have h : List.Forall₂ SameFrame artifacts (RunAll lib now analyzers artifacts) := by
      rw [runAll_eq_map, List.forall₂_map_right_iff]
      refine hmid.imp ?_
      intro inp mid hm
      refine htrans inp mid _ hm ?_
      unfold finalizeSeverity SameFrame
      split <;> exact ⟨rfl, rfl, rfl, rfl, rfl, rfl, rfl⟩
    exact ⟨h, h.length_eq.symm⟩

/-- Counterexample to C15: on Go's 64-bit `int` a process run from `/tmp` that enters with
the largest score leaves the Suspicious Process analyzer with a smaller, negative score. -/
theorem builtin_scores_monotone_counterexample :
    ¬ ∀ (lib : GoLib) (now : Int) (artifacts : List Artifact),
      List.Forall₂
        (fun inp out => minInt64 ≤ inp.RiskScore → inp.RiskScore ≤ maxInt64 →
          inp.RiskScore ≤ out.RiskScore)
        artifacts (int64.Analyze lib now Analyzer.suspiciousProcess artifacts) := by
  intro h
  have h1 := (List.forall₂_cons.mp (h sampleLib 0 [sampleMaxScore])).1 (by decide) (by decide)
  exact absurd h1 (by decide)

/-- C15, amended: on Go's 64-bit `int`, each of the three built-in analyzers leaves the
severity alone and replaces the score `s` of an artifact by `s + d` wrapped into the 64-bit
range, where `d`, between 0 and 110, is the score its rules give the artifact; so the score
after is at least the score before exactly when `s + d` does not exceed the largest `int`,
and falls by `2^64 - d` otherwise. Through the built-in pipeline an artifact that enters at
most 330 below the largest `int` does not lose score, and a non-negative score stays
non-negative. -/
theorem builtin_scores_monotone (lib : GoLib) (now : Int) (artifacts : List Artifact) :
    (∀ a : Analyzer, a.isBuiltin = true →
      List.Forall₂
        (fun inp out =>
          minInt64 ≤ inp.RiskScore → inp.RiskScore ≤ maxInt64 →
            0 ≤ deltaOf lib now (pidConnCount artifacts) a inp ∧
            deltaOf lib now (pidConnCount artifacts) a inp ≤ 110 ∧
            out.RiskScore
              = wrapInt64 (inp.RiskScore + deltaOf lib now (pidConnCount artifacts) a inp) ∧
            (inp.RiskScore + deltaOf lib now (pidConnCount artifacts) a inp ≤ maxInt64 →
              out.RiskScore = inp.RiskScore + deltaOf lib now (pidConnCount artifacts) a inp ∧
              inp.RiskScore ≤ out.RiskScore) ∧
            (maxInt64 < inp.RiskScore + deltaOf lib now (pidConnCount artifacts) a inp →
              out.RiskScore < inp.RiskScore))
        artifacts (int64.Analyze lib now a artifacts)) ∧
    List.Forall₂
      (fun inp out => minInt64 ≤ inp.RiskScore → inp.RiskScore ≤ maxInt64 - 330 →
        inp.RiskScore ≤ out.RiskScore ∧ (0 ≤ inp.RiskScore → 0 ≤ out.RiskScore))
      artifacts (int64.runAnalyzers lib now builtinAnalyzers artifacts) ∧
    (int64.Analyze sampleLib 0 Analyzer.suspiciousProcess [sampleMaxScore]).map
        (fun a => a.RiskScore) = [minInt64 + 29] := by
  have hone : ∀ (a : Analyzer) (arts : List Artifact), a.isBuiltin = true →
      List.Forall₂
        (fun inp out =>
          minInt64 ≤ inp.RiskScore → inp.RiskScore ≤ maxInt64 →
            0 ≤ deltaOf lib now (pidConnCount arts) a inp ∧
            deltaOf lib now (pidConnCount arts) a inp ≤ 110 ∧
            out.RiskScore
              = wrapInt64 (inp.RiskScore + deltaOf lib now (pidConnCount arts) a inp) ∧
            (inp.RiskScore + deltaOf lib now (pidConnCount arts) a inp ≤ maxInt64 →
              out.RiskScore = inp.RiskScore + deltaOf lib now (pidConnCount arts) a inp ∧
              inp.RiskScore ≤ out.RiskScore) ∧
            (maxInt64 < inp.RiskScore + deltaOf lib now (pidConnCount arts) a inp →
              out.RiskScore < inp.RiskScore))
        arts (int64.Analyze lib now a arts) := by
    intro a arts ha
    refine (int64_builtin_score lib now a ha arts).imp ?_
    intro inp out h h1 h2
    have hd := deltaOf_bound lib now (pidConnCount arts) a inp
    have hs := h.2.1 h1 h2
    refine ⟨hd.1, hd.2, hs, fun hle => ?_, fun hgt => ?_⟩
    · rw [hs, wrapInt64_of_range _ (by omega) hle]
      exact ⟨rfl, by omega⟩
    · rw [hs, wrapInt64_overflow _ hgt (by omega)]
      omega
  have hstep : ∀ (a : Analyzer) (arts : List Artifact), a.isBuiltin = true →
      List.Forall₂
        (fun inp out => minInt64 ≤ inp.RiskScore → inp.RiskScore ≤ maxInt64 - 110 →
          inp.RiskScore ≤ out.RiskScore ∧ out.RiskScore ≤ inp.RiskScore + 110)
        arts (int64.Analyze lib now a arts) := by
    intro a arts ha
    refine (hone a arts ha).imp ?_
    intro inp out h h1 h2
    have h' := h h1 (by omega)
    have h4 := h'.2.2.2.1 (by omega)
    omega
  refine ⟨fun a ha => hone a artifacts ha, ?_, by decide⟩
  have h1 := hstep Analyzer.suspiciousProcess artifacts rfl
  have h2 := hstep Analyzer.networkAnomaly
    (int64.Analyze lib now Analyzer.suspiciousProcess artifacts) rfl
  have h3 := hstep Analyzer.persistenceAnomaly
    (int64.Analyze lib now Analyzer.networkAnomaly
      (int64.Analyze lib now Analyzer.suspiciousProcess artifacts)) rfl
  have h12 : List.Forall₂
      (fun inp out => minInt64 ≤ inp.RiskScore → inp.RiskScore ≤ maxInt64 - 330 →
        inp.RiskScore ≤ out.RiskScore ∧ out.RiskScore ≤ inp.RiskScore + 220)
      artifacts
      (int64.Analyze lib now Analyzer.networkAnomaly
        (int64.Analyze lib now Analyzer.suspiciousProcess artifacts)) := by
    refine forall2_comp ?_ h1 h2
    intro a b c hab hbc ha1 ha2
    have e1 := hab ha1 (by omega)
    have e2 := hbc (by omega) (by omega)
    omega
  have h123 : List.Forall₂
      (fun inp out => minInt64 ≤ inp.RiskScore → inp.RiskScore ≤ maxInt64 - 330 →
        inp.RiskScore ≤ out.RiskScore ∧ (0 ≤ inp.RiskScore → 0 ≤ out.RiskScore))
      artifacts
      (int64.Analyze lib now Analyzer.persistenceAnomaly
        (int64.Analyze lib now Analyzer.networkAnomaly
          (int64.Analyze lib now Analyzer.suspiciousProcess artifacts))) := by
    refine forall2_comp ?_ h12 h3
    intro a b c hab hbc ha1 ha2
    have e1 := hab ha1 ha2
    have e2 := hbc (by omega) (by omega)
    exact ⟨by omega, fun _ => by omega⟩
  exact h123

/-- Witness of C15, amended: the scenario process enters with score 0, far from the limit;
the rules of the Suspicious Process analyzer give it 75, and its score rises to 75. -/
theorem builtin_scores_monotone_witness :
    Analyzer.suspiciousProcess.isBuiltin = true ∧
    minInt64 ≤ sampleEvilProcess.RiskScore ∧ sampleEvilProcess.RiskScore ≤ maxInt64 ∧
    deltaOf sampleLib 0 (pidConnCount [sampleEvilProcess]) Analyzer.suspiciousProcess
      sampleEvilProcess = 75 ∧
    (int64.SuspiciousProcessAnalyzer.step sampleLib sampleEvilProcess).RiskScore
      = wrapInt64 (sampleEvilProcess.RiskScore
          + deltaOf sampleLib 0 (pidConnCount [sampleEvilProcess]) Analyzer.suspiciousProcess
              sampleEvilProcess) ∧
    (int64.Analyze sampleLib 0 Analyzer.suspiciousProcess [sampleEvilProcess]).map
        (fun a => a.RiskScore) = [75] := by
  have h := (List.forall₂_cons.mp
    ((builtin_scores_monotone sampleLib 0 [sampleEvilProcess]).1
      Analyzer.suspiciousProcess rfl)).1 (by decide) (by decide)
  exact ⟨rfl, by decide, by decide, by decide, h.2.2.1, by decide⟩

/-- C16: through `RunAll` over any registry, an artifact that enters with a non-empty
severity leaves with the same severity, and an artifact whose severity changed entered with
severity unset, has a final risk score above 0 and carries the severity of that score. -/
theorem runAll_severity_written_once (lib : GoLib) (now : Int) (analyzers : List Analyzer)
    (artifacts : List Artifact) :
    List.Forall₂
      (fun inp out =>
        (inp.Severity ≠ "" → out.Severity = inp.Severity) ∧
        (out.Severity ≠ inp.Severity →
          inp.Severity = "" ∧ 0 < out.RiskScore ∧
          out.Severity = SeverityFromScore out.RiskScore))
      artifacts (RunAll lib now analyzers artifacts) := by
  have hmid : List.Forall₂ (fun inp out => out.Severity = inp.Severity)
      artifacts (runAnalyzers lib now analyzers artifacts) := by
    refine @runAnalyzers_forall2 (fun inp out => out.Severity = inp.Severity) lib now
      ?_ ?_ (fun _ => rfl) ?_ analyzers artifacts
    · intro art r
      unfold applyRules
      split <;> rfl
    · intro m art
      cases hm : (m.scan lib art).1 with
      | true => rw [iocStep_of_match m art hm]
      | false => rw [iocStep_of_no_match m art hm]
    · intro a b c hab hbc
      exact hbc.trans hab
  rw [runAll_eq_map, List.forall₂_map_right_iff]
  refine hmid.imp ?_
  intro inp mid hm
  unfold finalizeSeverity
  by_cases hcond : (decide (mid.RiskScore > 0) && mid.Severity == "") = true
  · rw [if_pos hcond]
    simp only [Bool.and_eq_true, decide_eq_true_eq, beq_iff_eq] at hcond
    have hin : inp.Severity = "" := hm ▸ hcond.2
    exact ⟨fun hne => absurd hin hne, fun _ => ⟨hin, hcond.1, rfl⟩⟩
  · rw [if_neg hcond]
    exact ⟨fun _ => hm, fun hne => absurd hm hne⟩

/-- Witness of C16: an artifact that enters with severity `low` and collects 30 points
leaves `RunAll` with severity `low`. -/
theorem runAll_severity_written_once_witness :
    (RunAll sampleLib 0 builtinAnalyzers
      [{ newArtifact "running_process" [("exe", Value.str "/tmp/evil")] with
         Severity := "low" }]).map (fun a => (a.RiskScore, a.Severity)) = [(30, "low")] ∧
    List.Forall₂
      (fun inp out =>
        (inp.Severity ≠ "" → out.Severity = inp.Severity) ∧
        (out.Severity ≠ inp.Severity →
          inp.Severity = "" ∧ 0 < out.RiskScore ∧
          out.Severity = SeverityFromScore out.RiskScore))
      [{ newArtifact "running_process" [("exe", Value.str "/tmp/evil")] with
         Severity := "low" }]
      (RunAll sampleLib 0 builtinAnalyzers
        [{ newArtifact "running_process" [("exe", Value.str "/tmp/evil")] with
           Severity := "low" }]) :=
  ⟨by decide, runAll_severity_written_once sampleLib 0 builtinAnalyzers _⟩

/-- C17: the Suspicious Process analyzer leaves every artifact that is not a
`running_process` unchanged; to a `running_process` artifact it adds 30 when `exe` starts
with `/tmp/`, `/var/tmp/`, `/private/tmp/` or `/private/var/tmp/`, 20 when the lower-cased
last path segment of `name` is in the suspicious-tool list, 15 when `exe` is empty and
`name` is not, 25 when `username` is `root` and `cwd` or `exe` starts with `/Users/`, and
20 when the last path segment of `name` starts with a dot, and it merges the tags
`exe_in_tmp`, `suspicious_name:<basename>`, `no_exe_path`, `root_in_user_dir`,
`hidden_process` of exactly the rules that fired into its tags in that order (appended
after the existing tags when none of them is present yet). The last path segment of a name
without `/` is the name, and that of `dir/seg` with no `/` in `seg` is `seg`; the
lower-casing is that of `strings.ToLower`, and the tag carries the segment as it is
written. The scenario process gets score 75, its three tags and severity `high` from
`RunAll`; a process named `/usr/local/bin/NC` gets the tag `suspicious_name:NC`, and with
the sample tables a name ending in `snowflaKe-client` written with the Kelvin sign fires
the tool rule. -/
theorem suspiciousProcess_rules (lib : GoLib) (artifacts : List Artifact) :
    List.Forall₂
      (fun inp out =>
        (inp.ArtifactType = "running_process" →
          out.RiskScore = inp.RiskScore + processSpecScore lib inp ∧
          out.Tags = appendUnique inp.Tags (processSpecTags lib inp) ∧
          ((∀ t ∈ processSpecTags lib inp, t ∉ inp.Tags) →
            out.Tags = inp.Tags ++ processSpecTags lib inp)) ∧
        (inp.ArtifactType ≠ "running_process" → out = inp))
      artifacts (SuspiciousProcessAnalyzer.Analyze lib artifacts) ∧
    (∀ art : Artifact, processSuspiciousName lib art = true ↔
      ToLower lib (baseNameOf (getString art.Data "name")) ∈ suspiciousNames) ∧
    (∀ art : Artifact, processHidden art = true ↔
      ∃ rest, (baseNameOf (getString art.Data "name")).data = '.' :: rest) ∧
    (∀ name : String, '/' ∉ name.data → baseNameOf name = name) ∧
    (∀ dir seg : String, '/' ∉ seg.data → baseNameOf (dir ++ "/" ++ seg) = seg) ∧
    (∀ s : String, (ToLower lib s).data = s.data.map (unicodeToLower lib)) ∧
    (∀ c : Char,
      unicodeToLower lib c = if c.toNat ≤ 127 then c.toLower else lib.LowerCase c) ∧
    suspiciousNames = ["nc", "ncat", "socat", "base64", "osascript", "nmap", "tcpdump",
      "python", "perl", "ruby", "tor", "obfs4proxy", "snowflake-client"] ∧
    (RunAll sampleLib 0 builtinAnalyzers [sampleEvilProcess]).map
        (fun a => (a.RiskScore, a.Tags, a.Severity))
      = [(75, ["exe_in_tmp", "suspicious_name:nc", "root_in_user_dir"], "high")] ∧
    (SuspiciousProcessAnalyzer.Analyze sampleLib [samplePathProcess]).map
        (fun a => (a.RiskScore, a.Tags)) = [(20, ["suspicious_name:NC"])] ∧
    (SuspiciousProcessAnalyzer.Analyze sampleLib [sampleKelvinProcess]).map
        (fun a => (a.RiskScore, a.Tags))
      = [(20, ["suspicious_name:snowfla" ++ String.singleton (Char.ofNat 0x212A)
            ++ "e-client"])] := by
  have hsusp : ∀ art : Artifact, processSuspiciousName lib art = true ↔
      ToLower lib (baseNameOf (getString art.Data "name")) ∈ suspiciousNames := by
    intro art
    simp [processSuspiciousName]
  have hhid : ∀ art : Artifact, processHidden art = true ↔
      ∃ rest, (baseNameOf (getString art.Data "name")).data = '.' :: rest := by
    intro art
    refine ⟨fun h => hasPrefix_dot _ h, fun h => ?_⟩
    obtain ⟨rest, hr⟩ := h
    have hdot : ".".data = ['.'] := rfl
    unfold processHidden HasPrefix
    rw [hr, hdot]
    simp [List.isPrefixOf]
  refine ⟨forall2_map_of _ (fun art => ⟨fun ht => ?_, fun ht => ?_⟩) artifacts,
    hsusp, hhid, baseNameOf_plain, baseNameOf_path, fun _ => rfl, fun _ => rfl, rfl,
    by decide, by decide, by decide⟩
  · have hstep : SuspiciousProcessAnalyzer.step lib art
        = applyRules art (processSpecScore lib art, processSpecTags lib art) := by
      unfold SuspiciousProcessAnalyzer.step
      simp [ht, processRules_eq]
    have hnn := @processSpecScore_nonneg lib art
    have htags : (SuspiciousProcessAnalyzer.step lib art).Tags
        = appendUnique art.Tags (processSpecTags lib art) := by
      rw [hstep, applyRules_tags]
      by_cases hpos : processSpecScore lib art > 0
      · simp [hpos]
      · simp only [hpos, if_false]
        rw [processSpecTags_nil_of_zero art hpos, appendUnique_nil]
    refine ⟨?_, htags, fun hfresh => ?_⟩
    · rw [hstep, applyRules_score]
      simp only
      split <;> omega
    · rw [htags]
      exact appendUnique_of_fresh _ _ (@processSpecTags_nodup lib art) hfresh
  · unfold SuspiciousProcessAnalyzer.step
    simp [ht]

/-- Witness of C17: on the scenario process the rules for the temporary directory, the tool
name and root in a home directory fire, giving 30 + 20 + 25 and their three tags. -/
theorem suspiciousProcess_rules_witness :
    sampleEvilProcess.ArtifactType = "running_process" ∧
    processSpecScore sampleLib sampleEvilProcess = 75 ∧
    (SuspiciousProcessAnalyzer.step sampleLib sampleEvilProcess).RiskScore
      = sampleEvilProcess.RiskScore + processSpecScore sampleLib sampleEvilProcess ∧
    (SuspiciousProcessAnalyzer.step sampleLib sampleEvilProcess).Tags
      = sampleEvilProcess.Tags ++ ["exe_in_tmp", "suspicious_name:nc", "root_in_user_dir"] ∧
    baseNameOf ("/usr/local/bin" ++ "/" ++ "NC") = "NC" := by
  have h := ((List.forall₂_cons.mp
    (suspiciousProcess_rules sampleLib [sampleEvilProcess]).1).1).1 rfl
  exact ⟨rfl, by decide, h.1, h.2.2 (by decide),
    (suspiciousProcess_rules sampleLib []).2.2.2.2.1 _ _ (by decide)⟩

/-- C18: the Network Anomaly analyzer leaves every artifact that is neither a
`network_connection` nor an `open_network_file` unchanged; to a network artifact it adds 30
when the resolved remote port is in the C2 set and the address is external, 20 when it is in
the IRC set and the address is external, 20 when the remote or the local port is in the Tor
set, and 10 when the artifact has a pid for which the batch counts more than 50
connections, where external means that `remote_addr` is non-empty, does not start with
`127.` or `::1` and is neither `0.0.0.0` nor `*`; the tag `c2_port:<port>` is among the
tags merged in exactly when the C2 rule fired. The scenario connection gets score 30 and
the single tag `c2_port:4444`. -/
theorem networkAnomaly_rules (artifacts : List Artifact) :
    List.Forall₂
      (fun inp out =>
        ((inp.ArtifactType = "network_connection" ∨ inp.ArtifactType = "open_network_file") →
          out.RiskScore = inp.RiskScore + networkSpecScore (pidConnCount artifacts) inp ∧
          out.Tags = appendUnique inp.Tags (networkSpecTags (pidConnCount artifacts) inp) ∧
          ("c2_port:" ++ formatInt (resolveRemotePort inp.Data)
              ∈ networkSpecTags (pidConnCount artifacts) inp ↔ networkC2 inp = true) ∧
          ("c2_port:" ++ formatInt (resolveRemotePort inp.Data) ∉ inp.Tags →
            ("c2_port:" ++ formatInt (resolveRemotePort inp.Data) ∈ out.Tags ↔
              networkC2 inp = true))) ∧
        (¬ (inp.ArtifactType = "network_connection" ∨ inp.ArtifactType = "open_network_file") →
          out = inp))
      artifacts (NetworkAnomalyAnalyzer.Analyze artifacts) ∧
    (∀ art : Artifact, networkExternal art = true ↔
      getString art.Data "remote_addr" ≠ "" ∧
      HasPrefix (getString art.Data "remote_addr") "127." = false ∧
      HasPrefix (getString art.Data "remote_addr") "::1" = false ∧
      getString art.Data "remote_addr" ≠ "0.0.0.0" ∧ getString art.Data "remote_addr" ≠ "*") ∧
    c2Ports = [4444, 5555, 1337, 31337, 8443, 9999, 1234] ∧
    ircPorts = [6667, 6668, 6669, 6697] ∧ torPorts = [9050, 9150] ∧
    (NetworkAnomalyAnalyzer.Analyze [sampleConnection]).map (fun a => (a.RiskScore, a.Tags))
      = [(30, ["c2_port:4444"])] := by
  refine ⟨forall2_map_of _ (fun art => ⟨fun ht => ?_, fun ht => ?_⟩) artifacts,
    fun art => by simp [networkExternal, and_assoc], rfl, rfl, rfl, by decide⟩
  · have hstep : NetworkAnomalyAnalyzer.step (pidConnCount artifacts) art
        = applyRules art (networkSpecScore (pidConnCount artifacts) art,
            networkSpecTags (pidConnCount artifacts) art) := by
      unfold NetworkAnomalyAnalyzer.step
      rcases ht with ht | ht <;> simp [ht, networkRules_eq]
    have hnn := networkSpecScore_nonneg (pidConnCount artifacts) art
    have htags : (NetworkAnomalyAnalyzer.step (pidConnCount artifacts) art).Tags
        = appendUnique art.Tags (networkSpecTags (pidConnCount artifacts) art) := by
      rw [hstep, applyRules_tags]
      by_cases hpos : networkSpecScore (pidConnCount artifacts) art > 0
      · simp [hpos]
      · simp only [hpos, if_false]
        rw [networkSpecTags_nil_of_zero _ art hpos, appendUnique_nil]
    refine ⟨?_, htags, mem_networkSpecTags_c2 _ art, fun hfresh => ?_⟩
    · rw [hstep, applyRules_score]
      simp only
      split <;> omega
    · rw [htags, mem_appendUnique, mem_networkSpecTags_c2]
      exact ⟨fun h => h.resolve_left hfresh, Or.inr⟩
  · unfold NetworkAnomalyAnalyzer.step
    have h1 : art.ArtifactType ≠ "network_connection" := fun h => ht (Or.inl h)
    have h2 : art.ArtifactType ≠ "open_network_file" := fun h => ht (Or.inr h)
    simp [h1, h2]

/-- Witness of C18: the scenario connection is alone in its batch; its C2 rule fires and
nothing else does. -/
theorem networkAnomaly_rules_witness :
    (sampleConnection.ArtifactType = "network_connection" ∨
      sampleConnection.ArtifactType = "open_network_file") ∧
    networkSpecScore (pidConnCount [sampleConnection]) sampleConnection = 30 ∧
    networkHighCount (pidConnCount [sampleConnection]) sampleConnection = false ∧
    (NetworkAnomalyAnalyzer.step (pidConnCount [sampleConnection]) sampleConnection).RiskScore
      = sampleConnection.RiskScore
        + networkSpecScore (pidConnCount [sampleConnection]) sampleConnection ∧
    ("c2_port:" ++ formatInt (resolveRemotePort sampleConnection.Data)
      ∈ (NetworkAnomalyAnalyzer.step (pidConnCount [sampleConnection]) sampleConnection).Tags ↔
        networkC2 sampleConnection = true) := by
  have h := ((List.forall₂_cons.mp (networkAnomaly_rules [sampleConnection]).1).1).1
    (Or.inl rfl)
  exact ⟨Or.inl rfl, by decide, by decide, h.1, h.2.2.2 (by decide)⟩

/-- C19: for a launch agent or daemon the `recently_modified` rule (+20) fires exactly when
`mod_time` is non-empty, parses as RFC3339 and is later than `now` minus 24 hours; there is
no upper bound, so on the sample agent, whose `mod_time` lies one hour after `now`, the code
adds 20 and the tag `recently_modified`, where the claim, like the comment in the code
(modified in the last 24 hours), excludes a `mod_time` after `now`. The scenario agent,
modified one hour before `now` with its plist in `/tmp`, gets score 55, both tags and
severity `medium`. -/
theorem launchAgent_recent_fires_on_future_mod_time :
    (∀ (lib : GoLib) (now : Int) (art : Artifact),
      PersistenceAnomalyAnalyzer.analyzeLaunchAgent lib art now
        = (launchAgentSpecScore lib now art, launchAgentSpecTags lib now art)) ∧
    (∀ (lib : GoLib) (now : Int) (art : Artifact),
      launchAgentRecent lib now art = true ↔
        getString art.Data "mod_time" ≠ "" ∧
        ∃ m, lib.Parse RFC3339 (getString art.Data "mod_time") = some m ∧
          now - 24 * Hour < m) ∧
    sampleLib.Parse RFC3339 (getString sampleFutureAgent.Data "mod_time") = some sampleModTime ∧
    ¬ (sampleModTime ≤ sampleModTime - Hour) ∧
    (PersistenceAnomalyAnalyzer.Analyze sampleLib (sampleModTime - Hour) [sampleFutureAgent]).map
        (fun a => (a.RiskScore, a.Tags)) = [(20, ["recently_modified"])] ∧
    (RunAll sampleLib (sampleModTime + Hour) builtinAnalyzers [sampleAgent]).map
        (fun a => (a.RiskScore, a.Tags, a.Severity))
      = [(55, ["recently_modified", "plist_in_tmp"], "medium")] :=
  ⟨launchAgentRules_eq, launchAgentRecent_iff, by decide, by decide, by decide, by decide⟩

/-- Counterexample to C20: a system launch daemon with an empty payload does not keep its
score and tags through the three built-in analyzers. -/
theorem builtin_on_empty_payload_counterexample :
    ¬ ∀ (lib : GoLib) (now : Int) (artifacts : List Artifact),
      List.Forall₂
        (fun inp out => inp.Data = [] →
          out.RiskScore = inp.RiskScore ∧ out.Tags = inp.Tags)
        artifacts (runAnalyzers lib now builtinAnalyzers artifacts) := by
  intro h
  have h1 := (List.forall₂_cons.mp (h sampleLib 0 [sampleBareDaemon])).1 rfl
  exact absurd h1.1 (by decide)

/-- C20, amended: through the three built-in analyzers an artifact whose payload is empty
keeps its risk score and tags, unless its type is `system_launch_agent` or
`system_launch_daemon`: then the missing name lacks the `com.apple.` prefix, and it gains
10 points and the tag `non_apple_system_plist`. -/
theorem builtin_on_empty_payload (lib : GoLib) (now : Int) (artifacts : List Artifact) :
    List.Forall₂
      (fun inp out => inp.Data = [] →
        ((inp.ArtifactType = "system_launch_agent" ∨
            inp.ArtifactType = "system_launch_daemon") →
          out.RiskScore = inp.RiskScore + 10 ∧
          out.Tags = appendUnique inp.Tags ["non_apple_system_plist"]) ∧
        (¬ (inp.ArtifactType = "system_launch_agent" ∨
            inp.ArtifactType = "system_launch_daemon") →
          out.RiskScore = inp.RiskScore ∧ out.Tags = inp.Tags))
      artifacts (runAnalyzers lib now builtinAnalyzers artifacts) := by
  have h1 : List.Forall₂ (fun inp out => inp.Data = [] → out = inp)
      artifacts (SuspiciousProcessAnalyzer.Analyze lib artifacts) :=
    forall2_map_of _ (fun art h => processStep_empty art h) artifacts
  have h2 : List.Forall₂ (fun inp out => inp.Data = [] → out = inp)
      (SuspiciousProcessAnalyzer.Analyze lib artifacts)
      (NetworkAnomalyAnalyzer.Analyze (SuspiciousProcessAnalyzer.Analyze lib artifacts)) :=
    forall2_map_of _ (fun art h => networkStep_empty _ art h) _
  have h12 : List.Forall₂ (fun inp out => inp.Data = [] → out = inp)
      artifacts (NetworkAnomalyAnalyzer.Analyze (SuspiciousProcessAnalyzer.Analyze lib artifacts)) :=
    forall2_comp (fun a b c hab hbc ha => by
      have hb : b = a := hab ha
      have hc : c = b := hbc (hb ▸ ha)
      exact hc.trans hb) h1 h2
  have h3 : List.Forall₂
      (fun inp out => inp.Data = [] →
        ((inp.ArtifactType = "system_launch_agent" ∨
            inp.ArtifactType = "system_launch_daemon") →
          out.RiskScore = inp.RiskScore + 10 ∧
          out.Tags = appendUnique inp.Tags ["non_apple_system_plist"]) ∧
        (¬ (inp.ArtifactType = "system_launch_agent" ∨
            inp.ArtifactType = "system_launch_daemon") →
          out.RiskScore = inp.RiskScore ∧ out.Tags = inp.Tags))
      (NetworkAnomalyAnalyzer.Analyze (SuspiciousProcessAnalyzer.Analyze lib artifacts))
      (PersistenceAnomalyAnalyzer.Analyze lib now
        (NetworkAnomalyAnalyzer.Analyze (SuspiciousProcessAnalyzer.Analyze lib artifacts))) := by
    refine forall2_map_of _ (fun art h => ?_) _
    unfold PersistenceAnomalyAnalyzer.step
    rw [persistenceRules_empty lib now art h]
    refine ⟨fun ht => ?_, fun ht => ?_⟩
    · rw [if_pos ht]
      simp [applyRules]
    · rw [if_neg ht, applyRules_zero]
      exact ⟨rfl, rfl⟩
  exact forall2_comp (fun a b c hab hbc ha => by
    have hb : b = a := hab ha
    subst hb
    exact hbc ha) h12 h3

/-- Witness of C20, amended: the bare system launch daemon gains 10 points and the tag, the
process record with an empty payload keeps score and tags. -/
theorem builtin_on_empty_payload_witness :
    sampleBareDaemon.Data = [] ∧ sampleProcess.Data = [] ∧
    (runAnalyzers sampleLib 0 builtinAnalyzers [sampleBareDaemon, sampleProcess]).map
        (fun a => (a.RiskScore, a.Tags)) = [(10, ["non_apple_system_plist"]), (0, [])] ∧
    List.Forall₂
      (fun inp out => inp.Data = [] →
        ((inp.ArtifactType = "system_launch_agent" ∨
            inp.ArtifactType = "system_launch_daemon") →
          out.RiskScore = inp.RiskScore + 10 ∧
          out.Tags = appendUnique inp.Tags ["non_apple_system_plist"]) ∧
        (¬ (inp.ArtifactType = "system_launch_agent" ∨
            inp.ArtifactType = "system_launch_daemon") →
          out.RiskScore = inp.RiskScore ∧ out.Tags = inp.Tags))
      [sampleBareDaemon, sampleProcess]
      (runAnalyzers sampleLib 0 builtinAnalyzers [sampleBareDaemon, sampleProcess]) :=
  ⟨rfl, rfl, by decide, builtin_on_empty_payload sampleLib 0 [sampleBareDaemon, sampleProcess]⟩

/-- C21: through the three built-in analyzers, in every batch, an artifact whose type is
none of `running_process`, `network_connection`, `open_network_file`, `user_launch_agent`,
`system_launch_agent`, `system_launch_daemon`, `user_crontab`, `system_cron`,
`login_item_btm`, `login_item_backgrounditems`, `library_extension` keeps its risk score
and tags (it is returned unchanged), whatever its payload holds. -/
theorem builtin_ignore_other_types (lib : GoLib) (now : Int) (artifacts : List Artifact) :
    List.Forall₂
      (fun inp out => inp.ArtifactType ∉ builtinTypes →
        out.RiskScore = inp.RiskScore ∧ out.Tags = inp.Tags ∧ out = inp)
      artifacts (runAnalyzers lib now builtinAnalyzers artifacts) ∧
    builtinTypes = ["running_process", "network_connection", "open_network_file",
      "user_launch_agent", "system_launch_agent", "system_launch_daemon", "user_crontab",
      "system_cron", "login_item_btm", "login_item_backgrounditems", "library_extension"] := by
  refine ⟨?_, rfl⟩
  have h1 : List.Forall₂ (fun inp out => inp.ArtifactType ∉ builtinTypes → out = inp)
      artifacts (SuspiciousProcessAnalyzer.Analyze lib artifacts) :=
    forall2_map_of _ (fun art h => (builtinStep_other lib now (fun _ => 0) art h).1) artifacts
  have h2 : List.Forall₂ (fun inp out => inp.ArtifactType ∉ builtinTypes → out = inp)
      (SuspiciousProcessAnalyzer.Analyze lib artifacts)
      (NetworkAnomalyAnalyzer.Analyze (SuspiciousProcessAnalyzer.Analyze lib artifacts)) :=
    forall2_map_of _ (fun art h => (builtinStep_other lib now _ art h).2.1) _
  have h3 : List.Forall₂ (fun inp out => inp.ArtifactType ∉ builtinTypes → out = inp)
      (NetworkAnomalyAnalyzer.Analyze (SuspiciousProcessAnalyzer.Analyze lib artifacts))
      (PersistenceAnomalyAnalyzer.Analyze lib now
        (NetworkAnomalyAnalyzer.Analyze (SuspiciousProcessAnalyzer.Analyze lib artifacts))) :=
    forall2_map_of _ (fun art h => (builtinStep_other lib now (fun _ => 0) art h).2.2) _
  have hstep : ∀ a b c : Artifact,
      (a.ArtifactType ∉ builtinTypes → b = a) → (b.ArtifactType ∉ builtinTypes → c = b) →
      (a.ArtifactType ∉ builtinTypes → c = a) := by
    intro a b c hab hbc ha
    have hb : b = a := hab ha
    exact (hbc (hb ▸ ha)).trans hb
  have hall := forall2_comp hstep (forall2_comp hstep h1 h2) h3
  exact hall.imp (fun inp out h ht => by rw [h ht]; exact ⟨rfl, rfl, rfl⟩)

/-- Witness of C21: a browser visit passes the three built-in analyzers unchanged. -/
theorem builtin_ignore_other_types_witness :
    sampleVisit.ArtifactType ∉ builtinTypes ∧
    runAnalyzers sampleLib 0 builtinAnalyzers [sampleVisit] = [sampleVisit] := by
  have h := (List.forall₂_cons.mp
    (builtin_ignore_other_types sampleLib 0 [sampleVisit]).1).1 (by decide)
  exact ⟨by decide, by
    have hl : runAnalyzers sampleLib 0 builtinAnalyzers [sampleVisit]
        = [PersistenceAnomalyAnalyzer.step sampleLib 0
            (NetworkAnomalyAnalyzer.step (pidConnCount [SuspiciousProcessAnalyzer.step sampleLib sampleVisit])
              (SuspiciousProcessAnalyzer.step sampleLib sampleVisit))] := rfl
    rw [hl]
    exact congrArg (fun x => [x]) h.2.2⟩

/-- C22: for a runtime whose IP test does not depend on the case of the letters, as
`net.ParseIP` does not, and whose case tables give no rune outside ASCII a hexadecimal
digit or `/` as its lower case, as the Unicode tables do not, and for every indicator file,
no string is stored in two of the four sets that `NewIOCMatcher` builds; the members
compared are the stored forms, lower-cased for domains and hashes. -/
theorem newIOCMatcher_sets_disjoint (lib : GoLib)
    (hcase : ∀ s, lib.ParseIP (ToLower lib s) = true → lib.ParseIP s = true)
    (hlow : ∀ c : Char, 127 < c.toNat →
      isHexDigit (lib.LowerCase c) = false ∧ lib.LowerCase c ≠ '/')
    (lines : List String) :
    (∀ (k k1 : IOCKind) (x : String), x ∈ (NewIOCMatcher lib lines).stored k →
      x ∈ (NewIOCMatcher lib lines).stored k1 → k = k1) ∧
    List.Disjoint (NewIOCMatcher lib lines).ips (NewIOCMatcher lib lines).domains ∧
    List.Disjoint (NewIOCMatcher lib lines).ips (NewIOCMatcher lib lines).hashes ∧
    List.Disjoint (NewIOCMatcher lib lines).ips (NewIOCMatcher lib lines).paths ∧
    List.Disjoint (NewIOCMatcher lib lines).domains (NewIOCMatcher lib lines).hashes ∧
    List.Disjoint (NewIOCMatcher lib lines).domains (NewIOCMatcher lib lines).paths ∧
    List.Disjoint (NewIOCMatcher lib lines).hashes (NewIOCMatcher lib lines).paths := by
  have key := stored_disjoint lib hcase hlow lines
  refine ⟨key, ?_, ?_, ?_, ?_, ?_, ?_⟩
  · exact fun x h1 h2 => IOCKind.noConfusion (key IOCKind.ip IOCKind.domain x h1 h2)
  · exact fun x h1 h2 => IOCKind.noConfusion (key IOCKind.ip IOCKind.hash x h1 h2)
  · exact fun x h1 h2 => IOCKind.noConfusion (key IOCKind.ip IOCKind.path x h1 h2)
  · exact fun x h1 h2 => IOCKind.noConfusion (key IOCKind.domain IOCKind.hash x h1 h2)
  · exact fun x h1 h2 => IOCKind.noConfusion (key IOCKind.domain IOCKind.path x h1 h2)
  · exact fun x h1 h2 => IOCKind.noConfusion (key IOCKind.hash IOCKind.path x h1 h2)

/-- Witness of C22: an indicator file with one line of each kind, upper-case letters in
the domain and the hash; the sample runtime takes digits and dots for an IP literal. -/
theorem newIOCMatcher_sets_disjoint_witness :
    (∀ s, sampleLib.ParseIP (ToLower sampleLib s) = true → sampleLib.ParseIP s = true) ∧
    (∀ c : Char, 127 < c.toNat →
      isHexDigit (sampleLib.LowerCase c) = false ∧ sampleLib.LowerCase c ≠ '/') ∧
    (NewIOCMatcher sampleLib sampleIndicators).ips = ["8.8.8.8"] ∧
    (NewIOCMatcher sampleLib sampleIndicators).domains = ["evil.example.com"] ∧
    (NewIOCMatcher sampleLib sampleIndicators).hashes = ["d41d8cd98f00b204e9800998ecf8427e"] ∧
    (NewIOCMatcher sampleLib sampleIndicators).paths = ["/tmp/Evil"] ∧
    List.Disjoint (NewIOCMatcher sampleLib sampleIndicators).domains
      (NewIOCMatcher sampleLib sampleIndicators).hashes :=
  ⟨sampleLib_case, sampleLib_lower, by decide, by decide, by decide, by decide,
    (newIOCMatcher_sets_disjoint sampleLib sampleLib_case sampleLib_lower
      sampleIndicators).2.2.2.2.1⟩

/-- Counterexample to C23: the type `unified_log_status` ends
in `_status` and is described as a log entry. -/
theorem timestampDesc_status_counterexample :
    ¬ ∀ (lib : GoLib) (t : String), HasSuffix t "_status" = true →
      timestampDesc lib t = "Security Status Collected" := by
  intro h
  exact absurd (h sampleLib "unified_log_status" (by decide)) (by decide)

/-- C23, amended: for every artifact type that ends in `_status`, or whose lower-cased form
does, `timestampDesc` returns `Security Status Collected` unless the lower-cased type
starts with `unified_log_`, in which case the earlier case of the switch returns
`Log Entry`; the lower-casing is that of `strings.ToLower`, through the case tables of the
runtime for a rune outside ASCII. -/
theorem timestampDesc_status (lib : GoLib) (t : String)
    (h : HasSuffix t "_status" = true ∨ HasSuffix (ToLower lib t) "_status" = true) :
    timestampDesc lib t
      = if HasPrefix (ToLower lib t) "unified_log_" = true then "Log Entry"
        else "Security Status Collected" := by
  rcases h with h | h
  · exact timestampDesc_of_status t (hasSuffix_toLower t h)
  · exact timestampDesc_of_status t h

/-- Witness of C23, amended: `sip_status` is described as a security status, and with the
sample tables `unİfied_log_status`, written with the dotted capital I, as a log entry. -/
theorem timestampDesc_status_witness :
    HasSuffix "sip_status" "_status" = true ∧
    timestampDesc sampleLib "sip_status"
      = (if HasPrefix (ToLower sampleLib "sip_status") "unified_log_" = true then "Log Entry"
        else "Security Status Collected") ∧
    timestampDesc sampleLib "sip_status" = "Security Status Collected" ∧
    HasSuffix sampleDottedType "_status" = true ∧
    timestampDesc sampleLib sampleDottedType = "Log Entry" :=
  ⟨by decide, timestampDesc_status sampleLib "sip_status" (Or.inl (by decide)), by decide,
    by decide, by decide⟩

/-- C24: for every artifact whose risk score is a 64-bit integer, the record that
`GenerateTimeline` writes for it has the nine columns of the header, and parsing the written
text back gives the row again: column 4 is the collector id, column 5 the artifact type,
column 6 the hostname, unchanged whatever characters they hold, and column 7 reads back as
the risk score, 0 included. -/
theorem timeline_row_roundtrip (lib : GoLib) (summarize : Option (Artifact → String))
    (marshal : DataMap → String) (a : Artifact)
    (h1 : minInt64 ≤ a.RiskScore) (h2 : a.RiskScore ≤ maxInt64) :
    ∃ fields : List String,
      csvParseRecord
        (csvWrite (GenerateTimeline.rowOf marshal (GenerateTimeline.entryOf lib summarize a)))
        = some fields ∧
      fields.length = GenerateTimeline.header.length ∧
      fields[4]? = some a.CollectorID ∧
      fields[5]? = some a.ArtifactType ∧
      fields[6]? = some a.Hostname ∧
      fields[7]?.map Atoi = some a.RiskScore := by
  refine ⟨GenerateTimeline.rowOf marshal (GenerateTimeline.entryOf lib summarize a),
    csvParse_write _ (by simp [GenerateTimeline.rowOf]), rfl, rfl, rfl, rfl, ?_⟩
  simp only [GenerateTimeline.rowOf, GenerateTimeline.entryOf, List.getElem?_cons_succ,
    List.getElem?_cons_zero, Option.map_some']
  rw [atoi_formatInt a.RiskScore h1 h2]

/-- Witness of C24: the sample artifact with commas, quotes and line breaks in its strings
and risk score 0; its hostname is written between quotes with the inner quotes doubled. -/
theorem timeline_row_roundtrip_witness :
    sampleQuoted.RiskScore = 0 ∧
    csvWriteField sampleQuoted.Hostname = "\" host \"\"a\"\"\nb,c\r\n\"".data ∧
    ∃ fields : List String,
      csvParseRecord
        (csvWrite (GenerateTimeline.rowOf (fun _ => "\x7b\x7d")
          (GenerateTimeline.entryOf sampleLib none sampleQuoted)))
        = some fields ∧
      fields.length = GenerateTimeline.header.length ∧
      fields[4]? = some sampleQuoted.CollectorID ∧
      fields[5]? = some sampleQuoted.ArtifactType ∧
      fields[6]? = some sampleQuoted.Hostname ∧
      fields[7]?.map Atoi = some sampleQuoted.RiskScore :=
  ⟨rfl, by decide,
    timeline_row_roundtrip sampleLib none (fun _ => "\x7b\x7d") sampleQuoted (by decide) (by decide)⟩

/-- C25: the two resolvers do not agree on every artifact. The export resolver tries the
fields `modified` and `created` and the layout RFC3339Nano, which the report resolver lacks.
The sample visit has no collector-resolved time and a `modified` field that parses: the
export resolver returns the parsed instant, the report resolver the collection time, and
the two timelines order the visit and a process record collected in between in opposite
ways. -/
theorem resolvers_differ_on_modified :
    sampleVisit.EventTime = none ∧
    output.resolveEventTime sampleLib sampleVisit = 1672531200000000000 ∧
    report.resolveEventTime sampleLib sampleVisit = 1700000000000000000 ∧
    output.resolveEventTime sampleLib sampleVisit ≠ report.resolveEventTime sampleLib sampleVisit ∧
    (GenerateTimeline.entries sampleLib none [sampleBetween, sampleVisit]).map
        (fun e => e.ArtifactType) = ["safari_history", "running_process"] ∧
    (buildTimeline sampleLib (fun _ => "") [sampleBetween, sampleVisit]).map
        (fun r => r.ArtifactType) = ["running_process", "safari_history"] ∧
    output.timeFields = report.timeFields ++ ["modified", "created"] ∧
    output.timeLayouts = report.timeLayouts ++ [RFC3339Nano] :=
  ⟨rfl, by decide, by decide, by decide, by decide, by decide, rfl, rfl⟩

/-- Counterexample to C26: no `running_process` artifact gains 30+20+15+25+20 = 110 points
from the Suspicious Process analyzer. -/
theorem suspiciousProcess_all_five_counterexample :
    ¬ ∃ (lib : GoLib) (art : Artifact), art.ArtifactType = "running_process" ∧
      (SuspiciousProcessAnalyzer.step lib art).RiskScore
        = art.RiskScore + (30 + 20 + 15 + 25 + 20) := by
  rintro ⟨lib, art, ht, hs⟩
  have hle := @processSpecScore_le lib art
  rw [processStep_score art ht] at hs
  omega

/-- C26, amended: on no artifact do all five Suspicious Process rules fire together. The
rule `exe_in_tmp` needs a non-empty `exe` and the rule `no_exe_path` an empty one; the rule
`suspicious_name` needs a last path segment of `name` from the tool list, none of which
starts with a dot, and the rule `hidden_process` one that starts with a dot. So at most
three rules fire, and a `running_process` artifact gains at most 75 points in one pass; the
scenario process reaches that bound with `exe_in_tmp`, `suspicious_name:nc` and
`root_in_user_dir`. -/
theorem suspiciousProcess_at_most_three (lib : GoLib) (art : Artifact) :
    ¬ (processExeInTmp art = true ∧ processNoExePath art = true) ∧
    ¬ (processSuspiciousName lib art = true ∧ processHidden art = true) ∧
    processSpecScore lib art ≤ 75 ∧
    (art.ArtifactType = "running_process" →
      (SuspiciousProcessAnalyzer.step lib art).RiskScore = art.RiskScore + processSpecScore lib art ∧
      (SuspiciousProcessAnalyzer.step lib art).RiskScore ≤ art.RiskScore + 75) ∧
    (SuspiciousProcessAnalyzer.Analyze sampleLib [sampleEvilProcess]).map (fun a => (a.RiskScore, a.Tags))
      = [(75, ["exe_in_tmp", "suspicious_name:nc", "root_in_user_dir"])] := by
  refine ⟨exeInTmp_noExe_exclusive art, suspicious_hidden_exclusive art,
    processSpecScore_le art, fun ht => ?_, by decide⟩
  have hle := @processSpecScore_le lib art
  have hs := @processStep_score lib art ht
  exact ⟨hs, by omega⟩

/-- Witness of C26: the scenario process is a `running_process`; three rules fire on it and
it gains 75 points. -/
theorem suspiciousProcess_at_most_three_witness :
    sampleEvilProcess.ArtifactType = "running_process" ∧
    processSpecScore sampleLib sampleEvilProcess = 75 ∧
    (SuspiciousProcessAnalyzer.step sampleLib sampleEvilProcess).RiskScore
      ≤ sampleEvilProcess.RiskScore + 75 :=
  ⟨rfl, by decide, ((suspiciousProcess_at_most_three sampleLib sampleEvilProcess).2.2.2.1 rfl).2⟩

/-- C27: in every batch, for a `network_connection` or `open_network_file` artifact with a
non-empty pid, the high-count rule of the Network Anomaly analyzer fires exactly when the
number of artifacts of these two types in the whole batch whose pid formats to the same
string is greater than 50; the rule contributes 10 to the score next to the three port
rules, and, when the artifact did not carry it before, the tag `high_conn_count` is on the
result exactly in that case. Artifacts of other types are not counted. In a batch of `n`
copies of the sample connection the count is `n`, and every artifact of the result carries
the tag and the score 40 when `50 < n`, and no such tag and the score 30 otherwise. -/
theorem networkAnomaly_high_conn_count (artifacts : List Artifact) :
    List.Forall₂
      (fun inp out =>
        (inp.ArtifactType = "network_connection" ∨ inp.ArtifactType = "open_network_file") →
        getString inp.Data "pid" ≠ "" →
          (networkHighCount (pidConnCount artifacts) inp = true ↔
            50 < connectionsOf artifacts (getString inp.Data "pid")) ∧
          out.RiskScore = inp.RiskScore + pts (networkC2 inp) 30 + pts (networkIRC inp) 20 +
            pts (networkTor inp) 20 +
            pts (decide (50 < connectionsOf artifacts (getString inp.Data "pid"))) 10 ∧
          ("high_conn_count" ∉ inp.Tags →
            ("high_conn_count" ∈ out.Tags ↔
              50 < connectionsOf artifacts (getString inp.Data "pid"))))
      artifacts (NetworkAnomalyAnalyzer.Analyze artifacts) ∧
    (∀ (a : Artifact) (rest : List Artifact) (pid : String),
      ¬ (a.ArtifactType = "network_connection" ∨ a.ArtifactType = "open_network_file") →
      connectionsOf (a :: rest) pid = connectionsOf rest pid) ∧
    (∀ (a : Artifact) (rest : List Artifact),
      (a.ArtifactType = "network_connection" ∨ a.ArtifactType = "open_network_file") →
      connectionsOf (a :: rest) (getString a.Data "pid")
        = connectionsOf rest (getString a.Data "pid") + 1) ∧
    (∀ n : Nat, connectionsOf (List.replicate n sampleConnection) "100" = n) ∧
    (∀ n : Nat, ∀ out ∈ NetworkAnomalyAnalyzer.Analyze (List.replicate n sampleConnection),
      ("high_conn_count" ∈ out.Tags ↔ 50 < n) ∧
      out.RiskScore = 30 + pts (decide (50 < n)) 10) := by
  refine ⟨forall2_map_of _ (fun art ht hpid => networkStep_high artifacts art ht hpid) artifacts,
    fun a rest pid ht => ?_, fun a rest ht => ?_, connectionsOf_replicate, fun n out hout => ?_⟩
  · have hf : isNetworkType a.ArtifactType = false := by
      rw [← Bool.not_eq_true, isNetworkType_iff]
      exact ht
    simp [connectionsOf, List.filter_cons, hf]
  · have hf : isNetworkType a.ArtifactType = true := (isNetworkType_iff _).mpr ht
    simp [connectionsOf, List.filter_cons, hf]
  · unfold NetworkAnomalyAnalyzer.Analyze at hout
    rw [List.map_replicate] at hout
    have hout := List.eq_of_mem_replicate hout
    have h := networkStep_high (List.replicate n sampleConnection) sampleConnection
      (Or.inl rfl) (by decide)
    have hpid : getString sampleConnection.Data "pid" = "100" := by decide
    rw [hpid, connectionsOf_replicate] at h
    have h1 : networkC2 sampleConnection = true := by decide
    have h2 : networkIRC sampleConnection = false := by decide
    have h3 : networkTor sampleConnection = false := by decide
    rw [hout]
    refine ⟨h.2.2 (by decide), ?_⟩
    rw [h.2.1, h1, h2, h3]
    simp [pts, sampleConnection, newArtifact]

/-- Witness of C27: the sample connection in a batch of itself alone; one connection is
counted for its pid, so the high-count rule does not fire. -/
theorem networkAnomaly_high_conn_count_witness :
    (sampleConnection.ArtifactType = "network_connection" ∨
      sampleConnection.ArtifactType = "open_network_file") ∧
    getString sampleConnection.Data "pid" ≠ "" ∧
    connectionsOf [sampleConnection] (getString sampleConnection.Data "pid") = 1 ∧
    (networkHighCount (pidConnCount [sampleConnection]) sampleConnection = true ↔
      50 < connectionsOf [sampleConnection] (getString sampleConnection.Data "pid")) := by
  have h := (List.forall₂_cons.mp (networkAnomaly_high_conn_count [sampleConnection]).1).1
    (Or.inl rfl) (by decide)
  exact ⟨Or.inl rfl, by decide, by decide, h.1⟩

/-- Counterexample to C28: on the sample connection the explicit `remote_port` holds the
number 0, and the port the rules use is 1337, taken from `remote_addr`. -/
theorem resolveRemotePort_explicit_counterexample :
    ¬ ∀ (d : DataMap) (n : Int), d.lookup "remote_port" = some (Value.int n) →
      resolveRemotePort d = n := by
  intro h
  exact absurd (h sampleZeroPort.Data 0 (by decide)) (by decide)

/-- C28, amended: the remote port the Network Anomaly rules use is the `remote_port` field
read through `getPort` whenever that reading is not 0; an integer held by the field is read
as itself, and a missing field as 0. When the reading is 0, be it from a missing field, a
text that is no number or an explicit 0, the port is the integer after the last `:` of
`remote_addr`, or 0 when `remote_addr` is empty or has no `:`; a suffix with a character
that is neither a digit nor a sign reads as 0. With port 0 the C2 and IRC rules do not fire
and the Tor rule fires on the local port alone. The sample connection with an explicit port
0 gets the port 1337 of its address, 30 points and the tag `c2_port:1337`. -/
theorem resolveRemotePort_spec (d : DataMap) :
    (getPort d "remote_port" ≠ 0 → resolveRemotePort d = getPort d "remote_port") ∧
    (∀ n : Int, d.lookup "remote_port" = some (Value.int n) → minInt64 ≤ n → n ≤ maxInt64 →
      getPort d "remote_port" = n ∧ (n ≠ 0 → resolveRemotePort d = n)) ∧
    (d.lookup "remote_port" = none → getPort d "remote_port" = 0) ∧
    (getPort d "remote_port" = 0 →
      resolveRemotePort d =
        if getString d "remote_addr" = "" ∨ LastIndex (getString d "remote_addr") ':' < 0
        then 0
        else Atoi (sliceFrom (getString d "remote_addr")
          (LastIndex (getString d "remote_addr") ':' + 1))) ∧
    (∀ s : String, (∃ c ∈ s.data, c.isDigit = false ∧ c ≠ '-' ∧ c ≠ '+') → Atoi s = 0) ∧
    Atoi "" = 0 ∧
    (∀ art : Artifact, resolveRemotePort art.Data = 0 →
      networkC2 art = false ∧ networkIRC art = false ∧
      networkTor art = decide (getPort art.Data "local_port" ∈ torPorts)) ∧
    sampleZeroPort.Data.lookup "remote_port" = some (Value.int 0) ∧
    resolveRemotePort sampleZeroPort.Data = 1337 ∧
    (NetworkAnomalyAnalyzer.Analyze [sampleZeroPort]).map (fun a => (a.RiskScore, a.Tags))
      = [(30, ["c2_port:1337"])] := by
  refine ⟨resolveRemotePort_of_ne_zero d, fun n hn h1 h2 => ?_, getPort_missing d _,
    resolveRemotePort_of_zero d, atoi_non_numeric, by decide, network_rules_of_port_zero,
    by decide, by decide, by decide⟩
  have hp := getPort_int d "remote_port" n hn h1 h2
  refine ⟨hp, fun h0 => ?_⟩
  rw [resolveRemotePort_of_ne_zero d (by rw [hp]; exact h0), hp]

/-- Witness of C28: the sample connection of the second scenario holds the explicit port
4444, which is the port the rules use. -/
theorem resolveRemotePort_spec_witness :
    getPort sampleConnection.Data "remote_port" ≠ 0 ∧
    resolveRemotePort sampleConnection.Data = getPort sampleConnection.Data "remote_port" ∧
    getPort sampleConnection.Data "remote_port" = 4444 :=
  ⟨by decide, (resolveRemotePort_spec sampleConnection.Data).1 (by decide), by decide⟩

/-- C29: for every artifact list and reference time, any two built-in analyzers commute as
functions on the whole list, and running the three of them in any order gives the same
list, every field and the tag sequence of every artifact included. Each analyzer is the
index-wise application of its rules, the type sets of two different built-in analyzers have
no type in common, an analyzer leaves an artifact outside its types unchanged, and so at
most one of two different built-in analyzers changes a given artifact. -/
theorem builtin_analyzers_commute (lib : GoLib) (now : Int) (artifacts : List Artifact) :
    (∀ a b : Analyzer, a.isBuiltin = true → b.isBuiltin = true →
      a.Analyze lib now (b.Analyze lib now artifacts)
        = b.Analyze lib now (a.Analyze lib now artifacts)) ∧
    (∀ order : List Analyzer, order.Perm builtinAnalyzers →
      runAnalyzers lib now order artifacts = runAnalyzers lib now builtinAnalyzers artifacts) ∧
    (∀ a : Analyzer, a.isBuiltin = true →
      a.Analyze lib now artifacts
        = artifacts.map
            (fun art => applyRules art (rulesOf lib now (pidConnCount artifacts) a art))) ∧
    (∀ a b : Analyzer, a.isBuiltin = true → b.isBuiltin = true → a ≠ b →
      ∀ t ∈ analyzerTypes a, t ∉ analyzerTypes b) ∧
    (∀ (a : Analyzer) (counts : String → Int) (art : Artifact),
      art.ArtifactType ∉ analyzerTypes a →
      applyRules art (rulesOf lib now counts a art) = art) ∧
    (∀ (a b : Analyzer) (counts : String → Int) (art : Artifact),
      a.isBuiltin = true → b.isBuiltin = true → a ≠ b →
      applyRules art (rulesOf lib now counts a art) = art ∨
      applyRules art (rulesOf lib now counts b art) = art) := by
  refine ⟨fun a b ha hb => ?_, fun order hp => ?_,
    fun a ha => builtin_analyze_eq lib now a ha artifacts, analyzerTypes_disjoint,
    fun a counts art h => ?_, fun a b counts art ha hb hab => ?_⟩
  · have h := runAnalyzers_perm lib now artifacts [b, a] [a, b]
      (fun x hx => by
        simp only [List.mem_cons, List.mem_singleton, List.not_mem_nil, or_false] at hx
        rcases hx with rfl | rfl
        · exact hb
        · exact ha)
      (List.Perm.swap a b [])
    exact h
  · refine runAnalyzers_perm lib now artifacts order builtinAnalyzers (fun a ha => ?_) hp
    have hmem : a ∈ builtinAnalyzers := hp.mem_iff.mp ha
    simp only [builtinAnalyzers, List.mem_cons, List.mem_singleton, List.not_mem_nil,
      or_false] at hmem
    rcases hmem with rfl | rfl | rfl <;> rfl
  · rw [rulesOf_zero_of_type lib now counts a art h, applyRules_zero]
  · by_cases hta : art.ArtifactType ∈ analyzerTypes a
    · right
      rw [rulesOf_zero_of_type lib now counts b art
        (analyzerTypes_disjoint a b ha hb hab _ hta), applyRules_zero]
    · left
      rw [rulesOf_zero_of_type lib now counts a art hta, applyRules_zero]

/-- Witness of C29: the sample batch, with one artifact for each built-in analyzer, run
with the persistence analyzer first. -/
theorem builtin_analyzers_commute_witness :
    [Analyzer.persistenceAnomaly, Analyzer.suspiciousProcess, Analyzer.networkAnomaly].Perm
      builtinAnalyzers ∧
    runAnalyzers sampleLib 0
        [Analyzer.persistenceAnomaly, Analyzer.suspiciousProcess, Analyzer.networkAnomaly]
        sampleBatch
      = runAnalyzers sampleLib 0 builtinAnalyzers sampleBatch ∧
    (runAnalyzers sampleLib 0 builtinAnalyzers sampleBatch).map (fun a => a.RiskScore)
      = [50, 30, 35] :=
  ⟨by decide,
    (builtin_analyzers_commute sampleLib 0 sampleBatch).2.1 _ (by decide), by decide⟩

/-- C30: through `RunAll` with an IOC matcher registered after the three built-in
analyzers, every artifact that entered with no severity and has a string-valued field
containing a stored indicator leaves with risk score 90 and severity `critical`. -/
theorem runAll_ioc_critical (lib : GoLib) (now : Int) (m : IOCMatcher)
    (artifacts : List Artifact) :
    List.Forall₂
      (fun inp out => inp.Severity = "" → m.hasMatch lib inp →
        out.RiskScore = 90 ∧ out.Severity = "critical")
      artifacts
      (RunAll lib now (RegisterAnalyzer builtinAnalyzers (Analyzer.iocMatcher m)) artifacts) := by
  have hmid := runAnalyzers_data_severity lib now builtinAnalyzers artifacts
  rw [runAll_eq_map, runAnalyzers_register]
  show List.Forall₂ _ artifacts
    ((m.Analyze lib (runAnalyzers lib now builtinAnalyzers artifacts)).map finalizeSeverity)
  unfold IOCMatcher.Analyze
  rw [List.map_map, List.forall₂_map_right_iff]
  refine hmid.imp ?_
  intro inp mid hm hsev hmatch
  have hmm : m.hasMatch lib mid := (hasMatch_congr m inp mid hm.1).mpr hmatch
  have hs : mid.Severity = "" := hm.2.trans hsev
  simp only [Function.comp, iocStep_of_match m mid ((scan_matched_iff m mid).mpr hmm)]
  unfold finalizeSeverity
  simp [hs]
  decide

/-- Witness of C30: the sample connection enters without severity, the C2 rule gives it 30
points, and its `remote_addr` holds the stored indicator `8.8.8.8`; it leaves with score
90 and severity `critical`. -/
theorem runAll_ioc_critical_witness :
    sampleConnection.Severity = "" ∧
    sampleMatcher.hasMatch sampleLib sampleConnection ∧
    (runAnalyzers sampleLib 0 builtinAnalyzers [sampleConnection]).map (fun a => a.RiskScore)
      = [30] ∧
    (RunAll sampleLib 0 (RegisterAnalyzer builtinAnalyzers (Analyzer.iocMatcher sampleMatcher))
      [sampleConnection]).map (fun a => (a.RiskScore, a.Severity)) = [(90, "critical")] := by
  have hit : sampleMatcher.hasMatch sampleLib sampleConnection :=
    ⟨IOCKind.ip, "8.8.8.8", by decide, ("remote_addr", Value.str "8.8.8.8"), by decide,
      "8.8.8.8", rfl, by decide⟩
  have h := (List.forall₂_cons.mp
    (runAll_ioc_critical sampleLib 0 sampleMatcher [sampleConnection])).1 rfl hit
  refine ⟨rfl, hit, by decide, ?_⟩
  exact congrArg (fun x => [x]) (Prod.ext h.1 h.2)

end Triagectl
